import Mathlib

/-! Package `pkg/exec`: running a pipeline of processes with conditional success.

A shallow embedding of `src/pkg/exec/run.go`, followed by the functions of
`src/pkg/docker/docker.go` and `src/pkg/errorhandling/handling.go` that print the
output of the container engine.

* Go's `regexp` package is a parameter (`Regexp`): which expressions compile and
  which lines a compiled expression matches.
* A stream (an `io.ReadCloser` read through a `bufio.Scanner`) is the finite list
  of the lines the scanner returns.
* An `exec.Cmd` handle carries, next to its `Process` flag, what the operating
  system answers to `Start()` and `Wait()`; every process ends, and a pipe never
  fills up, so that a monitor that has stopped reading does not stop its process.
* An `error` is its message; `nil` is `none`.
* The goroutines of a `RunStack` call are interleaved by an explicit schedule
  (`List Action`); the channels are unbuffered, so a send is a rendezvous with
  the receive.
* What a call does to processes and monitors is recorded as a list of events.
* Go's `strings` functions are given on the characters of a text; `json.Unmarshal`
  and the calls to the container engine are parameters.
-/

namespace Exec

/-! ## The regexp package -/

/-- The part of Go's `regexp` package the code uses. A compiled expression is
represented by its source text. -/
structure Regexp where
  /-- Whether `regexp.Compile` accepts the expression (`MustCompile` panics otherwise). -/
  compiles : String → Bool
  /-- Holds `(*Regexp).MatchString`: expression first, line second. -/
  MatchString : String → String → Bool

/-! ## GetConditionalCheck (run.go 176-191) -/

/-- Closure returned by `GetConditionalCheck`: the captured variables
`permissibleConditions` and `permissibleState`. -/
structure Check where
  permissibleConditions : List String
  permissibleState : Bool
deriving DecidableEq

/-- Lines 177-181 of run.go: every conditional is compiled with `MustCompile`;
`none` stands for the panic of `MustCompile` on an expression that does not compile. -/
def GetConditionalCheck (re : Regexp) (conditionals : List String) : Option Check :=
  if conditionals.all re.compiles then
    some { permissibleConditions := conditionals, permissibleState := false }
  else none

/-- Lines 183-190 of run.go, one call of the returned function: the loop sets
`permissibleState` for every matching expression, and the call returns
`permissibleState`. The second component is the closure after the call. -/
def Check.call (re : Regexp) (c : Check) (line : String) : Bool × Check :=
  let st := c.permissibleConditions.foldl
    (fun st pc => if re.MatchString pc line then true else st) c.permissibleState
  (st, { c with permissibleState := st })

/-- The values returned by successive calls of one closure on the given lines. -/
def Check.feed (re : Regexp) : Check → List String → List Bool
  | _, [] => []
  | c, line :: rest => (c.call re line).1 :: Check.feed re (c.call re line).2 rest

/-- Whether the line matches at least one of the expressions. -/
def matchesAny (re : Regexp) (conditionals : List String) (line : String) : Bool :=
  conditionals.any (fun pc => re.MatchString pc line)

/-- Whether at least one of the lines matches at least one of the expressions. -/
def anyLineMatches (re : Regexp) (conditionals : List String) (lines : List String) : Bool :=
  lines.any (matchesAny re conditionals)

/-! ## HandleOutput (run.go 195-215) -/

/-- What `HandleOutput` does to the outside: a value sent on `permissible`, or a
message handed to `log.Debug().Msgf`. -/
inductive Output where
  | send (v : Bool)
  | log (msg : String)
deriving DecidableEq

/-- The message of line 208, `"\t| %s"`. -/
def logMsg (line : String) : String := "\t| " ++ line

/-- Lines 201-214 of run.go with a receiver that takes every value sent (as the
goroutine of `TestHandleOutput` does): the outputs in program order, from the
loop state `prev`, `p` and the closure `permitted`. -/
def HandleOutput.loop (re : Regexp) : List String → String → Bool → Check → List Output
  | [], _, p, _ => if !p then [Output.send false] else []
  | line :: rest, prev, p, permitted =>
    let r := permitted.call re line
    (if r.1 then [Output.send true] else [])
      ++ (if line ≠ prev then [Output.log (logMsg line)] else [])
      ++ HandleOutput.loop re rest line (p || r.1) r.2

/-- Models `HandleOutput(in, permitted, permissible)` run to completion against a
receiver that takes every value: `input` is the list of lines of `in`. -/
def HandleOutput (re : Regexp) (input : List String) (permitted : Check) : List Output :=
  HandleOutput.loop re input "" false permitted

/-- The values sent on the channel, in order. -/
def sends : List Output → List Bool
  | [] => []
  | Output.send v :: rest => v :: sends rest
  | Output.log _ :: rest => sends rest

/-- The messages logged, in order. -/
def logs : List Output → List String
  | [] => []
  | Output.send _ :: rest => logs rest
  | Output.log msg :: rest => msg :: logs rest

/-! ## HandleOutput as a goroutine

Inside `RunStack` the monitors run concurrently, share one closure, and meet a
receiver that takes a single value. The same lines of code are therefore also
given step by step: a monitor runs until it has to send, and stays there until
its value is taken. -/

/-- Where a `HandleOutput` goroutine stands. -/
inductive Pc where
  /-- At `scanner.Scan()`, line 201. -/
  | scan
  /-- Blocked in `permissible <- true`, line 204, while handling this line. -/
  | sendTrue (line : String)
  /-- Blocked in `permissible <- false`, line 213. -/
  | sendFalse
  /-- Returned. -/
  | done
deriving DecidableEq

/-- State of one `HandleOutput` goroutine: the lines of `in` not yet scanned,
the locals `prev` and `p`, the control point, and the messages logged so far. -/
structure Monitor where
  input : List String
  prev : String
  p : Bool
  pc : Pc
  logged : List String
deriving DecidableEq

/-- State on entry to `HandleOutput` (lines 196-200). -/
def Monitor.init (input : List String) : Monitor :=
  { input := input, prev := "", p := false, pc := Pc.scan, logged := [] }

/-- Lines 207-210: log the line unless it repeats `prev`, then remember it. -/
def Monitor.logLine (m : Monitor) (line : String) : Monitor :=
  { m with logged := if line ≠ m.prev then m.logged ++ [logMsg line] else m.logged,
           prev := line }

/-- One step a monitor takes on its own, with the closure it calls. At
`scanner.Scan()` it takes the next line and calls `permitted`; on `true` it goes
to the send of line 204, otherwise it finishes the iteration. At the end of the
input it goes to the send of line 213 when `p` is false and returns otherwise.
A monitor blocked in a send, or returned, does not move. -/
def Monitor.step (re : Regexp) (m : Monitor) (permitted : Check) : Monitor × Check :=
  match m.pc, m.input with
  | Pc.scan, line :: rest =>
    let r := permitted.call re line
    if r.1 then ({ m with input := rest, pc := Pc.sendTrue line }, r.2)
    else ({ m.logLine line with input := rest }, r.2)
  | Pc.scan, [] =>
    if m.p then ({ m with pc := Pc.done }, permitted)
    else ({ m with pc := Pc.sendFalse }, permitted)
  | _, _ => (m, permitted)

/-- The value a monitor is blocked sending, if any. -/
def Monitor.offer (m : Monitor) : Option Bool :=
  match m.pc with
  | Pc.sendTrue _ => some true
  | Pc.sendFalse => some false
  | _ => none

/-- The monitor after its pending value has been received: line 205 and the
rest of the iteration after the send of line 204, the return after line 213. -/
def Monitor.sent (m : Monitor) : Monitor :=
  match m.pc with
  | Pc.sendTrue line => { m.logLine line with p := true, pc := Pc.scan }
  | Pc.sendFalse => { m with pc := Pc.done }
  | _ => m

/-- Iterates `Monitor.step` the given number of times. -/
def Monitor.advance (re : Regexp) : Nat → Monitor → Check → Monitor × Check
  | 0, m, permitted => (m, permitted)
  | n + 1, m, permitted =>
    Monitor.advance re n (m.step re permitted).1 (m.step re permitted).2

/-- A monitor run alone against a receiver that takes every value as soon as it
is offered, for the given number of moves: the values taken, in order, and the
monitor at the end. -/
def Monitor.drain (re : Regexp) : Nat → Monitor → Check → List Bool × Monitor
  | 0, m, _ => ([], m)
  | n + 1, m, permitted =>
    match m.offer with
    | some v => (v :: (Monitor.drain re n m.sent permitted).1,
                 (Monitor.drain re n m.sent permitted).2)
    | none => Monitor.drain re n (m.step re permitted).1 (m.step re permitted).2

/-- The goroutines of one `RunStack` call (lines 96-141): the closure `check`
both monitors are given, the monitor of `stack[0].stderr` (which sends on
`isSuccessMessageInStdOut`), the monitor of `stack[0].stdout` (which sends on
`isSuccessMessageInStdErr`), and the value the `select` of lines 110-119 has
received, once it has. -/
structure Sel where
  check : Check
  stderrMonitor : Option Monitor
  stdoutMonitor : Option Monitor
  received : Option Bool
deriving DecidableEq

/-- One scheduling decision. -/
inductive Action where
  /-- The monitor of stderr takes a step. -/
  | stderrStep
  /-- The monitor of stdout takes a step. -/
  | stdoutStep
  /-- The `select` takes `case stdout := <-isSuccessMessageInStdOut`. -/
  | caseStdOut
  /-- The `select` takes `case stderr := <-isSuccessMessageInStdErr`. -/
  | caseStdErr
deriving DecidableEq

/-- State after lines 133-141: a monitor for each stream that is not nil. -/
def Sel.init (check : Check) (stderr stdout : Option (List String)) : Sel :=
  { check := check,
    stderrMonitor := stderr.map Monitor.init,
    stdoutMonitor := stdout.map Monitor.init,
    received := none }

/-- Effect of one scheduling decision. A decision that cannot be taken (no such
monitor, nothing offered on that channel, the `select` already done) changes
nothing. -/
def Sel.exec (re : Regexp) (s : Sel) : Action → Sel
  | Action.stderrStep =>
    match s.stderrMonitor with
    | some m => { s with stderrMonitor := some (m.step re s.check).1,
                         check := (m.step re s.check).2 }
    | none => s
  | Action.stdoutStep =>
    match s.stdoutMonitor with
    | some m => { s with stdoutMonitor := some (m.step re s.check).1,
                         check := (m.step re s.check).2 }
    | none => s
  | Action.caseStdOut =>
    match s.received, s.stderrMonitor with
    | none, some m =>
      match m.offer with
      | some v => { s with stderrMonitor := some m.sent, received := some v }
      | none => s
    | _, _ => s
  | Action.caseStdErr =>
    match s.received, s.stdoutMonitor with
    | none, some m =>
      match m.offer with
      | some v => { s with stdoutMonitor := some m.sent, received := some v }
      | none => s
    | _, _ => s

/-- Runs a schedule. -/
def Sel.run (re : Regexp) (s : Sel) (sched : List Action) : Sel :=
  sched.foldl (Sel.exec re) s

/-- The value the `select` receives. When the schedule given has not brought a
value to the `select`, the execution is continued in a fixed way: the monitor
of stderr runs alone until it sends and its value is taken, or, when there is no
such monitor, the monitor of stdout does. `none` when there is no monitor at
all: then nothing is ever sent and the `select` blocks for ever. -/
def Sel.verdict (re : Regexp) (s : Sel) : Option Bool :=
  match s.received with
  | some v => some v
  | none =>
    match s.stderrMonitor with
    | some m => (m.advance re (m.input.length + 1) s.check).1.offer
    | none =>
      match s.stdoutMonitor with
      | some m => (m.advance re (m.input.length + 1) s.check).1.offer
      | none => none

/-! ## Process handles -/

/-- A pipe of the operating system, named after the command whose output it
carries: the pipe made by `StdoutPipe()`, or by `StderrPipe()`, of the command at
position `i` of the stack. -/
inductive OsPipe where
  | stdoutOf (i : Nat)
  | stderrOf (i : Nat)
deriving DecidableEq

/-- The part of an `exec.Cmd` that the package uses. -/
structure Cmd where
  /-- The value of `cmd.String()`, the command line. -/
  cmdString : String
  /-- The value of `cmd.Dir`. -/
  Dir : String
  /-- Whether `cmd.Process != nil`, that is, the command has been started. -/
  Process : Bool
  /-- What the operating system answers when the process is created. -/
  startErr : Option String
  /-- What `cmd.Wait()` returns once the process has ended. -/
  waitErr : Option String
  /-- The value of `cmd.Args`: the name of the command, then its arguments. -/
  Args : List String := []
  /-- The value of `cmd.Stdin`: the pipe whose read end it is, if set. -/
  Stdin : Option OsPipe := none
  /-- The value of `cmd.Stdout`: the pipe whose write end it is, if set. -/
  Stdout : Option OsPipe := none
  /-- The value of `cmd.Stderr`: the pipe whose write end it is, if set. -/
  Stderr : Option OsPipe := none
  /-- The lines the process writes on its standard output. -/
  writesStdout : List String := []
  /-- The lines the process writes on its standard error. -/
  writesStderr : List String := []
deriving DecidableEq

/-- Models `(*exec.Cmd).Start`: a command that has been started already is refused,
otherwise the answer of the operating system decides; on success `Process` is set. -/
def Cmd.Start (c : Cmd) : Except String Cmd :=
  if c.Process then Except.error "exec: already started"
  else
    match c.startErr with
    | some e => Except.error e
    | none => Except.ok { c with Process := true }

/-- Models `(*exec.Cmd).Wait`. -/
def Cmd.Wait (c : Cmd) : Option String := c.waitErr

/-- The struct `RunCmd` (lines 16-20): a stream that is nil is `none`, a captured
stream is the list of lines its scanner will return. -/
structure RunCmd where
  cmd : Cmd
  stdout : Option (List String)
  stderr : Option (List String)
deriving DecidableEq

/-- The message of `errors.Wrap(fmt.Errorf("%s, %w", cmd.String(), err), 0)`. -/
def wrap (c : Cmd) (err : String) : String := c.cmdString ++ ", " ++ err

/-- A captured stream. -/
inductive Fd where
  | stdout
  | stderr
deriving DecidableEq

/-- What a `RunStack` call does to processes and monitors. Stages are numbered
by their position in the stack the call was given. -/
inductive Event where
  /-- The call of `stack[i].cmd.Start()`. -/
  | start (i : Nat)
  /-- The launch of `go HandleOutput(...)` on a stream of stage `i`. -/
  | monitor (i : Nat) (fd : Fd)
  /-- The call of `stack[i].cmd.Wait()`. -/
  | wait (i : Nat)
  /-- The `select` of the call handling stage `i` has received this value. -/
  | verdict (i : Nat) (v : Bool)
  /-- The deferred function closes `stack[i].cmd.Stdout`. -/
  | close (i : Nat)
deriving DecidableEq

/-- Renumbers an event of the call on `stack[1:]` for the caller. -/
def Event.shift : Event → Event
  | Event.start i => Event.start (i + 1)
  | Event.monitor i fd => Event.monitor (i + 1) fd
  | Event.wait i => Event.wait (i + 1)
  | Event.verdict i v => Event.verdict (i + 1) v
  | Event.close i => Event.close (i + 1)

/-- How a `RunStack` call ends. -/
inductive Result where
  /-- It returns `err`. -/
  | ret (err : Option String)
  /-- It blocks for ever in `successDespiteErrWg.Wait()` (line 161). -/
  | blocked
  /-- It panics in `regexp.MustCompile`. -/
  | panic
deriving DecidableEq

/-- A `RunStack` call: how it ends and what it did, in order. -/
structure Run where
  result : Result
  trace : List Event
deriving DecidableEq

/-- Lines 135-140: the monitors launched for a stage. -/
def launched (s : RunCmd) : List Event :=
  (if s.stderr.isSome then [Event.monitor 0 Fd.stderr] else [])
    ++ (if s.stdout.isSome then [Event.monitor 0 Fd.stdout] else [])

/-- Lines 162-172: the value returned by the body, from `successDispiteErr` and
the result of `Wait`. -/
def reconcile (s : RunCmd) (successDispiteErr : Bool) : Option String :=
  if successDispiteErr then none
  else
    match s.cmd.Wait with
    | some result => some (wrap s.cmd result)
    | none => none

/-- The value the `select` of lines 110-119 receives for this stage, with this
closure and this schedule of its goroutines. -/
def stageVerdict (re : Regexp) (check : Check) (s : RunCmd) (sched : List Action) :
    Option Bool :=
  ((Sel.init check s.stderr s.stdout).run re sched).verdict re

/-- Lines 123-141 of run.go: `stack[0]` is started unless it has been started already,
the closure is built and the monitors are launched. The result is either the
way the call ends there (the start fails, or `MustCompile` panics), or the
closure and the events so far. -/
def RunStack.enter (re : Regexp) (s0 : RunCmd) (conditionals : List String) :
    Except Run (Check × List Event) :=
  match (if s0.cmd.Process then Except.ok s0.cmd else s0.cmd.Start) with
  | Except.error e =>
    Except.error { result := Result.ret (some (wrap s0.cmd e)), trace := [Event.start 0] }
  | Except.ok _ =>
    let t1 := if s0.cmd.Process then [] else [Event.start 0]
    match GetConditionalCheck re conditionals with
    | none => Except.error { result := Result.panic, trace := t1 }
    | some check => Except.ok (check, t1 ++ launched s0)

/-- Lines 107-172 of run.go, the body of `RunStack` on a stack that is not empty,
given as `stack[0]` and `stack[1:]`. The recursive call of line 154 is on
`stack[1:]`, which is not empty there, and whose first handle has been started
by line 146. -/
def RunStack.body (re : Regexp) (conditionals : List String) :
    List RunCmd → RunCmd → List (List Action) → Run
  | [], s0, scheds =>
    match RunStack.enter re s0 conditionals with
    | Except.error r => r
    | Except.ok (check, t2) =>
      -- lines 159-172
      match stageVerdict re check s0 (scheds.head?.getD []) with
      | none => { result := Result.blocked, trace := t2 ++ [Event.wait 0] }
      | some v =>
        { result := Result.ret (reconcile s0 v),
          trace := t2 ++ [Event.wait 0, Event.verdict 0 v] }
  | s1 :: rest1, s0, scheds =>
    match RunStack.enter re s0 conditionals with
    | Except.error r => r
    | Except.ok (check, t2) =>
      -- lines 143-148
      match s1.cmd.Start with
      | Except.error e =>
        { result := Result.ret (some (wrap s1.cmd e)), trace := t2 ++ [Event.start 1] }
      | Except.ok c1 =>
        -- lines 159-172
        match stageVerdict re check s0 (scheds.head?.getD []) with
        | none =>
          { result := Result.blocked, trace := t2 ++ [Event.start 1, Event.wait 0] }
        | some v =>
          let t3 := t2 ++ [Event.start 1, Event.wait 0, Event.verdict 0 v, Event.close 0]
          -- lines 149-156, the deferred function
          match reconcile s0 v with
          | some e => { result := Result.ret (some e), trace := t3 }
          | none =>
            let r := RunStack.body re conditionals rest1 { s1 with cmd := c1 } scheds.tail
            { result := r.result, trace := t3 ++ r.trace.map Event.shift }

/-- Models `RunStack(stack, conditionals...)` (lines 95-173). `scheds` gives the schedule
of the goroutines of each call: its head for this call, its tail for the call on
`stack[1:]`. -/
def RunStack (re : Regexp) (stack : List RunCmd) (conditionals : List String)
    (scheds : List (List Action)) : Run :=
  match stack with
  | [] => { result := Result.ret (some "no run stack defined"), trace := [] }
  | s0 :: rest => RunStack.body re conditionals rest s0 scheds

/-! ## Data for the examples -/

/-- An instance of the regexp package for the examples: every expression
compiles, and an expression matches the lines that contain it (what Go's
`regexp` does for an expression made of letters only). -/
def Regexp.literal : Regexp :=
  { compiles := fun _ => true,
    MatchString := fun pc line => decide (pc.data <:+: line.data) }

/-! ## Invariants of the goroutines of one call -/

/-- A monitor none of whose values has been received yet: `p` is still false and
the monitor has not returned. -/
def Monitor.Waiting (m : Monitor) : Prop := m.p = false ∧ m.pc ≠ Pc.done

/-- Until the `select` has received, every monitor is waiting. -/
def Sel.Waiting (s : Sel) : Prop :=
  s.received = none →
    (∀ m, s.stderrMonitor = some m → m.Waiting) ∧ (∀ m, s.stdoutMonitor = some m → m.Waiting)

/-- Holds when `A` follows from anything that can make the monitor send true: a
match in the lines it has yet to scan, or a send of true under way. -/
def Monitor.Sound (re : Regexp) (conditions : List String) (A : Prop) (m : Monitor) : Prop :=
  (anyLineMatches re conditions m.input = true → A) ∧ (∀ line, m.pc = Pc.sendTrue line → A)

/-- Holds when `A` follows from anything that can make the `select` receive true. -/
def Sel.Sound (re : Regexp) (A : Prop) (s : Sel) : Prop :=
  (s.check.permissibleState = true → A)
  ∧ (∀ m, s.stderrMonitor = some m → m.Sound re s.check.permissibleConditions A)
  ∧ (∀ m, s.stdoutMonitor = some m → m.Sound re s.check.permissibleConditions A)
  ∧ (s.received = some true → A)

/-! ## Reading a pipeline left to right -/

/-- Holds when `Start()` succeeds on the handle of the stage: the command has not
been started and the operating system creates the process. -/
def Starts (s : RunCmd) : Prop := ∃ c, s.cmd.Start = Except.ok c

/-- Holds when the stage has a captured stream, so that a monitor is launched for
it (`CreateRunStackWithArgs` captures stderr at every stage). -/
def Monitored (s : RunCmd) : Prop := s.stderr.isSome = true ∨ s.stdout.isSome = true

/-- The value of `successDispiteErr` at line 162 for this stage: whether the
`select` of the call that handles the stage, under this schedule, received true. -/
def rescued (re : Regexp) (conditionals : List String) (s : RunCmd) (sched : List Action) :
    Bool :=
  match GetConditionalCheck re conditionals with
  | some check => stageVerdict re check s sched == some true
  | none => false

/-- Stage `i` exits with a failure status and is not rescued by a pattern match. -/
def unrescuedFailure (re : Regexp) (conditionals : List String) (stack : List RunCmd)
    (scheds : List (List Action)) (i : Nat) : Prop :=
  ∃ s, stack[i]? = some s ∧ s.cmd.Wait ≠ none
    ∧ rescued re conditionals s ((scheds[i]?).getD []) = false

/-- The error of the first stage, reading left to right, that exits with a failure
status without being rescued; `none` when there is no such stage. -/
def firstFailure (re : Regexp) (conditionals : List String) :
    List RunCmd → List (List Action) → Option String
  | [], _ => none
  | s :: rest, scheds =>
    match reconcile s (rescued re conditionals s (scheds.head?.getD [])) with
    | some e => some e
    | none => firstFailure re conditionals rest scheds.tail

/-- Whether the message contains the text. -/
def contains (msg text : String) : Prop := text.data <:+: msg.data

/-- A stage like the script `test_foo_2_stderr_exit_1.sh` of the tests: it writes
`foo` on stderr, nothing on stdout, and exits with status 1. -/
def fooStage : RunCmd :=
  { cmd := { cmdString := "./testdata/test_foo_2_stderr_exit_1.sh", Dir := ".",
             Process := false, startErr := none, waitErr := some "exit status 1" },
    stdout := some [],
    stderr := some ["foo"] }

/-- A first stage like `cat ./testdata/ipsum.txt` of the tests: it succeeds and
writes nothing on stderr; its stdout goes to the next stage. -/
def catStage : RunCmd :=
  { cmd := { cmdString := "/usr/bin/cat ./testdata/ipsum.txt", Dir := ".",
             Process := false, startErr := none, waitErr := none },
    stdout := none,
    stderr := some [] }

/-- The failing script of `fooStage` as a stage that is not the last: its stdout
goes to the next stage. -/
def fooMiddle : RunCmd := { fooStage with stdout := none }

/-- A last stage like `wc` of the tests: it succeeds and writes one line on stdout. -/
def wcStage : RunCmd :=
  { cmd := { cmdString := "/usr/bin/wc", Dir := ".",
             Process := false, startErr := none, waitErr := none },
    stdout := some ["      0       0       0"],
    stderr := some [] }

/-- A stage like `programdoesntexist --random` of the tests: it cannot be started. -/
def missingStage : RunCmd :=
  { cmd := { cmdString := "programdoesntexist --random", Dir := ".",
             Process := false,
             startErr := some "exec: \"programdoesntexist\": executable file not found in $PATH",
             waitErr := none },
    stdout := some [],
    stderr := some [] }

/-- The stage an event is about. -/
def Event.stage : Event → Nat
  | Event.start i => i
  | Event.monitor i _ => i
  | Event.wait i => i
  | Event.verdict i _ => i
  | Event.close i => i

/-- The pipeline `cat ./testdata/ipsum.txt | test_foo_2_stderr_exit_1.sh | wc` of
the tests, whose second stage fails. -/
def secondFails : List RunCmd := [catStage, fooMiddle, wcStage]

/-! ## What HandleOutput logs, in the words of the specification -/

/-- The lines that differ from the line immediately before them, `prev` standing
before the first one. -/
def changes : String → List String → List String
  | _, [] => []
  | prev, line :: rest =>
    if line ≠ prev then line :: changes line rest else changes line rest

/-- The lines that are the first line of the stream or differ from the line
immediately before them. -/
def firstOrChanged : List String → List String
  | [] => []
  | line :: rest => line :: changes line rest

/-! ## More data for the examples -/

/-- An instance of the regexp package with expressions that do not compile:
an expression made of letters compiles and matches the lines that contain it,
every other expression is refused (as Go refuses `(`, a group that is not closed). -/
def Regexp.letters : Regexp :=
  { compiles := fun pc => pc.data.all Char.isAlpha,
    MatchString := fun pc line => decide (pc.data <:+: line.data) }

/-- Whether the event is the launch of a monitor. -/
def Event.isMonitor : Event → Bool
  | Event.monitor _ _ => true
  | _ => false

/-- Whether the event is the reception of a value by a `select`. -/
def Event.isVerdict : Event → Bool
  | Event.verdict _ _ => true
  | _ => false

end Exec

/-! ## The functions of Go's `strings` package the code uses

Every separator and cutset the code passes is one character long, so they are
characters here. -/

namespace Strings

/-- The pieces of `strings.Split`, on characters: the text is cut at every
separator; a text without separator is one piece, the empty text one empty piece. -/
def splitChars (sep : Char) : List Char → List (List Char)
  | [] => [[]]
  | c :: cs =>
    if c = sep then [] :: splitChars sep cs
    else
      match splitChars sep cs with
      | [] => [[c]]
      | w :: ws => (c :: w) :: ws

/-- Models `strings.Split(s, sep)`. -/
def Split (s : String) (sep : Char) : List String :=
  (splitChars sep s.data).map String.mk

/-- Models `strings.Trim(s, cutset)`: the text without its leading and trailing
characters equal to `cut`. -/
def Trim (s : String) (cut : Char) : String :=
  String.mk ((s.data.dropWhile (fun c => c == cut)).reverse.dropWhile
    (fun c => c == cut)).reverse

/-- Models `strings.Contains(s, substr)`. -/
def Contains (s substr : String) : Bool := decide (substr.data <:+: s.data)

/-- Models `strings.Join(elems, sep)`. -/
def Join (elems : List String) (sep : String) : String :=
  String.mk (sep.data.intercalate (elems.map String.data))

end Strings

/-! ## Package `pkg/docker` (docker.go) and `pkg/errorhandling` (handling.go) -/

namespace Docker

/-- A record handed to the logger: its level, the error attached with `Err`, its
message. -/
structure Entry where
  level : String
  err : Option String
  msg : String
deriving DecidableEq

/-- Models `errorhandling.Check(err, pfx, level)` (handling.go 11-39): nothing for a nil
error; otherwise one record at the level given (none when the level is not one
of `fatal`, `error`, `warn`), with the text `pfx` as message, and the process exits
when the level is `fatal`. The result is the records logged and whether the
process exits. -/
def Check (err : Option String) (pfx level : String) : List Entry × Bool :=
  match err with
  | none => ([], false)
  | some e =>
    (if level = "fatal" ∨ level = "error" ∨ level = "warn" then
        [{ level := level, err := some e, msg := pfx }]
      else [],
     decide (level = "fatal"))

/-- Models `errorhandling.CheckError(err)` without text (handling.go 45-47, 53-60). -/
def CheckError (err : Option String) : List Entry × Bool := Check err "" "error"

/-- Models `IsDockerRunning` (docker.go 54-63): `err` is what `containers.ContainerList`
returns. -/
def IsDockerRunning (err : Option String) : Bool × Option String :=
  match err with
  | some e =>
    if Strings.Contains e "Cannot connect" || Strings.Contains e "connection refused" then
      (false, none)
    else (false, some e)
  | none => (true, none)

/-- The constant `StatusOutput`. -/
def StatusOutput : String := "status"

/-- The constant `StreamOutput`. -/
def StreamOutput : String := "stream"

/-- The constant `Gcloud`. -/
def Gcloud : String := "gcloud"

/-- The struct `OutputLine` of `printOutput`; `ErrorDetailMessage` is the field
`ErrorDetail.Message`. -/
structure OutputLine where
  Stream : String
  Status : String
  ErrorDetailMessage : String
deriving DecidableEq

/-- The record of `log.Debug().Msgf("\t| %s", l)`. -/
def debugLine (l : String) : Entry := { level := "debug", err := none, msg := "\t| " ++ l }

/-- Lines 205-214 of docker.go: the value of `out` after the `switch` and the `if`. -/
def printOutput.out (key : String) (line : OutputLine) : List String :=
  let out :=
    if key = StreamOutput then Strings.Split line.Stream '\n'
    else if key = StatusOutput then Strings.Split line.Status '\n'
    else []
  if line.ErrorDetailMessage.length > 0 then Strings.Split line.ErrorDetailMessage '\n'
  else out

/-- Lines 202-219 of docker.go, one turn of the loop on the text `t`: the records it
logs. `Unmarshal` is `json.Unmarshal` into an `OutputLine`: the error it returns
and the struct it leaves. -/
def printOutput.turn (Unmarshal : String → Option String × OutputLine) (key : String)
    (t : String) : List Entry :=
  (CheckError (Unmarshal t).1).1
    ++ ((printOutput.out key (Unmarshal t).2).filter (fun l => l.length > 0)).map debugLine

/-- Models `printOutput(reader, key)` (docker.go 191-222): `reader` is the list of lines
the scanner returns; the result is the error returned and the records logged. -/
def printOutput (Unmarshal : String → Option String × OutputLine) (reader : List String)
    (key : String) : Option String × List Entry :=
  (none, reader.foldl (fun log t => log ++ printOutput.turn Unmarshal key t) [])

/-- Lines 97-108 of docker.go: the value of `options.RegistryAuth` after the loop, or
the error returned from inside it. `authentication` is the list under
`docker.authentication` when the configuration has one. -/
def PullImage.options (authentication : Option (List String))
    (getGcloudAuthString : Except String String) : Except String String :=
  match authentication with
  | none => Except.ok ""
  | some helpers =>
    helpers.foldlM
      (fun registryAuth a => if a = Gcloud then getGcloudAuthString else Except.ok registryAuth)
      ""

/-- Models `PullImage(image)` (docker.go 94-115): `ImagePull` is `builder.ImagePull` as a
function of the image and of `options.RegistryAuth`, returning the lines of
the response. -/
def PullImage (Unmarshal : String → Option String × OutputLine)
    (authentication : Option (List String)) (getGcloudAuthString : Except String String)
    (ImagePull : String → String → Except String (List String)) (image : String) :
    Option String × List Entry :=
  match PullImage.options authentication getGcloudAuthString with
  | Except.error e => (some e, [])
  | Except.ok registryAuth =>
    match ImagePull image registryAuth with
    | Except.error e => (some e, [])
    | Except.ok response => printOutput Unmarshal response StatusOutput

/-- A `json.Unmarshal` for the examples, knowing three texts of the tests. -/
def exampleUnmarshal (t : String) : Option String × OutputLine :=
  if t = "\x7b\"status\": \"test line of output\"\x7d" then
    (none, { Stream := "", Status := "test line of output", ErrorDetailMessage := "" })
  else if t = "\x7b\"status\": \"x\", \"errorDetail\": \x7b\"message\": \"there was\\nan error\"\x7d\x7d" then
    (none, { Stream := "", Status := "x", ErrorDetailMessage := "there was\nan error" })
  else
    (some "unexpected end of JSON input",
     { Stream := "", Status := "", ErrorDetailMessage := "" })

end Docker

/-! ## Building a pipeline: CreateRunStackWithArgs and CreateRunStack (run.go 44-92) -/

namespace Exec

/-- The struct `Pipe` (lines 22-25). -/
structure Pipe where
  Cmd : String
  Args : List String
deriving DecidableEq

/-- What the operating system will make of a command: the path `exec.Command` finds
for its name, what it answers to `Start()` and `Wait()`, and what the process
writes. -/
structure Proc where
  Path : String
  startErr : Option String
  waitErr : Option String
  stdout : List String
  stderr : List String

/-- Models `exec.Command(name, arg...)`: a handle that is not started, with no stream
set, whose `Args` are the name followed by the arguments. -/
def Command (p : Proc) (name : String) (arg : List String) : Cmd :=
  { cmdString := Strings.Join (p.Path :: arg) " ", Dir := "", Process := false,
    startErr := p.startErr, waitErr := p.waitErr, Args := name :: arg,
    writesStdout := p.stdout, writesStderr := p.stderr }

/-- Models `(*exec.Cmd).StderrPipe`: refused when `Stderr` is set or the command is started;
otherwise `Stderr` becomes the write end of a new pipe, whose name is returned
for its read end. -/
def Cmd.StderrPipe (c : Cmd) (id : OsPipe) : Cmd × Option OsPipe :=
  if c.Stderr.isSome || c.Process then (c, none)
  else ({ c with Stderr := some id }, some id)

/-- Models `(*exec.Cmd).StdoutPipe`, like `StderrPipe` for `Stdout`. -/
def Cmd.StdoutPipe (c : Cmd) (id : OsPipe) : Cmd × Option OsPipe :=
  if c.Stdout.isSome || c.Process then (c, none)
  else ({ c with Stdout := some id }, some id)

/-- Lines 55-59 of run.go, one turn of the first loop: the handle for the stage `c` at
position `i`. `os` tells what the operating system makes of the command at
each position. -/
def CreateRunStackWithArgs.handle (os : Nat → String → List String → Proc) (dir : String)
    (i : Nat) (c : Pipe) : RunCmd :=
  let cmd := { Command (os i c.Cmd c.Args) c.Cmd c.Args with Dir := dir }
  let stderrPipe := cmd.StderrPipe (OsPipe.stderrOf i)
  { cmd := stderrPipe.1, stdout := none,
    stderr := stderrPipe.2.map (fun _ => cmd.writesStderr) }

/-- Line 64 of run.go, one turn of the second loop:
`stack[i+1].cmd.Stdin, _ = stack[i].cmd.StdoutPipe()`. -/
def CreateRunStackWithArgs.wire (stack : List RunCmd) (i : Nat) : List RunCmd :=
  match stack[i]? with
  | none => stack
  | some s =>
    let stdoutPipe := s.cmd.StdoutPipe (OsPipe.stdoutOf i)
    (stack.set i { s with cmd := stdoutPipe.1 }).modify
      (fun t => { t with cmd := { t.cmd with Stdin := stdoutPipe.2 } }) (i + 1)

/-- Line 68 of run.go, on the handle at position `last`:
`stack[last].stdout, _ = stack[last].cmd.StdoutPipe()`. -/
def CreateRunStackWithArgs.capture (last : Nat) (s : RunCmd) : RunCmd :=
  let stdoutPipe := s.cmd.StdoutPipe (OsPipe.stdoutOf last)
  { s with cmd := stdoutPipe.1, stdout := stdoutPipe.2.map (fun _ => s.cmd.writesStdout) }

/-- Models `CreateRunStackWithArgs(pipe, dir)` (lines 46-71). -/
def CreateRunStackWithArgs (os : Nat → String → List String → Proc) (pipe : List Pipe)
    (dir : String) : List RunCmd :=
  if pipe.length = 0 then []
  else
    let last := pipe.length - 1
    let stack := pipe.enum.map (fun ic => CreateRunStackWithArgs.handle os dir ic.1 ic.2)
    let stack := (List.range last).foldl CreateRunStackWithArgs.wire stack
    stack.modify (CreateRunStackWithArgs.capture last) last

/-- The handle at position `j` once the second loop has done its turns `0` to
`k - 1`: `Stdout` is set on the positions before `k`, `Stdin` on the positions
from `1` to `k`. -/
def CreateRunStackWithArgs.wired (k j : Nat) (s : RunCmd) : RunCmd :=
  { s with cmd :=
      { s.cmd with
        Stdout := if j < k then some (OsPipe.stdoutOf j) else s.cmd.Stdout,
        Stdin := if 0 < j ∧ j ≤ k then some (OsPipe.stdoutOf (j - 1)) else s.cmd.Stdin } }

/-- Lines 78-84 of run.go: the value of `parts` for the command string `c`. -/
def CreateRunStack.parts (c : String) : List String :=
  (Strings.Split (Strings.Trim c ' ') ' ').filter (fun v => v ≠ "")

/-- Lines 85-88 of run.go: the stage made of `parts[0]` and `parts[1:]`; `none` stands for the
panic of `parts[0]` when `parts` is empty (index out of range). -/
def CreateRunStack.stage (c : String) : Option Pipe :=
  match CreateRunStack.parts c with
  | [] => none
  | cmd :: args => some { Cmd := cmd, Args := args }

/-- Lines 75-89 of run.go: the value of the local `stack`, or `none` when a turn panics. -/
def CreateRunStack.stack : List String → Option (List Pipe)
  | [] => some []
  | c :: rest =>
    match CreateRunStack.stage c with
    | none => none
    | some p => (CreateRunStack.stack rest).map (fun ps => p :: ps)

/-- Models `CreateRunStack(pipe, dir)` (lines 74-92); `none` stands for the panic. -/
def CreateRunStack (os : Nat → String → List String → Proc) (pipe : List String)
    (dir : String) : Option (List RunCmd) :=
  (CreateRunStack.stack pipe).map (fun stack => CreateRunStackWithArgs os stack dir)

/-- Models `RunDir(command, dir, conditionals...)` (lines 33-36); `none` stands for the panic of
`CreateRunStack`. -/
def RunDir (re : Regexp) (os : Nat → String → List String → Proc) (command dir : String)
    (conditionals : List String) (scheds : List (List Action)) : Option Run :=
  (CreateRunStack os (Strings.Split command '|') dir).map
    (fun stack => RunStack re stack conditionals scheds)

/-- Models `Run(command, conditionals...)` (lines 28-30); the name `Run` alone is that of the
record of a call. -/
def Run.call (re : Regexp) (os : Nat → String → List String → Proc) (command : String)
    (conditionals : List String) (scheds : List (List Action)) : Option Run :=
  RunDir re os command "." conditionals scheds

/-- Line 40 of run.go: the value of `pipe` in `RunArgs`. -/
def RunArgs.pipe (command : String) (args : List String) : List String :=
  Strings.Split (command ++ " " ++ Strings.Join args " ") '|'

/-- Models `RunArgs(command, args, dir, conditionals...)` (lines 39-42). -/
def RunArgs (re : Regexp) (os : Nat → String → List String → Proc) (command : String)
    (args : List String) (dir : String) (conditionals : List String)
    (scheds : List (List Action)) : Option Run :=
  (CreateRunStack os (RunArgs.pipe command args) dir).map
    (fun stack => RunStack re stack conditionals scheds)

/-- An operating system for the examples: every command is found under `/usr/bin`,
starts, succeeds and writes nothing. -/
def quietOs (_ : Nat) (name : String) (_ : List String) : Proc :=
  { Path := "/usr/bin/" ++ name, startErr := none, waitErr := none, stdout := [], stderr := [] }

end Exec

/-! ## What a monitor reports, and the closure both monitors call -/

namespace Exec

/-- Holds for a monitor of the stream whose lines are `own` when a send of false
tells the truth about that stream: the send of line 213 is reached with `p` false
at the end of the input, and as long as `p` is false and the monitor is scanning
or sending false, the lines of `own` it has scanned match no expression. -/
def Monitor.Honest (re : Regexp) (conditions : List String) (own : List String)
    (m : Monitor) : Prop :=
  (m.pc = Pc.sendFalse → m.p = false ∧ m.input = [])
  ∧ (m.p = false → m.pc = Pc.scan ∨ m.pc = Pc.sendFalse →
      anyLineMatches re conditions own = anyLineMatches re conditions m.input)

/-- Holds when both monitors of the call are honest about their own streams. -/
def Sel.Honest (re : Regexp) (stderr stdout : List String) (s : Sel) : Prop :=
  (∀ m, s.stderrMonitor = some m → m.Honest re s.check.permissibleConditions stderr)
  ∧ (∀ m, s.stdoutMonitor = some m → m.Honest re s.check.permissibleConditions stdout)

/-- The value the monitor of stdout is blocked sending after the schedule, if any. -/
def stdoutReport (re : Regexp) (check : Check) (stderr stdout : Option (List String))
    (sched : List Action) : Option Bool :=
  ((Sel.init check stderr stdout).run re sched).stdoutMonitor.bind Monitor.offer

/-- The value the monitor of stderr is blocked sending after the schedule, if any. -/
def stderrReport (re : Regexp) (check : Check) (stderr stdout : Option (List String))
    (sched : List Action) : Option Bool :=
  ((Sel.init check stderr stdout).run re sched).stderrMonitor.bind Monitor.offer

end Exec

namespace Strings

/-- Models `strings.TrimLeft(s, cutset)` for a cutset of one character: the text
without its leading characters equal to `cut`. -/
def TrimLeft (s : String) (cut : Char) : String :=
  String.mk (s.data.dropWhile (fun c => c == cut))

end Strings

/-! ## Package `pkg/github` (release.go) -/

namespace Github

/-- The fields of `github.RepositoryRelease` the code reads; both are pointers
in the library, `none` for nil. -/
structure RepositoryRelease where
  TagName : Option String
  Body : Option String
  Draft : Option Bool := none
deriving DecidableEq

/-- The library getter `GetTagName`: the empty text for a nil field. -/
def RepositoryRelease.GetTagName (rel : RepositoryRelease) : String := rel.TagName.getD ""

/-- The library getter `GetBody`: the empty text for a nil field. -/
def RepositoryRelease.GetBody (rel : RepositoryRelease) : String := rel.Body.getD ""

/-- The part of `GithubContainer` release.go uses: the releases loaded so far
(a nil slice is the empty list). -/
structure GithubContainer where
  Releases : List RepositoryRelease
deriving DecidableEq

/-- Models `loadReleases` (lines 19-31). `ListReleases` is what the call to the
GitHub client of line 26 returns, releases and error; the container after the
call comes first, the error returned second. -/
def GithubContainer.loadReleases (ListReleases : List RepositoryRelease × Option String)
    (gh : GithubContainer) : GithubContainer × Option String :=
  if gh.Releases.length > 0 then (gh, none)
  else ({ gh with Releases := ListReleases.1 }, ListReleases.2)

/-- The text of line 59, `fmt.Sprintf("%s\n%s\n", rel.GetTagName(), rel.GetBody())`. -/
def entry (rel : RepositoryRelease) : String :=
  rel.GetTagName ++ "\n" ++ rel.GetBody ++ "\n"

/-- The loop of lines 55-60: `changelog` is the slice built so far; a release
whose tag equals `currentVersion` once the leading `v` are trimmed ends the loop,
every other release is put in front of the slice. -/
def GetChangeLog.loop (currentVersion : String) :
    List RepositoryRelease → List String → List String
  | [], changelog => changelog
  | rel :: rest, changelog =>
    if Strings.TrimLeft rel.GetTagName 'v' = currentVersion then changelog
    else GetChangeLog.loop currentVersion rest ([entry rel] ++ changelog)

/-- Models `GetChangeLog(currentVersion)` (lines 47-63): the text and the error
returned. -/
def GithubContainer.GetChangeLog (ListReleases : List RepositoryRelease × Option String)
    (gh : GithubContainer) (currentVersion : String) : String × Option String :=
  match gh.loadReleases ListReleases with
  | (_, some err) => ("", some err)
  | (gh1, none) => (Strings.Join (GetChangeLog.loop currentVersion gh1.Releases []) "", none)

/-- In the words of the specification: the releases that come, in list order,
before the first release whose tag without its leading `v` equals `currentVersion`. -/
def newerReleases (releases : List RepositoryRelease) (currentVersion : String) :
    List RepositoryRelease :=
  releases.takeWhile (fun rel => decide (Strings.TrimLeft rel.GetTagName 'v' ≠ currentVersion))

/-- The texts one after the other. -/
def concatenation : List String → String
  | [] => ""
  | s :: rest => s ++ concatenation rest

/-- In the words of the specification: the entries of the newer releases, written
in the reverse of the list order. -/
def changeLog (releases : List RepositoryRelease) (currentVersion : String) : String :=
  concatenation ((newerReleases releases currentVersion).reverse.map entry)

/-- Three releases like those of the project, newest first. -/
def exampleReleases : List RepositoryRelease :=
  [{ TagName := some "v1.2.0", Body := some "faster" },
   { TagName := some "v1.1.0", Body := some "fixes" },
   { TagName := some "v1.0.0", Body := some "first" }]

end Github

/-! ## The functions of Go's `path` package the code uses

Given on the characters of a text; the two characters they look for, `/` and
`.`, are single bytes that occur in no other character's encoding. -/

namespace Path

/-- The loop of `path.Ext`, on the characters of the path read from the end:
`seen` holds the characters already passed, in the order of the text. The loop
stops at a slash with no extension, and at a dot with the text from that dot on. -/
def Ext.scan : List Char → List Char → List Char
  | [], _ => []
  | c :: rest, seen =>
    if c = '/' then []
    else if c = '.' then '.' :: seen
    else Ext.scan rest (c :: seen)

/-- Models `path.Ext(path)`: the text from the last dot of the last element of
the path on, empty when that element has no dot. -/
def Ext (path : String) : String := String.mk (Ext.scan path.data.reverse [])

/-- Models `path.Base(path)`: the last element of the path, trailing slashes
removed first; `.` for the empty path and `/` for a path made of slashes. -/
def Base (path : String) : String :=
  if path = "" then "."
  else
    let last := ((path.data.reverse.dropWhile (fun c => c == '/')).takeWhile
      (fun c => c != '/')).reverse
    if last = [] then "/" else String.mk last

end Path

/-! ## Package `pkg/util` (variables.go, config.go) -/

namespace Util

/-- The variable `AppName` of variables.go. -/
def AppName : String := "ankor"

/-- The field of `Dirs` that `NewDirs` sets. -/
structure Dirs where
  HomeDir : String
deriving DecidableEq

/-- Models `NewDirs()` (lines 17-23): `userHomeDir` is what `os.UserHomeDir()`
returns, its error being dropped. -/
def NewDirs (userHomeDir : String) : Dirs := { HomeDir := userHomeDir }

/-- Models `GetHomeDir` (lines 25-27). -/
def Dirs.GetHomeDir (d : Dirs) : String := d.HomeDir

/-- Models `GetBinDir` (lines 41-43), `fmt.Sprintf("%s/.%s/bin", ...)`. -/
def Dirs.GetBinDir (d : Dirs) : String := d.GetHomeDir ++ "/." ++ AppName ++ "/bin"

end Util

/-! ## Package `pkg/filesystem` (file.go) -/

namespace Filesystem

/-- A call `SaveFile` makes to the operating system. -/
inductive Call where
  /-- The call `os.Create(name)`. -/
  | Create (name : String)
  /-- The call `io.Copy` into the file created under this name. -/
  | Copy (name : String)
  /-- The call `os.Chmod(name, mode)`. -/
  | Chmod (name : String) (mode : Nat)
  /-- The call `os.Rename(oldpath, newpath)`. -/
  | Rename (oldpath newpath : String)
deriving DecidableEq

/-- The errors the four calls of `SaveFile` return, `none` for nil. -/
structure Os where
  userHomeDir : String
  createErr : Option String
  copyErr : Option String
  chmodErr : Option String
  renameErr : Option String

/-- Lines 41-48 of file.go: the value of `filename` at line 50. -/
def SaveFile.filename (executablePath : String) : String :=
  let ext := Path.Ext executablePath
  let filename := Path.Base executablePath
  if ext.length > 0 then filename ++ "." ++ ext else filename

/-- Line 51 of file.go: the value of `finalPath`. -/
def SaveFile.finalPath (userHomeDir executablePath : String) : String :=
  (Util.NewDirs userHomeDir).GetBinDir ++ "/" ++ SaveFile.filename executablePath

/-- Line 50 of file.go: the value of `tmpPath`, from the value of
`path.Dir(executablePath)`. -/
def SaveFile.tmpPath (dir : String) : String := dir ++ "/" ++ "tmp-file"

/-- Models `SaveFile(rc, executablePath, mode)` (lines 37-77): the error returned
and the calls made, in order. `dir` is the value of `path.Dir(executablePath)`. -/
def SaveFile (os : Os) (dir executablePath : String) (mode : Nat) :
    Option String × List Call :=
  let tmpPath := SaveFile.tmpPath dir
  let finalPath := SaveFile.finalPath os.userHomeDir executablePath
  match os.createErr with
  | some err => (some ("failed to create output file: " ++ err), [Call.Create tmpPath])
  | none =>
    match os.copyErr with
    | some err =>
      (some ("failed to store file: " ++ err), [Call.Create tmpPath, Call.Copy tmpPath])
    | none =>
      match os.chmodErr with
      | some err =>
        (some ("failed to set permission: " ++ err),
          [Call.Create tmpPath, Call.Copy tmpPath, Call.Chmod tmpPath mode])
      | none =>
        match os.renameErr with
        | some err =>
          (some ("failed move file: " ++ err),
            [Call.Create tmpPath, Call.Copy tmpPath, Call.Chmod tmpPath mode,
             Call.Rename tmpPath finalPath])
        | none =>
          (none,
            [Call.Create tmpPath, Call.Copy tmpPath, Call.Chmod tmpPath mode,
             Call.Rename tmpPath finalPath])

/-- An operating system on which every call succeeds, with the home `/home/dev`. -/
def quietOs : Os :=
  { userHomeDir := "/home/dev", createErr := none, copyErr := none, chmodErr := none,
    renameErr := none }

end Filesystem

/-! ## Package `pkg/docker` (options.go, and the options loop of docker.go) -/

namespace Docker

/-- The message of `ErrCannotRedeclare` (line 14 of options.go). -/
def ErrCannotRedeclare : String := "cannot be declared more than once"

/-- The fields of `mount.Mount` the examples use. -/
structure Mount where
  Source : String
  Target : String
deriving DecidableEq

/-- The fields of `container.Config` the options set; a nil slice is the empty list. -/
structure ContainerConfig where
  Image : String := ""
  WorkingDir : String := ""
  Entrypoint : List String := []
  Cmd : List String := []
  Shell : List String := []
deriving DecidableEq

/-- The field of `container.HostConfig` the options set. -/
structure ContainerHostConfig where
  Mounts : List Mount := []
deriving DecidableEq

/-- The type `RunConfig` (lines 23-29) without `NetworkConfig` and `Platform`, which
no option touches: two pointers, `none` for nil, and the name. -/
structure RunConfig where
  Config : Option ContainerConfig := none
  HostConfig : Option ContainerHostConfig := none
  Name : String := ""
deriving DecidableEq

/-- The type `RunOpt` (line 17): the configuration after the call, which the
option changes through its pointer, and the error returned. -/
abbrev RunOpt : Type := RunConfig → RunConfig × Option String

/-- Models `initRunConfig` (lines 31-35). -/
def initRunConfig (cfg : RunConfig) : RunConfig :=
  if cfg.Config = none then { cfg with Config := some {} } else cfg

/-- Models `initRunHostConfig` (lines 37-41). -/
def initRunHostConfig (cfg : RunConfig) : RunConfig :=
  if cfg.HostConfig = none then { cfg with HostConfig := some {} } else cfg

/-- Models `RunWithImage` (lines 43-49). -/
def RunWithImage (image : String) : RunOpt := fun cfg =>
  let cfg := initRunConfig cfg
  ({ cfg with Config := cfg.Config.map (fun c => { c with Image := image }) }, none)

/-- Models `RunWithWorkingDir` (lines 51-57). -/
def RunWithWorkingDir (dir : String) : RunOpt := fun cfg =>
  let cfg := initRunConfig cfg
  ({ cfg with Config := cfg.Config.map (fun c => { c with WorkingDir := dir }) }, none)

/-- Models `RunWithEntrypoint` (lines 59-65). -/
def RunWithEntrypoint (entrypoint : List String) : RunOpt := fun cfg =>
  let cfg := initRunConfig cfg
  ({ cfg with Config := cfg.Config.map (fun c => { c with Entrypoint := entrypoint }) }, none)

/-- Models `RunWithCommand` (lines 67-73). -/
def RunWithCommand (cmd : List String) : RunOpt := fun cfg =>
  let cfg := initRunConfig cfg
  ({ cfg with Config := cfg.Config.map (fun c => { c with Cmd := cmd }) }, none)

/-- Models `RunWithMounts` (lines 75-84); the guard of line 78 reads `Name`. -/
def RunWithMounts (mounts : List Mount) : RunOpt := fun cfg =>
  let cfg := initRunHostConfig cfg
  if cfg.Name ≠ "" then (cfg, some ("\x27Mounts\x27 " ++ ErrCannotRedeclare))
  else
    ({ cfg with HostConfig := cfg.HostConfig.map (fun h => { h with Mounts := mounts }) }, none)

/-- Models `RunWithShell` (lines 86-95); the guard of line 89 reads `Name`, and
the message of line 90 names `Mounts`. -/
def RunWithShell (shell : List String) : RunOpt := fun cfg =>
  let cfg := initRunConfig cfg
  if cfg.Name ≠ "" then (cfg, some ("\x27Mounts\x27 " ++ ErrCannotRedeclare))
  else ({ cfg with Config := cfg.Config.map (fun c => { c with Shell := shell }) }, none)

/-- The loop of lines 226-231 of docker.go: the options are applied in order to
`runConfig`; the first error ends `Run`, which returns it. -/
def Run.configure : List RunOpt → RunConfig → RunConfig × Option String
  | [], runConfig => (runConfig, none)
  | o :: opts, runConfig =>
    match o runConfig with
    | (cfg, some err) => (cfg, some err)
    | (cfg, none) => Run.configure opts cfg

/-- Lines 225-231 of docker.go: `runConfig` after the loop, from `&RunConfig{}`,
and the error `Run` returns there, if any. -/
def Run.options (opts : List RunOpt) : RunConfig × Option String :=
  Run.configure opts {}

/-- A call of one of the six constructors of options.go, with its argument. -/
inductive Declared where
  | Image (image : String)
  | WorkingDir (dir : String)
  | Entrypoint (entrypoint : List String)
  | Command (cmd : List String)
  | Mounts (mounts : List Mount)
  | Shell (shell : List String)
deriving DecidableEq

/-- The option the call builds. -/
def Declared.opt : Declared → RunOpt
  | Declared.Image image => RunWithImage image
  | Declared.WorkingDir dir => RunWithWorkingDir dir
  | Declared.Entrypoint entrypoint => RunWithEntrypoint entrypoint
  | Declared.Command cmd => RunWithCommand cmd
  | Declared.Mounts mounts => RunWithMounts mounts
  | Declared.Shell shell => RunWithShell shell

/-- The mounts the call declares, if it is a call of `RunWithMounts`. -/
def Declared.mounts? : Declared → Option (List Mount)
  | Declared.Mounts mounts => some mounts
  | _ => none

/-- The shell the call declares, if it is a call of `RunWithShell`. -/
def Declared.shell? : Declared → Option (List String)
  | Declared.Shell shell => some shell
  | _ => none

end Docker

/-! ## Split, Trim and Join -/

namespace Strings

theorem intercalate_singleton (sep w : List Char) : sep.intercalate [w] = w := by
  simp [List.intercalate, List.intersperse]

theorem intercalate_cons_cons (sep a b : List Char) (l : List (List Char)) :
    sep.intercalate (a :: b :: l) = a ++ sep ++ sep.intercalate (b :: l) := by
  simp [List.intercalate, List.intersperse]

theorem splitChars_ne_nil (sep : Char) (s : List Char) : splitChars sep s ≠ [] := by
  cases s with
  | nil => simp [splitChars]
  | cons c cs =>
    unfold splitChars
    split
    · simp
    · split <;> simp

theorem splitChars_cons_sep (sep : Char) (cs : List Char) :
    splitChars sep (sep :: cs) = [] :: splitChars sep cs := by
  simp [splitChars]

theorem splitChars_cons_ne (sep c : Char) (cs : List Char) (h : c ≠ sep) :
    ∃ w ws, splitChars sep cs = w :: ws ∧ splitChars sep (c :: cs) = (c :: w) :: ws := by
  cases hs : splitChars sep cs with
  | nil => exact absurd hs (splitChars_ne_nil sep cs)
  | cons w ws => exact ⟨w, ws, rfl, by simp [splitChars, h, hs]⟩

/-- Joining the pieces of `Split` with the separator gives the text back. -/
theorem splitChars_intercalate (sep : Char) (s : List Char) :
    [sep].intercalate (splitChars sep s) = s := by
  induction s with
  | nil => simp [splitChars, intercalate_singleton]
  | cons c cs ih =>
    by_cases h : c = sep
    · subst h
      rw [splitChars_cons_sep]
      cases hs : splitChars c cs with
      | nil => exact absurd hs (splitChars_ne_nil c cs)
      | cons w ws =>
        rw [intercalate_cons_cons, ← hs, ih]
        rfl
    · obtain ⟨w, ws, hs, hc⟩ := splitChars_cons_ne sep c cs h
      rw [hc]
      rw [hs] at ih
      cases ws with
      | nil =>
        rw [intercalate_singleton] at ih ⊢
        rw [ih]
      | cons w2 ws2 =>
        rw [intercalate_cons_cons] at ih ⊢
        rw [← ih]
        simp

/-- No piece of `Split` contains the separator. -/
theorem splitChars_no_sep (sep : Char) (s : List Char) :
    ∀ w ∈ splitChars sep s, sep ∉ w := by
  induction s with
  | nil => simp [splitChars]
  | cons c cs ih =>
    by_cases h : c = sep
    · subst h
      rw [splitChars_cons_sep]
      intro w hw
      rcases List.mem_cons.mp hw with rfl | hw
      · simp
      · exact ih w hw
    · obtain ⟨w, ws, hs, hc⟩ := splitChars_cons_ne sep c cs h
      rw [hc]
      rw [hs] at ih
      intro v hv
      rcases List.mem_cons.mp hv with rfl | hv
      · intro hmem
        rcases List.mem_cons.mp hmem with h1 | h1
        · exact h h1.symm
        · exact ih w (List.mem_cons_self _ _) h1
      · exact ih v (List.mem_cons_of_mem _ hv)

/-- The pieces of `Split` are one more than the separators of the text. -/
theorem length_splitChars (sep : Char) (s : List Char) :
    (splitChars sep s).length = s.count sep + 1 := by
  induction s with
  | nil => simp [splitChars]
  | cons c cs ih =>
    by_cases h : c = sep
    · subst h
      rw [splitChars_cons_sep]
      simp [ih]
    · obtain ⟨w, ws, hs, hc⟩ := splitChars_cons_ne sep c cs h
      rw [hc]
      rw [hs] at ih
      have hne : sep ≠ c := fun e => h e.symm
      rw [List.count_cons_of_ne hne]
      simpa using ih

theorem splitChars_of_not_mem (sep : Char) (s : List Char) (h : sep ∉ s) :
    splitChars sep s = [s] := by
  have hlen := length_splitChars sep s
  rw [List.count_eq_zero_of_not_mem h] at hlen
  have hint := splitChars_intercalate sep s
  cases hs : splitChars sep s with
  | nil => exact absurd hs (splitChars_ne_nil sep s)
  | cons w ws =>
    rw [hs] at hlen hint
    cases ws with
    | nil =>
      rw [intercalate_singleton] at hint
      rw [hint]
    | cons _ _ => simp at hlen

theorem mem_intercalate (sep x : Char) (l : List (List Char))
    (h : x ∈ [sep].intercalate l) : x = sep ∨ ∃ w ∈ l, x ∈ w := by
  induction l with
  | nil => simp [List.intercalate] at h
  | cons a rest ih =>
    cases rest with
    | nil =>
      rw [intercalate_singleton] at h
      exact Or.inr ⟨a, List.mem_cons_self _ _, h⟩
    | cons b more =>
      rw [intercalate_cons_cons] at h
      rcases List.mem_append.mp h with h1 | h1
      · rcases List.mem_append.mp h1 with h2 | h2
        · exact Or.inr ⟨a, List.mem_cons_self _ _, h2⟩
        · exact Or.inl (by simpa using h2)
      · rcases ih h1 with h3 | ⟨w, hw, hx⟩
        · exact Or.inl h3
        · exact Or.inr ⟨w, List.mem_cons_of_mem _ hw, hx⟩

theorem mem_intercalate_of_mem (sep x : Char) (l : List (List Char)) (w : List Char)
    (hw : w ∈ l) (hx : x ∈ w) : x ∈ [sep].intercalate l := by
  induction l with
  | nil => simp at hw
  | cons a rest ih =>
    cases rest with
    | nil =>
      rw [intercalate_singleton]
      have : w = a := by simpa using hw
      rw [← this]
      exact hx
    | cons b more =>
      rw [intercalate_cons_cons]
      rcases List.mem_cons.mp hw with rfl | hw2
      · exact List.mem_append_left _ (List.mem_append_left _ hx)
      · exact List.mem_append_right _ (ih hw2)

/-- Every character of a text is the cut character or a character of the trimmed text. -/
theorem mem_Trim (c : String) (cut x : Char) (hx : x ∈ c.data) :
    x = cut ∨ x ∈ (Trim c cut).data := by
  have h1 := List.takeWhile_append_dropWhile (fun ch => ch == cut) c.data
  rw [← h1] at hx
  rcases List.mem_append.mp hx with h | h
  · left
    simpa using List.mem_takeWhile_imp h
  · have h2 := List.takeWhile_append_dropWhile (fun ch => ch == cut)
      (c.data.dropWhile (fun ch => ch == cut)).reverse
    have h3 : x ∈ (c.data.dropWhile (fun ch => ch == cut)).reverse := List.mem_reverse.mpr h
    rw [← h2] at h3
    rcases List.mem_append.mp h3 with h4 | h4
    · left
      simpa using List.mem_takeWhile_imp h4
    · right
      simp only [Trim, List.mem_reverse]
      exact h4

/-- The trimmed text of a text made of the cut character only is empty. -/
theorem Trim_of_all (c : String) (cut : Char) (h : ∀ x ∈ c.data, x = cut) :
    Trim c cut = "" := by
  have h1 : c.data.dropWhile (fun ch => ch == cut) = [] := by
    rw [List.dropWhile_eq_nil_iff]
    intro x hx
    simpa using h x hx
  simp [Trim, h1]

/-- The trimmed text is the text without a run of the cut character at its
beginning and at its end, and neither begins nor ends with that character. -/
theorem Trim_spec (c : String) (cut : Char) :
    ∃ n m, c.data = List.replicate n cut ++ (Trim c cut).data ++ List.replicate m cut
      ∧ (Trim c cut).data.head? ≠ some cut ∧ (Trim c cut).data.getLast? ≠ some cut := by
  have hrep : ∀ l : List Char, (∀ x ∈ l, x = cut) → l = List.replicate l.length cut :=
    fun l h => List.eq_replicate_of_mem h
  have h1 := List.takeWhile_append_dropWhile (fun ch => ch == cut) c.data
  have h2 := List.takeWhile_append_dropWhile (fun ch => ch == cut)
    (c.data.dropWhile (fun ch => ch == cut)).reverse
  have h3 : c.data.dropWhile (fun ch => ch == cut)
      = (Trim c cut).data
        ++ ((c.data.dropWhile (fun ch => ch == cut)).reverse.takeWhile
            (fun ch => ch == cut)).reverse := by
    have := congrArg List.reverse h2
    rw [List.reverse_append, List.reverse_reverse] at this
    exact this.symm
  have hlast : (Trim c cut).data.getLast? ≠ some cut := by
    simp only [Trim, List.getLast?_reverse]
    intro h
    have := List.head?_dropWhile_not (fun ch => ch == cut)
      (c.data.dropWhile (fun ch => ch == cut)).reverse
    rw [h] at this
    simp at this
  have hhead : (Trim c cut).data.head? ≠ some cut := by
    intro h
    cases ht : (Trim c cut).data with
    | nil => rw [ht] at h; simp at h
    | cons a rest =>
      rw [ht] at h h3
      have ha : a = cut := by simpa using h
      have := List.head?_dropWhile_not (fun ch => ch == cut) c.data
      rw [h3] at this
      simp [ha] at this
  refine ⟨(c.data.takeWhile (fun ch => ch == cut)).length,
    ((c.data.dropWhile (fun ch => ch == cut)).reverse.takeWhile
      (fun ch => ch == cut)).reverse.length, ?_, hhead, hlast⟩
  rw [← hrep _ (fun x hx => by simpa using List.mem_takeWhile_imp hx),
    ← hrep _ (fun x hx => by simpa using List.mem_takeWhile_imp (List.mem_reverse.mp hx)),
    List.append_assoc, ← h3, h1]

/-- Joining the pieces of `Split` with the separator gives the text back. -/
theorem Join_Split (s : String) (sep : Char) :
    Join (Split s sep) (String.mk [sep]) = s := by
  have : (Split s sep).map String.data = splitChars sep s.data := by
    simp [Split, Function.comp_def]
  simp only [Join, this, splitChars_intercalate]

end Strings

namespace Exec

/-! ## The closure of GetConditionalCheck -/

theorem foldl_sticky (f : String → Bool) (l : List String) (st : Bool) :
    l.foldl (fun st pc => if f pc then true else st) st = (st || l.any f) := by
  induction l generalizing st with
  | nil => simp
  | cons pc pcs ih =>
    simp only [List.foldl_cons, List.any_cons, ih]
    cases f pc <;> cases st <;> simp

theorem Check.call_fst (re : Regexp) (c : Check) (line : String) :
    (c.call re line).1 = (c.permissibleState || matchesAny re c.permissibleConditions line) := by
  simp only [Check.call, matchesAny]
  exact foldl_sticky (fun pc => re.MatchString pc line) _ _

theorem Check.call_snd_state (re : Regexp) (c : Check) (line : String) :
    (c.call re line).2.permissibleState = (c.call re line).1 := rfl

theorem Check.call_snd_conditions (re : Regexp) (c : Check) (line : String) :
    (c.call re line).2.permissibleConditions = c.permissibleConditions := rfl

theorem GetConditionalCheck_eq_some {re : Regexp} {conditionals : List String} {check : Check}
    (h : GetConditionalCheck re conditionals = some check) :
    check = { permissibleConditions := conditionals, permissibleState := false } := by
  unfold GetConditionalCheck at h
  split at h
  · exact (Option.some.inj h).symm
  · cases h

theorem Check.feed_length (re : Regexp) (c : Check) (lines : List String) :
    (c.feed re lines).length = lines.length := by
  induction lines generalizing c with
  | nil => rfl
  | cons line rest ih => simp [Check.feed, ih]

theorem Check.feed_getElem? (re : Regexp) (c : Check) (lines : List String) (n : Nat)
    (hn : n < lines.length) :
    (c.feed re lines)[n]? =
      some (c.permissibleState
        || anyLineMatches re c.permissibleConditions (lines.take (n + 1))) := by
  induction lines generalizing c n with
  | nil => simp at hn
  | cons line rest ih =>
    cases n with
    | zero => simp [Check.feed, Check.call_fst, anyLineMatches]
    | succ k =>
      have hk : k < rest.length := by simpa using hn
      simp only [Check.feed, List.getElem?_cons_succ]
      rw [ih _ k hk, Check.call_snd_state, Check.call_snd_conditions, Check.call_fst]
      simp [anyLineMatches, Bool.or_assoc]

theorem matchesAny_perm (re : Regexp) {l1 l2 : List String} (h : l1.Perm l2) (line : String) :
    matchesAny re l1 line = matchesAny re l2 line := by
  rw [Bool.eq_iff_iff]
  simp only [matchesAny, List.any_eq_true]
  constructor
  · rintro ⟨pc, hpc, hm⟩
    exact ⟨pc, h.mem_iff.mp hpc, hm⟩
  · rintro ⟨pc, hpc, hm⟩
    exact ⟨pc, h.mem_iff.mpr hpc, hm⟩

theorem Check.feed_perm (re : Regexp) (st : Bool) {l1 l2 : List String} (h : l1.Perm l2)
    (lines : List String) :
    Check.feed re { permissibleConditions := l1, permissibleState := st } lines
      = Check.feed re { permissibleConditions := l2, permissibleState := st } lines := by
  induction lines generalizing st with
  | nil => rfl
  | cons line rest ih =>
    have h1 : (Check.call re { permissibleConditions := l1, permissibleState := st } line).1
        = (Check.call re { permissibleConditions := l2, permissibleState := st } line).1 := by
      rw [Check.call_fst, Check.call_fst, matchesAny_perm re h]
    have h2 : ∀ l, (Check.call re { permissibleConditions := l, permissibleState := st } line).2
        = { permissibleConditions := l,
            permissibleState :=
              (Check.call re { permissibleConditions := l, permissibleState := st } line).1 } :=
      fun _ => rfl
    simp only [Check.feed]
    rw [h2 l1, h2 l2, h1, ih]

theorem anyLineMatches_iff (re : Regexp) (conditionals lines : List String) :
    anyLineMatches re conditionals lines = true ↔
      ∃ line ∈ lines, ∃ pc ∈ conditionals, re.MatchString pc line = true := by
  simp [anyLineMatches, matchesAny]

/-- C8. The value returned by the n-th call of one predicate of `GetConditionalCheck`,
fed the lines in order, is true exactly when some pattern matches one of the
lines fed so far; hence a true answer stays true, a permutation of the patterns
gives the same answers, and with no pattern every answer is false. -/
theorem GetConditionalCheck_sticky (re : Regexp) (conditionals : List String) (check : Check)
    (lines : List String) (h : GetConditionalCheck re conditionals = some check) :
    (∀ n, n < lines.length → ∃ b, (check.feed re lines)[n]? = some b ∧
      (b = true ↔ ∃ k, k ≤ n ∧ ∃ line, lines[k]? = some line ∧
        ∃ pc ∈ conditionals, re.MatchString pc line = true))
    ∧ (∀ i j, i ≤ j → j < lines.length →
        (check.feed re lines)[i]? = some true → (check.feed re lines)[j]? = some true)
    ∧ (∀ conditionals2 check2, conditionals2.Perm conditionals →
        GetConditionalCheck re conditionals2 = some check2 →
        check2.feed re lines = check.feed re lines)
    ∧ (conditionals = [] → ∀ b ∈ check.feed re lines, b = false) := by
  have hc := GetConditionalCheck_eq_some h
  subst hc
  have key : ∀ n, n < lines.length →
      (Check.feed re { permissibleConditions := conditionals, permissibleState := false } lines)[n]?
        = some (anyLineMatches re conditionals (lines.take (n + 1))) := by
    intro n hn
    rw [Check.feed_getElem? re _ lines n hn]
    simp
  have char : ∀ n, n < lines.length →
      (anyLineMatches re conditionals (lines.take (n + 1)) = true ↔
        ∃ k, k ≤ n ∧ ∃ line, lines[k]? = some line ∧
          ∃ pc ∈ conditionals, re.MatchString pc line = true) := by
    intro n _
    rw [anyLineMatches_iff]
    constructor
    · rintro ⟨line, hl, pc, hpc, hm⟩
      obtain ⟨k, hk, hget⟩ := List.getElem_of_mem hl
      have hk1 : k < n + 1 := by
        have := List.length_take_le (n + 1) lines
        omega
      refine ⟨k, by omega, line, ?_, pc, hpc, hm⟩
      rw [List.getElem_take] at hget
      rw [← hget]
      exact List.getElem?_eq_getElem _
    · rintro ⟨k, hk, line, hl, pc, hpc, hm⟩
      refine ⟨line, ?_, pc, hpc, hm⟩
      have hlt : k < lines.length := (List.getElem?_eq_some_iff.mp hl).1
      have heq : lines[k] = line := (List.getElem?_eq_some_iff.mp hl).2
      rw [List.mem_iff_getElem]
      refine ⟨k, ?_, ?_⟩
      · rw [List.length_take]; omega
      · rw [List.getElem_take]; exact heq
  refine ⟨?_, ?_, ?_, ?_⟩
  · intro n hn
    exact ⟨_, key n hn, char n hn⟩
  · intro i j hij hj hi
    have hilt : i < lines.length := by omega
    rw [key i hilt] at hi
    rw [key j hj]
    have hi2 : anyLineMatches re conditionals (lines.take (i + 1)) = true := Option.some.inj hi
    obtain ⟨k, hk, rest⟩ := (char i hilt).mp hi2
    have : anyLineMatches re conditionals (lines.take (j + 1)) = true :=
      (char j hj).mpr ⟨k, by omega, rest⟩
    rw [this]
  · intro conditionals2 check2 hperm h2
    have hc2 := GetConditionalCheck_eq_some h2
    subst hc2
    exact Check.feed_perm re false hperm lines
  · intro hnil b hb
    subst hnil
    obtain ⟨n, hn, hget⟩ := List.getElem_of_mem hb
    have hn2 : n < lines.length := by rwa [Check.feed_length] at hn
    have := key n hn2
    rw [List.getElem?_eq_getElem hn, hget] at this
    have hb2 := Option.some.inj this
    rw [hb2]
    simp [anyLineMatches, matchesAny]

/-- C9, counterexample. With the pattern `line`, the second call, on a line
that matches no pattern, returns true because the first line matched. -/
theorem GetConditionalCheck_not_per_line :
    ∃ check, GetConditionalCheck Regexp.literal ["line"] = some check ∧
      check.feed Regexp.literal ["This is a line of text", "moo"]
        ≠ ["This is a line of text", "moo"].map (matchesAny Regexp.literal ["line"]) :=
  ⟨_, rfl, by decide⟩

/-- C9, amended. The first call of a predicate of `GetConditionalCheck` returns
whether its line matches a pattern, and every later call returns the value of
the call before it or-ed with whether its own line matches a pattern. -/
theorem GetConditionalCheck_call_accumulates (re : Regexp) (conditionals : List String)
    (check : Check) (lines : List String)
    (h : GetConditionalCheck re conditionals = some check) :
    (check.feed re lines)[0]? = (lines[0]?).map (matchesAny re conditionals)
    ∧ ∀ n line, lines[n + 1]? = some line →
        ∃ b, (check.feed re lines)[n]? = some b
          ∧ (check.feed re lines)[n + 1]? = some (b || matchesAny re conditionals line) := by
  have hc := GetConditionalCheck_eq_some h
  subst hc
  constructor
  · cases lines with
    | nil => rfl
    | cons line rest => simp [Check.feed, Check.call_fst]
  · intro n line hline
    have hlt : n + 1 < lines.length := (List.getElem?_eq_some_iff.mp hline).1
    refine ⟨_, Check.feed_getElem? re _ lines n (by omega), ?_⟩
    rw [Check.feed_getElem? re _ lines (n + 1) hlt]
    have ht : lines.take (n + 1 + 1) = lines.take (n + 1) ++ [line] := by
      rw [List.take_succ, hline]; rfl
    rw [ht]
    simp [anyLineMatches]

/-! ## HandleOutput -/

theorem sends_append (a b : List Output) : sends (a ++ b) = sends a ++ sends b := by
  induction a with
  | nil => rfl
  | cons x xs ih => cases x <;> simp [sends, ih]

theorem sends_ite_log (c : Prop) [Decidable c] (msg : String) :
    sends (if c then [Output.log msg] else []) = [] := by
  split <;> rfl

theorem HandleOutput.loop_sends_eq (re : Regexp) (lines : List String) (prev : String)
    (p : Bool) (c : Check) (hp : p = c.permissibleState) :
    ∀ v ∈ sends (HandleOutput.loop re lines prev p c),
      v = (c.permissibleState || anyLineMatches re c.permissibleConditions lines) := by
  induction lines generalizing prev p c with
  | nil =>
    intro v hv
    subst hp
    cases hs : c.permissibleState <;> simp [HandleOutput.loop, hs, sends, anyLineMatches] at hv ⊢
    exact hv
  | cons line rest ih =>
    intro v hv
    simp only [HandleOutput.loop, sends_append, sends_ite_log, List.append_nil,
      List.mem_append] at hv
    have hcall := Check.call_fst re c line
    rcases hv with hv | hv
    · cases hr : (c.call re line).1
      · simp [hr, sends] at hv
      · simp only [hr, if_true, sends, List.mem_singleton] at hv
        rw [hr] at hcall
        subst hv
        cases hs : c.permissibleState
        · rw [hs] at hcall
          simp only [Bool.false_or] at hcall
          simp [anyLineMatches, ← hcall]
        · rfl
    · have := ih line (p || (c.call re line).1) (c.call re line).2
        (by rw [Check.call_snd_state, hp, hcall]; cases c.permissibleState <;> simp) v hv
      rw [this, Check.call_snd_state, Check.call_snd_conditions, hcall]
      simp [anyLineMatches, Bool.or_assoc]

theorem HandleOutput.loop_sends_ne_nil (re : Regexp) (lines : List String) (prev : String)
    (c : Check) : sends (HandleOutput.loop re lines prev false c) ≠ [] := by
  induction lines generalizing prev c with
  | nil => simp [HandleOutput.loop, sends]
  | cons line rest ih =>
    simp only [HandleOutput.loop, sends_append, sends_ite_log, List.append_nil]
    cases hr : (c.call re line).1
    · simpa [sends] using ih line (c.call re line).2
    · simp [sends]

/-- C10. Against a receiver that takes every value, `HandleOutput` with a fresh
predicate sends at least one value, and every value it sends is whether some line
of the whole stream matches some pattern. -/
theorem HandleOutput_verdict (re : Regexp) (conditionals : List String) (check : Check)
    (input : List String) (h : GetConditionalCheck re conditionals = some check) :
    sends (HandleOutput re input check) ≠ []
    ∧ ∀ v ∈ sends (HandleOutput re input check),
        v = anyLineMatches re conditionals input := by
  have hc := GetConditionalCheck_eq_some h
  subst hc
  refine ⟨HandleOutput.loop_sends_ne_nil re input "" _, ?_⟩
  intro v hv
  have := HandleOutput.loop_sends_eq re input "" false _ rfl v hv
  simpa using this

/-! ## The goroutines of one call -/

theorem Monitor.step_blocked (re : Regexp) (m : Monitor) (c : Check) (h : m.pc ≠ Pc.scan) :
    m.step re c = (m, c) := by
  unfold Monitor.step
  split
  · rename_i h1 _; exact absurd h1 h
  · rename_i h1 _; exact absurd h1 h
  · rfl

theorem Monitor.step_nil (re : Regexp) (m : Monitor) (c : Check) (hpc : m.pc = Pc.scan)
    (hin : m.input = []) (hp : m.p = false) :
    m.step re c = ({ m with pc := Pc.sendFalse }, c) := by
  unfold Monitor.step
  rw [hpc, hin]
  simp [hp]

theorem Monitor.step_match (re : Regexp) (m : Monitor) (c : Check) (line : String)
    (rest : List String) (hpc : m.pc = Pc.scan) (hin : m.input = line :: rest)
    (hr : (c.call re line).1 = true) :
    m.step re c = ({ m with input := rest, pc := Pc.sendTrue line }, (c.call re line).2) := by
  unfold Monitor.step
  rw [hpc, hin]
  simp [hr]

theorem Monitor.step_no_match (re : Regexp) (m : Monitor) (c : Check) (line : String)
    (rest : List String) (hpc : m.pc = Pc.scan) (hin : m.input = line :: rest)
    (hr : (c.call re line).1 = false) :
    m.step re c = ({ m.logLine line with input := rest }, (c.call re line).2) := by
  unfold Monitor.step
  rw [hpc, hin]
  simp [hr]

theorem Monitor.step_waiting (re : Regexp) (m : Monitor) (c : Check) (h : m.Waiting) :
    (m.step re c).1.Waiting := by
  obtain ⟨hp, hdone⟩ := h
  by_cases hpc : m.pc = Pc.scan
  · cases hin : m.input with
    | nil =>
      rw [Monitor.step_nil re m c hpc hin hp]
      exact ⟨hp, by simp⟩
    | cons line rest =>
      cases hr : (c.call re line).1
      · rw [Monitor.step_no_match re m c line rest hpc hin hr]
        exact ⟨hp, by simp [Monitor.logLine, hpc]⟩
      · rw [Monitor.step_match re m c line rest hpc hin hr]
        exact ⟨hp, by simp⟩
  · rw [Monitor.step_blocked re m c hpc]
    exact ⟨hp, hdone⟩

theorem Monitor.advance_blocked (re : Regexp) (n : Nat) (m : Monitor) (c : Check)
    (h : m.pc ≠ Pc.scan) : m.advance re n c = (m, c) := by
  induction n with
  | zero => rfl
  | succ k ih => simp only [Monitor.advance, Monitor.step_blocked re m c h, ih]

theorem Monitor.offer_isSome (m : Monitor) (h : m.Waiting) (hpc : m.pc ≠ Pc.scan) :
    m.offer.isSome = true := by
  have hdone := h.2
  cases hm : m.pc with
  | scan => exact absurd hm hpc
  | sendTrue line => simp [Monitor.offer, hm]
  | sendFalse => simp [Monitor.offer, hm]
  | done => exact absurd hm hdone

theorem Monitor.advance_offer (re : Regexp) (n : Nat) (m : Monitor) (c : Check)
    (h : m.Waiting) (hn : m.input.length + 1 ≤ n) :
    ((m.advance re n c).1.offer).isSome = true := by
  induction n generalizing m c with
  | zero => omega
  | succ k ih =>
    by_cases hpc : m.pc = Pc.scan
    · have hw := Monitor.step_waiting re m c h
      cases hin : m.input with
      | nil =>
        simp only [Monitor.advance]
        have hstep := Monitor.step_nil re m c hpc hin h.1
        have hpc2 : (m.step re c).1.pc ≠ Pc.scan := by rw [hstep]; simp
        rw [Monitor.advance_blocked re k _ _ hpc2]
        exact Monitor.offer_isSome _ hw hpc2
      | cons line rest =>
        simp only [Monitor.advance]
        cases hr : (c.call re line).1
        · apply ih _ _ hw
          rw [Monitor.step_no_match re m c line rest hpc hin hr]
          rw [hin] at hn
          simpa using hn
        · have hpc2 : (m.step re c).1.pc ≠ Pc.scan := by
            rw [Monitor.step_match re m c line rest hpc hin hr]; simp
          rw [Monitor.advance_blocked re k _ _ hpc2]
          exact Monitor.offer_isSome _ hw hpc2
    · rw [Monitor.advance_blocked re _ m c hpc]
      exact Monitor.offer_isSome m h hpc

theorem Sel.exec_step_stderr (re : Regexp) (s : Sel) :
    s.exec re Action.stderrStep =
      match s.stderrMonitor with
      | some m => { s with stderrMonitor := some (m.step re s.check).1,
                           check := (m.step re s.check).2 }
      | none => s := rfl

theorem Sel.exec_step_stdout (re : Regexp) (s : Sel) :
    s.exec re Action.stdoutStep =
      match s.stdoutMonitor with
      | some m => { s with stdoutMonitor := some (m.step re s.check).1,
                           check := (m.step re s.check).2 }
      | none => s := rfl

theorem Sel.exec_case_stdout (re : Regexp) (s : Sel) :
    s.exec re Action.caseStdOut = s
    ∨ ∃ m v, s.received = none ∧ s.stderrMonitor = some m ∧ m.offer = some v
        ∧ s.exec re Action.caseStdOut
            = { s with stderrMonitor := some m.sent, received := some v } := by
  cases hrec : s.received with
  | some v => left; simp [Sel.exec, hrec]
  | none =>
    cases hm : s.stderrMonitor with
    | none => left; simp [Sel.exec, hrec, hm]
    | some m =>
      cases ho : m.offer with
      | none => left; simp [Sel.exec, hrec, hm, ho]
      | some v => right; exact ⟨m, v, rfl, rfl, ho, by simp [Sel.exec, hrec, hm, ho]⟩

theorem Sel.exec_case_stderr (re : Regexp) (s : Sel) :
    s.exec re Action.caseStdErr = s
    ∨ ∃ m v, s.received = none ∧ s.stdoutMonitor = some m ∧ m.offer = some v
        ∧ s.exec re Action.caseStdErr
            = { s with stdoutMonitor := some m.sent, received := some v } := by
  cases hrec : s.received with
  | some v => left; simp [Sel.exec, hrec]
  | none =>
    cases hm : s.stdoutMonitor with
    | none => left; simp [Sel.exec, hrec, hm]
    | some m =>
      cases ho : m.offer with
      | none => left; simp [Sel.exec, hrec, hm, ho]
      | some v => right; exact ⟨m, v, rfl, rfl, ho, by simp [Sel.exec, hrec, hm, ho]⟩

theorem Sel.exec_waiting (re : Regexp) (s : Sel) (a : Action) (h : s.Waiting) :
    (s.exec re a).Waiting := by
  cases a with
  | stderrStep =>
    rw [Sel.exec_step_stderr]
    cases hm : s.stderrMonitor with
    | none => exact h
    | some m =>
      intro hrec
      obtain ⟨h1, h2⟩ := h hrec
      refine ⟨?_, h2⟩
      intro m2 hm2
      have : m2 = (m.step re s.check).1 := by simpa using hm2.symm
      subst this
      exact Monitor.step_waiting re m _ (h1 m hm)
  | stdoutStep =>
    rw [Sel.exec_step_stdout]
    cases hm : s.stdoutMonitor with
    | none => exact h
    | some m =>
      intro hrec
      obtain ⟨h1, h2⟩ := h hrec
      refine ⟨h1, ?_⟩
      intro m2 hm2
      have : m2 = (m.step re s.check).1 := by simpa using hm2.symm
      subst this
      exact Monitor.step_waiting re m _ (h2 m hm)
  | caseStdOut =>
    rcases Sel.exec_case_stdout re s with he | ⟨m, v, _, _, _, he⟩
    · rw [he]; exact h
    · rw [he]; intro hrec; simp at hrec
  | caseStdErr =>
    rcases Sel.exec_case_stderr re s with he | ⟨m, v, _, _, _, he⟩
    · rw [he]; exact h
    · rw [he]; intro hrec; simp at hrec

theorem Sel.exec_monitors (re : Regexp) (s : Sel) (a : Action) :
    (s.exec re a).stderrMonitor.isSome = s.stderrMonitor.isSome
    ∧ (s.exec re a).stdoutMonitor.isSome = s.stdoutMonitor.isSome := by
  cases a with
  | stderrStep =>
    rw [Sel.exec_step_stderr]
    cases hm : s.stderrMonitor <;> simp [hm]
  | stdoutStep =>
    rw [Sel.exec_step_stdout]
    cases hm : s.stdoutMonitor <;> simp [hm]
  | caseStdOut =>
    rcases Sel.exec_case_stdout re s with he | ⟨m, v, _, hm, _, he⟩
    · rw [he]; exact ⟨rfl, rfl⟩
    · rw [he]; simp [hm]
  | caseStdErr =>
    rcases Sel.exec_case_stderr re s with he | ⟨m, v, _, hm, _, he⟩
    · rw [he]; exact ⟨rfl, rfl⟩
    · rw [he]; simp [hm]

theorem Sel.run_waiting (re : Regexp) (s : Sel) (sched : List Action) (h : s.Waiting) :
    (s.run re sched).Waiting
    ∧ (s.run re sched).stderrMonitor.isSome = s.stderrMonitor.isSome
    ∧ (s.run re sched).stdoutMonitor.isSome = s.stdoutMonitor.isSome := by
  induction sched generalizing s with
  | nil => exact ⟨h, rfl, rfl⟩
  | cons a rest ih =>
    have := ih (s.exec re a) (Sel.exec_waiting re s a h)
    have hm := Sel.exec_monitors re s a
    simp only [Sel.run, List.foldl_cons] at this ⊢
    exact ⟨this.1, this.2.1.trans hm.1, this.2.2.trans hm.2⟩

theorem Sel.verdict_isSome (re : Regexp) (s : Sel) (h : s.Waiting)
    (hm : s.stderrMonitor.isSome = true ∨ s.stdoutMonitor.isSome = true) :
    (s.verdict re).isSome = true := by
  unfold Sel.verdict
  cases hrec : s.received with
  | some v => rfl
  | none =>
    obtain ⟨h1, h2⟩ := h hrec
    cases he : s.stderrMonitor with
    | some m => exact Monitor.advance_offer re _ m _ (h1 m he) (le_refl _)
    | none =>
      cases ho : s.stdoutMonitor with
      | some m => exact Monitor.advance_offer re _ m _ (h2 m ho) (le_refl _)
      | none => simp [he, ho] at hm

theorem Sel.init_waiting (check : Check) (stderr stdout : Option (List String)) :
    (Sel.init check stderr stdout).Waiting := by
  intro _
  constructor <;>
  · intro m hm
    simp only [Sel.init, Option.map_eq_some'] at hm
    obtain ⟨lines, _, rfl⟩ := hm
    exact ⟨rfl, by simp [Monitor.init]⟩

/-- The `select` of a stage with a captured stream receives a value under every
schedule. -/
theorem stageVerdict_isSome (re : Regexp) (check : Check) (s : RunCmd) (sched : List Action)
    (h : s.stderr.isSome = true ∨ s.stdout.isSome = true) :
    ∃ v, stageVerdict re check s sched = some v := by
  have hw := Sel.run_waiting re (Sel.init check s.stderr s.stdout) sched
    (Sel.init_waiting check s.stderr s.stdout)
  have := Sel.verdict_isSome re _ hw.1 (by
    rw [hw.2.1, hw.2.2]
    simpa [Sel.init] using h)
  exact Option.isSome_iff_exists.mp this

theorem logs_append (a b : List Output) : logs (a ++ b) = logs a ++ logs b := by
  induction a with
  | nil => rfl
  | cons x xs ih => cases x <;> simp [logs, ih]

theorem Monitor.drain_done (re : Regexp) (n : Nat) (m : Monitor) (c : Check)
    (h : m.pc = Pc.done) : m.drain re n c = ([], m) := by
  induction n with
  | zero => rfl
  | succ k ih =>
    have hoff : m.offer = none := by simp [Monitor.offer, h]
    have hstep : m.step re c = (m, c) := Monitor.step_blocked re m c (by rw [h]; simp)
    simp only [Monitor.drain, hoff, hstep, ih]

/-- The two renderings of `HandleOutput` agree: a monitor run alone from the loop
state `prev`, `p`, against a receiver that takes every value, sends the values
and logs the messages of `HandleOutput.loop`, and returns. -/
theorem Monitor.drain_eq_loop (re : Regexp) (lines : List String) (prev : String) (p : Bool)
    (logged : List String) (c : Check) (n : Nat) (hn : 2 * lines.length + 2 ≤ n) :
    (Monitor.drain re n
        { input := lines, prev := prev, p := p, pc := Pc.scan, logged := logged } c).1
      = sends (HandleOutput.loop re lines prev p c)
    ∧ (Monitor.drain re n
        { input := lines, prev := prev, p := p, pc := Pc.scan, logged := logged } c).2.logged
      = logged ++ logs (HandleOutput.loop re lines prev p c)
    ∧ (Monitor.drain re n
        { input := lines, prev := prev, p := p, pc := Pc.scan, logged := logged } c).2.pc
      = Pc.done := by
  induction lines generalizing prev p logged c n with
  | nil =>
    obtain ⟨k, rfl⟩ : ∃ k, n = k + 2 := ⟨n - 2, by simp at hn; omega⟩
    cases p
    · simp [Monitor.drain, Monitor.offer, Monitor.step, Monitor.sent, HandleOutput.loop, sends,
        logs, Monitor.drain_done]
    · simp [Monitor.drain, Monitor.offer, Monitor.step, HandleOutput.loop, sends,
        logs, Monitor.drain_done]
  | cons line rest ih =>
    obtain ⟨k, rfl⟩ : ∃ k, n = k + 2 := ⟨n - 2, by simp at hn; omega⟩
    have hk : 2 * rest.length + 2 ≤ k := by simp at hn; omega
    cases hr : (c.call re line).1
    · have hstep := Monitor.step_no_match re
        { input := line :: rest, prev := prev, p := p, pc := Pc.scan, logged := logged } c
        line rest rfl rfl hr
      have := ih line p (if line ≠ prev then logged ++ [logMsg line] else logged)
        (c.call re line).2 (k + 1) (by omega)
      simp only [Monitor.drain, Monitor.offer, hstep, Monitor.logLine] at this ⊢
      simp only [HandleOutput.loop, hr, sends_append, logs_append, Bool.or_false]
      refine ⟨?_, ?_, this.2.2⟩
      · rw [this.1]
        by_cases hlp : line = prev <;> simp [hlp, sends]
      · rw [this.2.1]
        by_cases hlp : line = prev <;> simp [hlp, logs]
    · have hstep := Monitor.step_match re
        { input := line :: rest, prev := prev, p := p, pc := Pc.scan, logged := logged } c
        line rest rfl rfl hr
      have := ih line true (if line ≠ prev then logged ++ [logMsg line] else logged)
        (c.call re line).2 k hk
      simp only [Monitor.drain, Monitor.offer, hstep, Monitor.sent, Monitor.logLine] at this ⊢
      simp only [HandleOutput.loop, hr, sends_append, logs_append, Bool.or_true]
      refine ⟨?_, ?_, this.2.2⟩
      · rw [this.1]
        by_cases hlp : line = prev <;> simp [hlp, sends]
      · rw [this.2.1]
        by_cases hlp : line = prev <;> simp [hlp, logs]

theorem anyLineMatches_cons (re : Regexp) (conditions : List String) (line : String)
    (rest : List String) :
    anyLineMatches re conditions (line :: rest)
      = (matchesAny re conditions line || anyLineMatches re conditions rest) := by
  simp [anyLineMatches]

theorem Monitor.step_sound (re : Regexp) (A : Prop) (m : Monitor) (c : Check)
    (hc : c.permissibleState = true → A) (hm : m.Sound re c.permissibleConditions A) :
    ((m.step re c).2.permissibleState = true → A)
    ∧ (m.step re c).1.Sound re c.permissibleConditions A
    ∧ (m.step re c).2.permissibleConditions = c.permissibleConditions := by
  by_cases hpc : m.pc = Pc.scan
  · cases hin : m.input with
    | nil =>
      have hstep : m.step re c
          = (if m.p then { m with pc := Pc.done } else { m with pc := Pc.sendFalse }, c) := by
        unfold Monitor.step
        rw [hpc, hin]
        cases m.p <;> rfl
      rw [hstep]
      refine ⟨hc, ⟨?_, ?_⟩, rfl⟩
      · intro h
        apply hm.1
        cases hp : m.p <;> simpa [hp] using h
      · intro line h
        cases hp : m.p <;> simp [hp] at h
    | cons line rest =>
      have hrest : anyLineMatches re c.permissibleConditions rest = true → A := by
        intro h
        apply hm.1
        rw [hin, anyLineMatches_cons, h]
        simp
      cases hr : (c.call re line).1
      · rw [Monitor.step_no_match re m c line rest hpc hin hr]
        refine ⟨?_, ⟨hrest, ?_⟩, rfl⟩
        · intro h
          rw [Check.call_snd_state, hr] at h
          cases h
        · intro l h
          simp [Monitor.logLine, hpc] at h
      · rw [Monitor.step_match re m c line rest hpc hin hr]
        have hA : A := by
          rw [Check.call_fst] at hr
          cases hs : c.permissibleState
          · rw [hs] at hr
            apply hm.1
            rw [hin, anyLineMatches_cons]
            simp only [Bool.false_or] at hr
            rw [hr]
            rfl
          · exact hc hs
        exact ⟨fun _ => hA, ⟨hrest, fun _ _ => hA⟩, rfl⟩
  · rw [Monitor.step_blocked re m c hpc]
    exact ⟨hc, hm, rfl⟩

theorem Monitor.sent_sound (re : Regexp) (conditions : List String) (A : Prop) (m : Monitor)
    (hm : m.Sound re conditions A) : m.sent.Sound re conditions A := by
  unfold Monitor.sent
  split
  · exact ⟨hm.1, by intro l h; simp at h⟩
  · exact ⟨hm.1, by intro l h; simp at h⟩
  · exact hm

theorem Monitor.advance_sound (re : Regexp) (A : Prop) (n : Nat) (m : Monitor) (c : Check)
    (hc : c.permissibleState = true → A) (hm : m.Sound re c.permissibleConditions A) :
    (m.advance re n c).1.Sound re c.permissibleConditions A := by
  induction n generalizing m c with
  | zero => exact hm
  | succ k ih =>
    obtain ⟨h1, h2, h3⟩ := Monitor.step_sound re A m c hc hm
    simp only [Monitor.advance]
    rw [← h3] at h2 ⊢
    exact ih _ _ h1 h2

theorem Monitor.offer_sound (re : Regexp) (conditions : List String) (A : Prop) (m : Monitor)
    (hm : m.Sound re conditions A) (h : m.offer = some true) : A := by
  unfold Monitor.offer at h
  split at h
  · rename_i line hpc; exact hm.2 line hpc
  · simp at h
  · simp at h

theorem Sel.exec_sound (re : Regexp) (A : Prop) (s : Sel) (a : Action) (h : s.Sound re A) :
    (s.exec re a).Sound re A
    ∧ (s.exec re a).check.permissibleConditions = s.check.permissibleConditions := by
  obtain ⟨hc, he, ho, hr⟩ := h
  cases a with
  | stderrStep =>
    rw [Sel.exec_step_stderr]
    cases hm : s.stderrMonitor with
    | none => exact ⟨⟨hc, he, ho, hr⟩, rfl⟩
    | some m =>
      obtain ⟨h1, h2, h3⟩ := Monitor.step_sound re A m s.check hc (he m hm)
      refine ⟨⟨h1, ?_, ?_, hr⟩, h3⟩
      · intro m2 hm2
        have : m2 = (m.step re s.check).1 := by simpa using hm2.symm
        subst this
        simpa only [h3] using h2
      · intro m2 hm2
        simpa only [h3] using ho m2 hm2
  | stdoutStep =>
    rw [Sel.exec_step_stdout]
    cases hm : s.stdoutMonitor with
    | none => exact ⟨⟨hc, he, ho, hr⟩, rfl⟩
    | some m =>
      obtain ⟨h1, h2, h3⟩ := Monitor.step_sound re A m s.check hc (ho m hm)
      refine ⟨⟨h1, ?_, ?_, hr⟩, h3⟩
      · intro m2 hm2
        simpa only [h3] using he m2 hm2
      · intro m2 hm2
        have : m2 = (m.step re s.check).1 := by simpa using hm2.symm
        subst this
        simpa only [h3] using h2
  | caseStdOut =>
    rcases Sel.exec_case_stdout re s with heq | ⟨m, v, _, hm, hoff, heq⟩
    · rw [heq]; exact ⟨⟨hc, he, ho, hr⟩, rfl⟩
    · rw [heq]
      refine ⟨⟨hc, ?_, ho, ?_⟩, rfl⟩
      · intro m2 hm2
        have : m2 = m.sent := by simpa using hm2.symm
        subst this
        exact Monitor.sent_sound re _ A m (he m hm)
      · intro hv
        have : v = true := by simpa using hv
        subst this
        exact Monitor.offer_sound re _ A m (he m hm) hoff
  | caseStdErr =>
    rcases Sel.exec_case_stderr re s with heq | ⟨m, v, _, hm, hoff, heq⟩
    · rw [heq]; exact ⟨⟨hc, he, ho, hr⟩, rfl⟩
    · rw [heq]
      refine ⟨⟨hc, he, ?_, ?_⟩, rfl⟩
      · intro m2 hm2
        have : m2 = m.sent := by simpa using hm2.symm
        subst this
        exact Monitor.sent_sound re _ A m (ho m hm)
      · intro hv
        have : v = true := by simpa using hv
        subst this
        exact Monitor.offer_sound re _ A m (ho m hm) hoff

theorem Sel.run_sound (re : Regexp) (A : Prop) (s : Sel) (sched : List Action)
    (h : s.Sound re A) : (s.run re sched).Sound re A := by
  induction sched generalizing s with
  | nil => exact h
  | cons a rest ih =>
    simp only [Sel.run, List.foldl_cons]
    exact ih _ (Sel.exec_sound re A s a h).1

theorem Sel.verdict_sound (re : Regexp) (A : Prop) (s : Sel) (h : s.Sound re A)
    (hv : s.verdict re = some true) : A := by
  obtain ⟨hc, he, ho, hr⟩ := h
  unfold Sel.verdict at hv
  cases hrec : s.received with
  | some v =>
    rw [hrec] at hv
    exact hr (by rw [hrec]; exact hv)
  | none =>
    rw [hrec] at hv
    cases hm : s.stderrMonitor with
    | some m =>
      rw [hm] at hv
      exact Monitor.offer_sound re _ A _ (Monitor.advance_sound re A _ m s.check hc (he m hm)) hv
    | none =>
      rw [hm] at hv
      cases hm2 : s.stdoutMonitor with
      | some m =>
        rw [hm2] at hv
        exact Monitor.offer_sound re _ A _
          (Monitor.advance_sound re A _ m s.check hc (ho m hm2)) hv
      | none => rw [hm2] at hv; simp at hv

/-- The `select` of a stage receives true only if some line of a captured
stream of the stage matches some pattern. -/
theorem stageVerdict_sound (re : Regexp) (check : Check) (s : RunCmd) (sched : List Action)
    (hfresh : check.permissibleState = false)
    (hv : stageVerdict re check s sched = some true) :
    anyLineMatches re check.permissibleConditions (s.stderr.getD []) = true
    ∨ anyLineMatches re check.permissibleConditions (s.stdout.getD []) = true := by
  apply Sel.verdict_sound re _ _ (Sel.run_sound re _ _ sched ?_) hv
  refine ⟨?_, ?_, ?_, ?_⟩
  · intro h
    rw [Sel.init] at h
    rw [hfresh] at h
    cases h
  · intro m hm
    simp only [Sel.init, Option.map_eq_some'] at hm
    obtain ⟨lines, hl, rfl⟩ := hm
    exact ⟨fun h => Or.inl (by simpa [hl, Monitor.init, Sel.init] using h),
      by intro l h; simp [Monitor.init] at h⟩
  · intro m hm
    simp only [Sel.init, Option.map_eq_some'] at hm
    obtain ⟨lines, hl, rfl⟩ := hm
    exact ⟨fun h => Or.inr (by simpa [hl, Monitor.init, Sel.init] using h),
      by intro l h; simp [Monitor.init] at h⟩
  · intro h
    simp [Sel.init] at h

/-! ## RunStack -/

theorem Cmd.Start_ok_iff (c c1 : Cmd) :
    c.Start = Except.ok c1 ↔
      c.Process = false ∧ c.startErr = none ∧ c1 = { c with Process := true } := by
  unfold Cmd.Start
  cases hp : c.Process <;> cases he : c.startErr <;> simp [eq_comm]

theorem Cmd.Start_error_of_started (c : Cmd) (h : c.Process = true) :
    c.Start = Except.error "exec: already started" := by
  simp [Cmd.Start, h]

theorem wrap_contains (c : Cmd) (err : String) : contains (wrap c err) c.cmdString := by
  unfold contains wrap
  rw [String.data_append, String.data_append, List.append_assoc]
  exact (List.prefix_append _ _).isInfix

theorem RunStack.enter_start_error (re : Regexp) (s0 : RunCmd) (conditionals : List String)
    (e : String) (hp : s0.cmd.Process = false) (hs : s0.cmd.Start = Except.error e) :
    RunStack.enter re s0 conditionals
      = Except.error { result := Result.ret (some (wrap s0.cmd e)), trace := [Event.start 0] } := by
  simp [RunStack.enter, hp, hs]

theorem RunStack.enter_panic (re : Regexp) (s0 : RunCmd) (conditionals : List String)
    (hs : s0.cmd.Process = true ∨ Starts s0)
    (hc : GetConditionalCheck re conditionals = none) :
    RunStack.enter re s0 conditionals
      = Except.error { result := Result.panic,
                       trace := if s0.cmd.Process then [] else [Event.start 0] } := by
  rcases hs with hp | ⟨c, hstart⟩
  · simp [RunStack.enter, hp, hc]
  · have hp := ((Cmd.Start_ok_iff _ _).mp hstart).1
    simp [RunStack.enter, hp, hc, hstart]

theorem RunStack.enter_ok (re : Regexp) (s0 : RunCmd) (conditionals : List String)
    (check : Check) (hs : s0.cmd.Process = true ∨ Starts s0)
    (hc : GetConditionalCheck re conditionals = some check) :
    RunStack.enter re s0 conditionals
      = Except.ok (check, (if s0.cmd.Process then [] else [Event.start 0]) ++ launched s0) := by
  rcases hs with hp | ⟨c, hstart⟩
  · simp [RunStack.enter, hp, hc]
  · have hp := ((Cmd.Start_ok_iff _ _).mp hstart).1
    simp [RunStack.enter, hp, hc, hstart]

/-- The three ways lines 123-141 can go. -/
theorem RunStack.enter_cases (re : Regexp) (s0 : RunCmd) (conditionals : List String) :
    (∃ e, s0.cmd.Process = false ∧ s0.cmd.Start = Except.error e
      ∧ RunStack.enter re s0 conditionals
        = Except.error { result := Result.ret (some (wrap s0.cmd e)),
                         trace := [Event.start 0] })
    ∨ ((s0.cmd.Process = true ∨ Starts s0)
      ∧ RunStack.enter re s0 conditionals
        = Except.error { result := Result.panic,
                         trace := if s0.cmd.Process then [] else [Event.start 0] })
    ∨ (∃ check, (s0.cmd.Process = true ∨ Starts s0)
      ∧ RunStack.enter re s0 conditionals
        = Except.ok (check, (if s0.cmd.Process then [] else [Event.start 0]) ++ launched s0)) := by
  have hready : (∃ e, s0.cmd.Process = false ∧ s0.cmd.Start = Except.error e)
      ∨ (s0.cmd.Process = true ∨ Starts s0) := by
    cases hp : s0.cmd.Process
    · cases hs : s0.cmd.Start with
      | error e => exact Or.inl ⟨e, rfl, rfl⟩
      | ok c => exact Or.inr (Or.inr ⟨c, hs⟩)
    · exact Or.inr (Or.inl rfl)
  rcases hready with ⟨e, hp, hs⟩ | hs
  · exact Or.inl ⟨e, hp, hs, RunStack.enter_start_error re s0 conditionals e hp hs⟩
  · cases hc : GetConditionalCheck re conditionals with
    | none => exact Or.inr (Or.inl ⟨hs, RunStack.enter_panic re s0 conditionals hs hc⟩)
    | some check =>
      exact Or.inr (Or.inr ⟨check, hs, RunStack.enter_ok re s0 conditionals check hs hc⟩)

/-- The recursive call of line 154: the body on `stack[1:]` is `RunStack` on
`stack[1:]`. -/
theorem RunStack_cons (re : Regexp) (s0 : RunCmd) (rest : List RunCmd)
    (conditionals : List String) (scheds : List (List Action)) :
    RunStack re (s0 :: rest) conditionals scheds
      = RunStack.body re conditionals rest s0 scheds := rfl

/-- C3. On a stack with no stage `RunStack` returns the error `no run stack defined`
and does nothing to any process, whatever the patterns. -/
theorem RunStack_empty (re : Regexp) (conditionals : List String)
    (scheds : List (List Action)) :
    (RunStack re [] conditionals scheds).result = Result.ret (some "no run stack defined")
    ∧ (RunStack re [] conditionals scheds).trace = []
    ∧ ∀ i, Event.start i ∉ (RunStack re [] conditionals scheds).trace := by
  refine ⟨rfl, rfl, ?_⟩
  intro i h
  simp [RunStack] at h

theorem RunStack.body_single (re : Regexp) (conditionals : List String) (s0 : RunCmd)
    (scheds : List (List Action)) (check : Check)
    (hs : s0.cmd.Process = true ∨ Starts s0)
    (hc : GetConditionalCheck re conditionals = some check) (hm : Monitored s0) :
    ∃ v, stageVerdict re check s0 (scheds.head?.getD []) = some v
      ∧ RunStack.body re conditionals [] s0 scheds
        = { result := Result.ret (reconcile s0 v),
            trace := (if s0.cmd.Process then [] else [Event.start 0]) ++ launched s0
              ++ [Event.wait 0, Event.verdict 0 v] } := by
  obtain ⟨v, hv⟩ := stageVerdict_isSome re check s0 (scheds.head?.getD []) hm
  refine ⟨v, hv, ?_⟩
  rw [RunStack.body, RunStack.enter_ok re s0 conditionals check hs hc]
  simp only [hv]

/-- C4. A single stage that starts and exits with a failure status, run with no
pattern, makes `RunStack` return an error whose message contains the command
line of the stage, whatever the stage wrote and whatever the schedule. -/
theorem RunStack_single_failure_no_patterns (re : Regexp) (s : RunCmd)
    (scheds : List (List Action)) (r : String)
    (hstart : Starts s) (hm : Monitored s) (hwait : s.cmd.Wait = some r) :
    (RunStack re [s] [] scheds).result = Result.ret (some (wrap s.cmd r))
    ∧ contains (wrap s.cmd r) s.cmd.cmdString := by
  refine ⟨?_, wrap_contains _ _⟩
  obtain ⟨v, hv, hbody⟩ := RunStack.body_single re [] s scheds
    { permissibleConditions := [], permissibleState := false } (Or.inr hstart) rfl hm
  have hfalse : v = false := by
    cases v
    · rfl
    · have := stageVerdict_sound re _ s _ rfl hv
      simp [anyLineMatches, matchesAny] at this
  subst hfalse
  simp only [RunStack, hbody, reconcile, hwait]
  rfl

/-- C5. A single stage that starts and exits with a non-failure status makes
`RunStack` return nil, whatever the patterns (provided they compile), whatever the
stage wrote and whatever the schedule. -/
theorem RunStack_single_success (re : Regexp) (s : RunCmd) (conditionals : List String)
    (scheds : List (List Action))
    (hpat : conditionals.all re.compiles = true)
    (hstart : Starts s) (hm : Monitored s) (hwait : s.cmd.Wait = none) :
    (RunStack re [s] conditionals scheds).result = Result.ret none := by
  obtain ⟨v, _, hbody⟩ := RunStack.body_single re conditionals s scheds
    { permissibleConditions := conditionals, permissibleState := false } (Or.inr hstart)
    (by simp [GetConditionalCheck, hpat]) hm
  simp only [RunStack, hbody, reconcile, hwait]
  cases v <;> rfl

/-- C1, failing input. The stage writes `foo` on stderr and fails; the pattern
`foo` matches that line. When the monitor of stdout, which reaches the end of its
empty stream, is the one whose value the `select` takes, `RunStack` returns the
error of the stage; when the monitor of stderr is, it returns nil. -/
theorem RunStack_rescue_depends_on_order :
    anyLineMatches Regexp.literal ["foo"] ["foo"] = true
    ∧ (RunStack Regexp.literal [fooStage] ["foo"]
        [[Action.stdoutStep, Action.caseStdErr]]).result
      = Result.ret (some "./testdata/test_foo_2_stderr_exit_1.sh, exit status 1")
    ∧ (RunStack Regexp.literal [fooStage] ["foo"]
        [[Action.stderrStep, Action.caseStdOut]]).result
      = Result.ret none := by
  decide

/-! ## The first failure, left to right -/

theorem rescued_eq (re : Regexp) (conditionals : List String) (check : Check) (s : RunCmd)
    (sched : List Action) (v : Bool)
    (hc : GetConditionalCheck re conditionals = some check)
    (hv : stageVerdict re check s sched = some v) :
    rescued re conditionals s sched = v := by
  simp only [rescued, hc, hv]
  cases v <;> rfl

theorem firstFailure_started (re : Regexp) (conditionals : List String) (s : RunCmd)
    (rest : List RunCmd) (scheds : List (List Action)) :
    firstFailure re conditionals ({ s with cmd := { s.cmd with Process := true } } :: rest) scheds
      = firstFailure re conditionals (s :: rest) scheds := rfl

theorem RunStack.body_cons (re : Regexp) (conditionals : List String) (s0 s1 : RunCmd)
    (rest1 : List RunCmd) (scheds : List (List Action)) (check : Check)
    (hs0 : s0.cmd.Process = true ∨ Starts s0) (hs1 : Starts s1)
    (hc : GetConditionalCheck re conditionals = some check) (hm : Monitored s0) :
    ∃ v, stageVerdict re check s0 (scheds.head?.getD []) = some v
      ∧ RunStack.body re conditionals (s1 :: rest1) s0 scheds
        = match reconcile s0 v with
          | some e =>
            { result := Result.ret (some e),
              trace := (if s0.cmd.Process then [] else [Event.start 0]) ++ launched s0
                ++ [Event.start 1, Event.wait 0, Event.verdict 0 v, Event.close 0] }
          | none =>
            { result := (RunStack.body re conditionals rest1
                  { s1 with cmd := { s1.cmd with Process := true } } scheds.tail).result,
              trace := (if s0.cmd.Process then [] else [Event.start 0]) ++ launched s0
                ++ [Event.start 1, Event.wait 0, Event.verdict 0 v, Event.close 0]
                ++ (RunStack.body re conditionals rest1
                  { s1 with cmd := { s1.cmd with Process := true } } scheds.tail).trace.map
                    Event.shift } := by
  obtain ⟨v, hv⟩ := stageVerdict_isSome re check s0 (scheds.head?.getD []) hm
  refine ⟨v, hv, ?_⟩
  obtain ⟨c1, hc1⟩ := hs1
  have hc1eq := ((Cmd.Start_ok_iff _ _).mp hc1).2.2
  subst hc1eq
  rw [RunStack.body, RunStack.enter_ok re s0 conditionals check hs0 hc]
  simp only [hc1, hv]

theorem RunStack.body_result (re : Regexp) (conditionals : List String) (check : Check)
    (hc : GetConditionalCheck re conditionals = some check)
    (rest : List RunCmd) (s0 : RunCmd) (scheds : List (List Action))
    (hs0 : s0.cmd.Process = true ∨ Starts s0) (hrest : ∀ s ∈ rest, Starts s)
    (hm : ∀ s ∈ s0 :: rest, Monitored s) :
    (RunStack.body re conditionals rest s0 scheds).result
      = Result.ret (firstFailure re conditionals (s0 :: rest) scheds) := by
  induction rest generalizing s0 scheds with
  | nil =>
    obtain ⟨v, hv, hbody⟩ := RunStack.body_single re conditionals s0 scheds check hs0 hc
      (hm s0 (List.mem_cons_self _ _))
    rw [hbody]
    simp only [firstFailure, rescued_eq re conditionals check s0 _ v hc hv]
    cases reconcile s0 v <;> rfl
  | cons s1 rest1 ih =>
    obtain ⟨v, hv, hbody⟩ := RunStack.body_cons re conditionals s0 s1 rest1 scheds check hs0
      (hrest s1 (List.mem_cons_self _ _)) hc (hm s0 (List.mem_cons_self _ _))
    rw [hbody]
    rw [firstFailure, rescued_eq re conditionals check s0 _ v hc hv]
    cases hrec : reconcile s0 v with
    | some e => rfl
    | none =>
      simp only
      rw [ih _ scheds.tail (Or.inl rfl) (fun s hs => hrest s (List.mem_cons_of_mem _ hs))]
      · rw [firstFailure_started]
      · intro s hs
        rcases List.mem_cons.mp hs with rfl | hs
        · exact hm s1 (by simp)
        · exact hm s (by simp [hs])

theorem reconcile_eq_some (s : RunCmd) (v : Bool) (e : String) :
    reconcile s v = some e ↔ v = false ∧ ∃ r, s.cmd.Wait = some r ∧ e = wrap s.cmd r := by
  unfold reconcile
  cases v <;> cases hw : s.cmd.Wait <;> simp [eq_comm]

theorem reconcile_eq_none (s : RunCmd) (v : Bool) :
    reconcile s v = none ↔ ¬ (s.cmd.Wait ≠ none ∧ v = false) := by
  unfold reconcile
  cases v <;> cases hw : s.cmd.Wait <;> simp

theorem unrescuedFailure_zero (re : Regexp) (conditionals : List String) (s : RunCmd)
    (rest : List RunCmd) (scheds : List (List Action)) :
    unrescuedFailure re conditionals (s :: rest) scheds 0 ↔
      (s.cmd.Wait ≠ none ∧ rescued re conditionals s (scheds.head?.getD []) = false) := by
  have hh : scheds.head?.getD [] = (scheds[0]?).getD [] := by cases scheds <;> simp
  rw [hh]
  simp [unrescuedFailure]

theorem unrescuedFailure_succ (re : Regexp) (conditionals : List String) (s : RunCmd)
    (rest : List RunCmd) (scheds : List (List Action)) (i : Nat) :
    unrescuedFailure re conditionals (s :: rest) scheds (i + 1) ↔
      unrescuedFailure re conditionals rest scheds.tail i := by
  have hh : scheds[i + 1]? = scheds.tail[i]? := by cases scheds <;> simp
  simp only [unrescuedFailure, hh, List.getElem?_cons_succ]

theorem firstFailure_eq_none (re : Regexp) (conditionals : List String) (stack : List RunCmd)
    (scheds : List (List Action)) :
    firstFailure re conditionals stack scheds = none ↔
      ∀ i, ¬ unrescuedFailure re conditionals stack scheds i := by
  induction stack generalizing scheds with
  | nil => simp [firstFailure, unrescuedFailure]
  | cons s rest ih =>
    rw [firstFailure]
    cases hrec : reconcile s (rescued re conditionals s (scheds.head?.getD [])) with
    | some e =>
      simp only [reduceCtorEq, false_iff, not_forall, not_not]
      refine ⟨0, (unrescuedFailure_zero re conditionals s rest scheds).mpr ?_⟩
      obtain ⟨h1, r, h2, _⟩ := (reconcile_eq_some _ _ _).mp hrec
      exact ⟨by simp [h2], h1⟩
    | none =>
      simp only
      rw [ih]
      have h0 := (reconcile_eq_none _ _).mp hrec
      constructor
      · intro h i
        cases i with
        | zero => rwa [unrescuedFailure_zero]
        | succ k => rw [unrescuedFailure_succ]; exact h k
      · intro h i
        rw [← unrescuedFailure_succ re conditionals s]
        exact h (i + 1)

theorem firstFailure_first (re : Regexp) (conditionals : List String) (stack : List RunCmd)
    (scheds : List (List Action)) (i : Nat)
    (hi : unrescuedFailure re conditionals stack scheds i)
    (hfirst : ∀ j, j < i → ¬ unrescuedFailure re conditionals stack scheds j) :
    ∃ s r, stack[i]? = some s ∧ s.cmd.Wait = some r
      ∧ firstFailure re conditionals stack scheds = some (wrap s.cmd r) := by
  induction stack generalizing scheds i with
  | nil => simp [unrescuedFailure] at hi
  | cons s rest ih =>
    cases i with
    | zero =>
      obtain ⟨hw, hr⟩ := (unrescuedFailure_zero re conditionals s rest scheds).mp hi
      obtain ⟨r, hr2⟩ := Option.ne_none_iff_exists'.mp hw
      refine ⟨s, r, by simp, hr2, ?_⟩
      rw [firstFailure, hr]
      simp [reconcile, hr2]
    | succ k =>
      have h0 := hfirst 0 (Nat.succ_pos k)
      rw [unrescuedFailure_zero] at h0
      have hrec := (reconcile_eq_none s _).mpr h0
      obtain ⟨s2, r, hs2, hw, hff⟩ := ih scheds.tail k
        ((unrescuedFailure_succ re conditionals s rest scheds k).mp hi)
        (fun j hj hj2 => hfirst (j + 1) (by omega)
          ((unrescuedFailure_succ re conditionals s rest scheds j).mpr hj2))
      refine ⟨s2, r, by simpa using hs2, hw, ?_⟩
      rw [firstFailure, hrec]
      exact hff

/-- Relative to a schedule: for a pipeline of at least one stage in which every
stage starts, `RunStack` returns an error exactly when some stage exits with a
failure status while the one value the `select` of its call received is not
true; the error returned is then that of the first such stage, its message
contains the command line of that stage, and with no such stage `RunStack`
returns nil. Whether a pattern matches a line of the stage does not settle the
value received: a last stage has two monitors and one value is taken. -/
theorem RunStack_first_failure (re : Regexp) (stack : List RunCmd)
    (conditionals : List String) (scheds : List (List Action))
    (hne : stack ≠ [])
    (hpat : conditionals.all re.compiles = true)
    (hstart : ∀ s ∈ stack, Starts s)
    (hm : ∀ s ∈ stack, Monitored s) :
    ((∃ e, (RunStack re stack conditionals scheds).result = Result.ret (some e)) ↔
      ∃ i, unrescuedFailure re conditionals stack scheds i)
    ∧ (∀ i, unrescuedFailure re conditionals stack scheds i →
        (∀ j, j < i → ¬ unrescuedFailure re conditionals stack scheds j) →
        ∃ s r, stack[i]? = some s ∧ s.cmd.Wait = some r
          ∧ (RunStack re stack conditionals scheds).result = Result.ret (some (wrap s.cmd r))
          ∧ contains (wrap s.cmd r) s.cmd.cmdString)
    ∧ ((∀ i, ¬ unrescuedFailure re conditionals stack scheds i) →
        (RunStack re stack conditionals scheds).result = Result.ret none) := by
  cases stack with
  | nil => exact absurd rfl hne
  | cons s0 rest =>
    have hres : (RunStack re (s0 :: rest) conditionals scheds).result
        = Result.ret (firstFailure re conditionals (s0 :: rest) scheds) :=
      RunStack.body_result re conditionals
        { permissibleConditions := conditionals, permissibleState := false }
        (by simp [GetConditionalCheck, hpat]) rest s0 scheds
        (Or.inr (hstart s0 (List.mem_cons_self _ _)))
        (fun s hs => hstart s (List.mem_cons_of_mem _ hs)) hm
    rw [hres]
    refine ⟨?_, ?_, ?_⟩
    · constructor
      · rintro ⟨e, he⟩
        by_contra hnone
        have := (firstFailure_eq_none re conditionals (s0 :: rest) scheds).mpr
          (not_exists.mp hnone)
        rw [this] at he
        cases he
      · rintro ⟨i, hi⟩
        cases hff : firstFailure re conditionals (s0 :: rest) scheds with
        | some e => exact ⟨e, rfl⟩
        | none =>
          exact absurd hi ((firstFailure_eq_none re conditionals (s0 :: rest) scheds).mp hff i)
    · intro i hi hfirst
      obtain ⟨s, r, hs, hw, hff⟩ := firstFailure_first re conditionals _ scheds i hi hfirst
      exact ⟨s, r, hs, hw, by rw [hff], wrap_contains _ _⟩
    · intro hnone
      rw [(firstFailure_eq_none re conditionals (s0 :: rest) scheds).mpr hnone]

/-- C2, failing input. In the pipeline `cat ./testdata/ipsum.txt |
./testdata/test_foo_2_stderr_exit_1.sh` every stage starts, the first stage
succeeds, and the second exits with status 1 after writing `foo` on stderr, a
line the pattern `foo` matches. When the `select` of the second call takes the
value of the monitor of stdout, which has reached the end of its empty stream,
`RunStack` returns the error of the second stage; when it takes the value of the
monitor of stderr, `RunStack` returns nil. -/
theorem RunStack_error_despite_match :
    (∀ s ∈ [catStage, fooStage], Starts s)
    ∧ catStage.cmd.Wait = none
    ∧ fooStage.cmd.Wait = some "exit status 1"
    ∧ fooStage.stderr = some ["foo"]
    ∧ anyLineMatches Regexp.literal ["foo"] ["foo"] = true
    ∧ (RunStack Regexp.literal [catStage, fooStage] ["foo"]
        [[], [Action.stdoutStep, Action.caseStdErr]]).result
      = Result.ret (some "./testdata/test_foo_2_stderr_exit_1.sh, exit status 1")
    ∧ (RunStack Regexp.literal [catStage, fooStage] ["foo"]
        [[], [Action.stderrStep, Action.caseStdOut]]).result
      = Result.ret none := by
  refine ⟨?_, by decide, by decide, by decide, by decide, by decide, by decide⟩
  intro s hs
  simp only [List.mem_cons, List.mem_singleton, List.not_mem_nil, or_false] at hs
  rcases hs with rfl | rfl <;> exact ⟨_, rfl⟩

/-! ## What RunStack does to the stages -/

theorem mem_shift_wait (t : List Event) (j : Nat) :
    Event.wait j ∈ t.map Event.shift ↔ ∃ k, j = k + 1 ∧ Event.wait k ∈ t := by
  simp only [List.mem_map]
  constructor
  · rintro ⟨e, he, hs⟩
    cases e <;> simp [Event.shift] at hs
    exact ⟨_, hs.symm, he⟩
  · rintro ⟨k, rfl, hk⟩
    exact ⟨_, hk, rfl⟩

theorem mem_shift_start (t : List Event) (j : Nat) :
    Event.start j ∈ t.map Event.shift ↔ ∃ k, j = k + 1 ∧ Event.start k ∈ t := by
  simp only [List.mem_map]
  constructor
  · rintro ⟨e, he, hs⟩
    cases e <;> simp [Event.shift] at hs
    exact ⟨_, hs.symm, he⟩
  · rintro ⟨k, rfl, hk⟩
    exact ⟨_, hk, rfl⟩

theorem not_mem_launched_wait (s : RunCmd) (j : Nat) : Event.wait j ∉ launched s := by
  unfold launched
  cases s.stderr.isSome <;> cases s.stdout.isSome <;> simp

theorem not_mem_launched_start (s : RunCmd) (j : Nat) : Event.start j ∉ launched s := by
  unfold launched
  cases s.stderr.isSome <;> cases s.stdout.isSome <;> simp

theorem mem_head_start (p : Bool) (j : Nat) :
    Event.start j ∈ (if p = true then [] else [Event.start 0]) ↔ p = false ∧ j = 0 := by
  cases p <;> simp

theorem not_mem_head_wait (p : Bool) (j : Nat) :
    Event.wait j ∉ (if p = true then [] else [Event.start 0]) := by
  cases p <;> simp

theorem unrescuedFailure_started (re : Regexp) (conditionals : List String) (s : RunCmd)
    (rest : List RunCmd) (scheds : List (List Action)) (j : Nat) :
    unrescuedFailure re conditionals
        ({ s with cmd := { s.cmd with Process := true } } :: rest) scheds j
      ↔ unrescuedFailure re conditionals (s :: rest) scheds j := by
  cases j with
  | zero => rw [unrescuedFailure_zero, unrescuedFailure_zero]; rfl
  | succ k => rw [unrescuedFailure_succ, unrescuedFailure_succ]

theorem RunStack.body_trace (re : Regexp) (conditionals : List String) (check : Check)
    (hc : GetConditionalCheck re conditionals = some check)
    (rest : List RunCmd) (s0 : RunCmd) (scheds : List (List Action)) (i : Nat)
    (hs0 : s0.cmd.Process = true ∨ Starts s0) (hrest : ∀ s ∈ rest, Starts s)
    (hm : ∀ s ∈ s0 :: rest, Monitored s)
    (hi : unrescuedFailure re conditionals (s0 :: rest) scheds i)
    (hfirst : ∀ j, j < i → ¬ unrescuedFailure re conditionals (s0 :: rest) scheds j) :
    (∀ j, Event.wait j ∈ (RunStack.body re conditionals rest s0 scheds).trace ↔ j ≤ i)
    ∧ (∀ j, Event.start (j + 1) ∈ (RunStack.body re conditionals rest s0 scheds).trace
        ↔ j ≤ i ∧ j < rest.length)
    ∧ (Event.start 0 ∈ (RunStack.body re conditionals rest s0 scheds).trace
        ↔ s0.cmd.Process = false) := by
  induction rest generalizing s0 scheds i with
  | nil =>
    have hi0 : i = 0 := by
      obtain ⟨s, hs, _⟩ := hi
      have := (List.getElem?_eq_some_iff.mp hs).1
      simpa using this
    subst hi0
    obtain ⟨v, hv, hbody⟩ := RunStack.body_single re conditionals s0 scheds check hs0 hc
      (hm s0 (List.mem_cons_self _ _))
    rw [hbody]
    refine ⟨?_, ?_, ?_⟩
    · intro j
      simp [not_mem_head_wait, not_mem_launched_wait]
    · intro j
      simp [mem_head_start, not_mem_launched_start]
    · simp [mem_head_start, not_mem_launched_start]
  | cons s1 rest1 ih =>
    obtain ⟨v, hv, hbody⟩ := RunStack.body_cons re conditionals s0 s1 rest1 scheds check hs0
      (hrest s1 (List.mem_cons_self _ _)) hc (hm s0 (List.mem_cons_self _ _))
    rw [hbody]
    have hresc := rescued_eq re conditionals check s0 _ v hc hv
    cases i with
    | zero =>
      obtain ⟨hw, hr⟩ := (unrescuedFailure_zero re conditionals s0 _ scheds).mp hi
      rw [hresc] at hr
      obtain ⟨r, hr2⟩ := Option.ne_none_iff_exists'.mp hw
      have hrec : reconcile s0 v = some (wrap s0.cmd r) := by
        rw [reconcile_eq_some]
        exact ⟨hr, r, hr2, rfl⟩
      rw [hrec]
      refine ⟨?_, ?_, ?_⟩
      · intro j
        simp [not_mem_head_wait, not_mem_launched_wait]
      · intro j
        simp only [List.mem_append, mem_head_start, not_mem_launched_start,
          List.mem_cons, List.mem_singleton, reduceCtorEq, Event.start.injEq, false_or, or_false,
          List.not_mem_nil, List.length_cons]
        constructor
        · rintro (⟨_, h⟩ | h)
          · exact h.elim
          · omega
        · rintro ⟨h, _⟩
          exact Or.inr (by omega)
      · simp [mem_head_start, not_mem_launched_start]
    | succ k =>
      have h0 := hfirst 0 (Nat.succ_pos k)
      rw [unrescuedFailure_zero, hresc] at h0
      have hrec := (reconcile_eq_none s0 v).mpr h0
      rw [hrec]
      obtain ⟨ih1, ih2, ih3⟩ := ih { s1 with cmd := { s1.cmd with Process := true } }
        scheds.tail k (Or.inl rfl) (fun s hs => hrest s (List.mem_cons_of_mem _ hs))
        (by
          intro s hs
          rcases List.mem_cons.mp hs with rfl | hs
          · exact hm s1 (by simp)
          · exact hm s (by simp [hs]))
        ((unrescuedFailure_started re conditionals s1 rest1 scheds.tail k).mpr
          ((unrescuedFailure_succ re conditionals s0 _ scheds k).mp hi))
        (fun j hj hj2 => hfirst (j + 1) (by omega)
          ((unrescuedFailure_succ re conditionals s0 _ scheds j).mpr
            ((unrescuedFailure_started re conditionals s1 rest1 scheds.tail j).mp hj2)))
      have ih3f : Event.start 0 ∉ (RunStack.body re conditionals rest1
          { s1 with cmd := { s1.cmd with Process := true } } scheds.tail).trace := by
        rw [ih3]; simp
      refine ⟨?_, ?_, ?_⟩
      · intro j
        simp only [List.mem_append, not_mem_head_wait, not_mem_launched_wait, mem_shift_wait,
          List.mem_cons, List.mem_singleton, reduceCtorEq, Event.wait.injEq, false_or, or_false,
          List.not_mem_nil]
        constructor
        · rintro (rfl | ⟨j2, rfl, hj2⟩)
          · omega
          · have := (ih1 j2).mp hj2
            omega
        · intro hj
          cases j with
          | zero => exact Or.inl rfl
          | succ j2 => exact Or.inr ⟨j2, rfl, (ih1 j2).mpr (by omega)⟩
      · intro j
        simp only [List.mem_append, mem_head_start, not_mem_launched_start, mem_shift_start,
          List.mem_cons, List.mem_singleton, reduceCtorEq, Event.start.injEq, false_or, or_false,
          List.not_mem_nil, List.length_cons]
        constructor
        · rintro ((⟨_, h⟩ | h) | ⟨j2, hj, hj2⟩)
          · exact h.elim
          · have hj0 : j = 0 := by omega
            subst hj0
            exact ⟨by omega, by omega⟩
          · have hjj : j2 = j := by omega
            subst hjj
            cases j2 with
            | zero => exact absurd hj2 ih3f
            | succ j3 =>
              have := (ih2 j3).mp hj2
              omega
        · rintro ⟨hj1, hj2⟩
          cases j with
          | zero => exact Or.inl (Or.inr (by omega))
          | succ j3 => exact Or.inr ⟨j3 + 1, rfl, (ih2 j3).mpr ⟨by omega, by omega⟩⟩
      · simp only [List.mem_append, mem_head_start, not_mem_launched_start, mem_shift_start,
          List.mem_cons, List.mem_singleton, reduceCtorEq, Event.start.injEq, false_or, or_false,
          List.not_mem_nil]
        constructor
        · rintro (⟨h, _⟩ | ⟨j2, hj, _⟩)
          · exact h
          · exact hj.elim
        · intro h
          exact Or.inl ⟨h, trivial⟩

/-- C6, counterexample. Three stages of which the second fails: the third is
started but never waited on. Three stages of which the first fails: the third
is not even started. -/
theorem RunStack_later_stage_not_waited :
    ((RunStack Regexp.literal [catStage, fooMiddle, wcStage] [] []).result
        = Result.ret (some "./testdata/test_foo_2_stderr_exit_1.sh, exit status 1")
      ∧ Event.start 2 ∈ (RunStack Regexp.literal [catStage, fooMiddle, wcStage] [] []).trace
      ∧ Event.wait 2 ∉ (RunStack Regexp.literal [catStage, fooMiddle, wcStage] [] []).trace)
    ∧ (Event.start 2 ∉ (RunStack Regexp.literal [fooMiddle, catStage, wcStage] [] []).trace
      ∧ Event.wait 1 ∉ (RunStack Regexp.literal [fooMiddle, catStage, wcStage] [] []).trace) := by
  decide

/-- C6, amended. In a pipeline whose stages all start, let stage `i` be the first
that fails without being rescued. Then the stages up to `i` are each started and
waited on, stage `i + 1`, when there is one, is started, no stage after `i` is
waited on, no stage after `i + 1` is started, and the error returned is that of
stage `i`. -/
theorem RunStack_stops_at_first_failure (re : Regexp) (stack : List RunCmd)
    (conditionals : List String) (scheds : List (List Action)) (i : Nat)
    (hpat : conditionals.all re.compiles = true)
    (hstart : ∀ s ∈ stack, Starts s)
    (hm : ∀ s ∈ stack, Monitored s)
    (hi : unrescuedFailure re conditionals stack scheds i)
    (hfirst : ∀ j, j < i → ¬ unrescuedFailure re conditionals stack scheds j) :
    (∀ j, j ≤ i → Event.start j ∈ (RunStack re stack conditionals scheds).trace
        ∧ Event.wait j ∈ (RunStack re stack conditionals scheds).trace)
    ∧ (i + 1 < stack.length →
        Event.start (i + 1) ∈ (RunStack re stack conditionals scheds).trace)
    ∧ (∀ j, i < j → Event.wait j ∉ (RunStack re stack conditionals scheds).trace)
    ∧ (∀ j, i + 1 < j → Event.start j ∉ (RunStack re stack conditionals scheds).trace)
    ∧ ∃ s r, stack[i]? = some s ∧ s.cmd.Wait = some r
        ∧ (RunStack re stack conditionals scheds).result = Result.ret (some (wrap s.cmd r)) := by
  cases stack with
  | nil => simp [unrescuedFailure] at hi
  | cons s0 rest =>
    have hc : GetConditionalCheck re conditionals
        = some { permissibleConditions := conditionals, permissibleState := false } := by
      simp [GetConditionalCheck, hpat]
    have hs0 := hstart s0 (List.mem_cons_self _ _)
    have hrest : ∀ s ∈ rest, Starts s := fun s hs => hstart s (List.mem_cons_of_mem _ hs)
    obtain ⟨h1, h2, h3⟩ := RunStack.body_trace re conditionals _ hc rest s0 scheds i
      (Or.inr hs0) hrest hm hi hfirst
    have hp : s0.cmd.Process = false := by
      obtain ⟨c, hc0⟩ := hs0
      exact ((Cmd.Start_ok_iff _ _).mp hc0).1
    have hlen : i < (s0 :: rest).length := by
      obtain ⟨s, hs, _⟩ := hi
      exact (List.getElem?_eq_some_iff.mp hs).1
    simp only [List.length_cons] at hlen
    simp only [RunStack]
    refine ⟨?_, ?_, ?_, ?_, ?_⟩
    · intro j hj
      refine ⟨?_, (h1 j).mpr hj⟩
      cases j with
      | zero => exact h3.mpr hp
      | succ k => exact (h2 k).mpr ⟨by omega, by omega⟩
    · intro hlt
      simp only [List.length_cons] at hlt
      exact (h2 i).mpr ⟨le_refl _, by omega⟩
    · intro j hj hmem
      have := (h1 j).mp hmem
      omega
    · intro j hj hmem
      cases j with
      | zero => omega
      | succ k =>
        have := (h2 k).mp hmem
        omega
    · obtain ⟨s, r, hs, hw, hff⟩ := firstFailure_first re conditionals _ scheds i hi hfirst
      refine ⟨s, r, hs, hw, ?_⟩
      rw [RunStack.body_result re conditionals _ hc rest s0 scheds (Or.inr hs0) hrest hm, hff]

/-! ## A stage that cannot be started -/

theorem Event.stage_shift (ev : Event) : ev.shift.stage = ev.stage + 1 := by
  cases ev <;> rfl

theorem Event.shift_eq_start (ev : Event) (k : Nat) :
    ev.shift = Event.start (k + 1) ↔ ev = Event.start k := by
  cases ev <;> simp [Event.shift]

theorem stage_of_mem_entry (s0 : RunCmd) (ev : Event)
    (h : ev ∈ (if s0.cmd.Process = true then [] else [Event.start 0]) ++ launched s0) :
    ev.stage = 0 := by
  simp only [launched, List.mem_append] at h
  rcases h with h | h | h
  all_goals
    split at h
    · simp at h
      try (subst h; rfl)
    · simp at h
      try (subst h; rfl)

theorem RunStack.body_start_error (re : Regexp) (conditionals : List String)
    (rest : List RunCmd) (s0 : RunCmd) (scheds : List (List Action)) (e : String)
    (hp : s0.cmd.Process = false) (hs : s0.cmd.Start = Except.error e) :
    RunStack.body re conditionals rest s0 scheds
      = { result := Result.ret (some (wrap s0.cmd e)), trace := [Event.start 0] } := by
  cases rest <;> rw [RunStack.body, RunStack.enter_start_error re s0 conditionals e hp hs]

/-- The ways the body can go on a single stage. -/
theorem RunStack.body_nil_cases (re : Regexp) (conditionals : List String) (s0 : RunCmd)
    (scheds : List (List Action)) :
    (∃ e, s0.cmd.Process = false ∧ s0.cmd.Start = Except.error e
      ∧ RunStack.body re conditionals [] s0 scheds
        = { result := Result.ret (some (wrap s0.cmd e)), trace := [Event.start 0] })
    ∨ (RunStack.body re conditionals [] s0 scheds
        = { result := Result.panic,
            trace := if s0.cmd.Process then [] else [Event.start 0] })
    ∨ (RunStack.body re conditionals [] s0 scheds
        = { result := Result.blocked,
            trace := (if s0.cmd.Process then [] else [Event.start 0]) ++ launched s0
              ++ [Event.wait 0] })
    ∨ (∃ v, RunStack.body re conditionals [] s0 scheds
        = { result := Result.ret (reconcile s0 v),
            trace := (if s0.cmd.Process then [] else [Event.start 0]) ++ launched s0
              ++ [Event.wait 0, Event.verdict 0 v] }) := by
  rcases RunStack.enter_cases re s0 conditionals with ⟨e, hp, hs, _⟩ | ⟨_, he⟩ | ⟨check, _, he⟩
  · exact Or.inl ⟨e, hp, hs, RunStack.body_start_error re conditionals [] s0 scheds e hp hs⟩
  · right; left
    rw [RunStack.body, he]
  · right; right
    rw [RunStack.body, he]
    cases hv : stageVerdict re check s0 (scheds.head?.getD []) with
    | none => left; simp only [hv]
    | some v => right; exact ⟨v, by simp only [hv]⟩

/-- The ways the body can go on a stage followed by others. -/
theorem RunStack.body_cons_cases (re : Regexp) (conditionals : List String) (s0 s1 : RunCmd)
    (rest1 : List RunCmd) (scheds : List (List Action)) :
    (∃ e, s0.cmd.Process = false ∧ s0.cmd.Start = Except.error e
      ∧ RunStack.body re conditionals (s1 :: rest1) s0 scheds
        = { result := Result.ret (some (wrap s0.cmd e)), trace := [Event.start 0] })
    ∨ (RunStack.body re conditionals (s1 :: rest1) s0 scheds
        = { result := Result.panic,
            trace := if s0.cmd.Process then [] else [Event.start 0] })
    ∨ (∃ e, s1.cmd.Start = Except.error e
      ∧ RunStack.body re conditionals (s1 :: rest1) s0 scheds
        = { result := Result.ret (some (wrap s1.cmd e)),
            trace := (if s0.cmd.Process then [] else [Event.start 0]) ++ launched s0
              ++ [Event.start 1] })
    ∨ (∃ c1, s1.cmd.Start = Except.ok c1
      ∧ RunStack.body re conditionals (s1 :: rest1) s0 scheds
        = { result := Result.blocked,
            trace := (if s0.cmd.Process then [] else [Event.start 0]) ++ launched s0
              ++ [Event.start 1, Event.wait 0] })
    ∨ (∃ c1 v e, s1.cmd.Start = Except.ok c1
      ∧ RunStack.body re conditionals (s1 :: rest1) s0 scheds
        = { result := Result.ret (some e),
            trace := (if s0.cmd.Process then [] else [Event.start 0]) ++ launched s0
              ++ [Event.start 1, Event.wait 0, Event.verdict 0 v, Event.close 0] })
    ∨ (∃ c1 v, s1.cmd.Start = Except.ok c1
      ∧ RunStack.body re conditionals (s1 :: rest1) s0 scheds
        = { result := (RunStack.body re conditionals rest1 { s1 with cmd := c1 }
                scheds.tail).result,
            trace := (if s0.cmd.Process then [] else [Event.start 0]) ++ launched s0
              ++ [Event.start 1, Event.wait 0, Event.verdict 0 v, Event.close 0]
              ++ (RunStack.body re conditionals rest1 { s1 with cmd := c1 }
                scheds.tail).trace.map Event.shift }) := by
  rcases RunStack.enter_cases re s0 conditionals with ⟨e, hp, hs, _⟩ | ⟨_, he⟩ | ⟨check, _, he⟩
  · exact Or.inl ⟨e, hp, hs, RunStack.body_start_error re conditionals _ s0 scheds e hp hs⟩
  · right; left
    rw [RunStack.body, he]
  · right; right
    rw [RunStack.body, he]
    cases hs1 : s1.cmd.Start with
    | error e => left; exact ⟨e, rfl, by simp only [hs1]⟩
    | ok c1 =>
      right
      cases hv : stageVerdict re check s0 (scheds.head?.getD []) with
      | none => left; exact ⟨c1, rfl, by simp only [hs1, hv]⟩
      | some v =>
        right
        cases hrec : reconcile s0 v with
        | some e => left; exact ⟨c1, v, e, rfl, by simp only [hs1, hv, hrec]⟩
        | none => right; exact ⟨c1, v, rfl, by simp only [hs1, hv, hrec]⟩

theorem RunStack.body_start_zero (re : Regexp) (conditionals : List String)
    (rest : List RunCmd) (s0 : RunCmd) (scheds : List (List Action))
    (hmem : Event.start 0 ∈ (RunStack.body re conditionals rest s0 scheds).trace) :
    s0.cmd.Process = false := by
  cases rest with
  | nil =>
    rcases RunStack.body_nil_cases re conditionals s0 scheds with
      ⟨_, hp, _, _⟩ | hb | hb | ⟨v, hb⟩
    · exact hp
    all_goals
      rw [hb] at hmem
      simp only [List.mem_append, mem_head_start, not_mem_launched_start, List.mem_cons,
        List.mem_singleton, reduceCtorEq, List.not_mem_nil, or_false, and_true] at hmem
      exact hmem
  | cons s1 rest1 =>
    rcases RunStack.body_cons_cases re conditionals s0 s1 rest1 scheds with
      ⟨_, hp, _, _⟩ | hb | ⟨_, _, hb⟩ | ⟨_, _, hb⟩ | ⟨_, _, _, _, hb⟩ | ⟨_, _, _, hb⟩
    · exact hp
    all_goals
      rw [hb] at hmem
      simp only [List.mem_append, mem_head_start, not_mem_launched_start, List.mem_cons,
        List.mem_singleton, reduceCtorEq, List.not_mem_nil, or_false, and_true,
        mem_shift_start, Event.start.injEq, false_or, zero_ne_one, Nat.zero_ne_add_one,
        false_and, exists_false] at hmem
      exact hmem

theorem RunStack.body_start_failure (re : Regexp) (conditionals : List String)
    (rest : List RunCmd) (s0 : RunCmd) (scheds : List (List Action)) (i : Nat) (s : RunCmd)
    (e : String) (hs : (s0 :: rest)[i]? = some s)
    (hmem : Event.start i ∈ (RunStack.body re conditionals rest s0 scheds).trace)
    (herr : s.cmd.Start = Except.error e) :
    (RunStack.body re conditionals rest s0 scheds).result = Result.ret (some (wrap s.cmd e))
    ∧ ∀ ev ∈ (RunStack.body re conditionals rest s0 scheds).trace,
        ev.stage ≤ i ∧ (ev.stage = i → ev = Event.start i) := by
  induction rest generalizing s0 scheds i with
  | nil =>
    have hi0 : i = 0 := by
      have := (List.getElem?_eq_some_iff.mp hs).1
      simpa using this
    subst hi0
    have hs0 : s = s0 := by simpa using hs.symm
    subst hs0
    have hp := RunStack.body_start_zero re conditionals [] s scheds hmem
    rw [RunStack.body_start_error re conditionals [] s scheds e hp herr]
    exact ⟨rfl, by intro ev hev; simp at hev; subst hev; exact ⟨le_refl _, fun _ => rfl⟩⟩
  | cons s1 rest1 ih =>
    cases i with
    | zero =>
      have hs0 : s = s0 := by simpa using hs.symm
      subst hs0
      have hp := RunStack.body_start_zero re conditionals _ s scheds hmem
      rw [RunStack.body_start_error re conditionals _ s scheds e hp herr]
      exact ⟨rfl, by intro ev hev; simp at hev; subst hev; exact ⟨le_refl _, fun _ => rfl⟩⟩
    | succ k =>
      have hs2 : (s1 :: rest1)[k]? = some s := by simpa using hs
      rcases RunStack.body_cons_cases re conditionals s0 s1 rest1 scheds with
        ⟨_, _, _, hb⟩ | hb | ⟨e2, he2, hb⟩ | ⟨c1, hc1, hb⟩ | ⟨c1, _, _, hc1, hb⟩
          | ⟨c1, v, hc1, hb⟩
      · rw [hb] at hmem
        simp at hmem
      · rw [hb] at hmem
        simp [mem_head_start] at hmem
      · rw [hb] at hmem ⊢
        simp only [List.mem_append, mem_head_start, not_mem_launched_start, List.mem_cons,
          List.mem_singleton, reduceCtorEq, List.not_mem_nil, or_false, and_true,
          Event.start.injEq, false_or, Nat.add_one_ne_zero, and_false] at hmem
        have hk : k = 0 := by omega
        subst hk
        have hs1 : s = s1 := by simpa using hs2.symm
        subst hs1
        rw [herr] at he2
        cases he2
        refine ⟨rfl, ?_⟩
        intro ev hev
        rcases List.mem_append.mp hev with hev | hev
        · have := stage_of_mem_entry s0 ev hev
          omega
        · simp at hev
          subst hev
          exact ⟨le_refl _, fun _ => rfl⟩
      · rw [hb] at hmem
        simp only [List.mem_append, mem_head_start, not_mem_launched_start, List.mem_cons,
          List.mem_singleton, reduceCtorEq, List.not_mem_nil, or_false, and_true,
          Event.start.injEq, false_or, Nat.add_one_ne_zero, and_false] at hmem
        have hk : k = 0 := by omega
        subst hk
        have hs1 : s = s1 := by simpa using hs2.symm
        subst hs1
        rw [herr] at hc1
        cases hc1
      · rw [hb] at hmem
        simp only [List.mem_append, mem_head_start, not_mem_launched_start, List.mem_cons,
          List.mem_singleton, reduceCtorEq, List.not_mem_nil, or_false, and_true,
          Event.start.injEq, false_or, Nat.add_one_ne_zero, and_false] at hmem
        have hk : k = 0 := by omega
        subst hk
        have hs1 : s = s1 := by simpa using hs2.symm
        subst hs1
        rw [herr] at hc1
        cases hc1
      · rw [hb] at hmem ⊢
        simp only [List.mem_append, mem_head_start, not_mem_launched_start, List.mem_cons,
          List.mem_singleton, reduceCtorEq, List.not_mem_nil, or_false, and_true,
          Event.start.injEq, false_or, Nat.add_one_ne_zero, and_false,
          mem_shift_start] at hmem
        have hstarted : c1.Process = true := by
          rw [((Cmd.Start_ok_iff _ _).mp hc1).2.2]
        rcases hmem with hk | ⟨k2, hk2, hmem2⟩
        · have hk0 : k = 0 := by omega
          subst hk0
          have hs1 : s = s1 := by simpa using hs2.symm
          subst hs1
          rw [herr] at hc1
          cases hc1
        · have hkk : k2 = k := by omega
          subst hkk
          cases k2 with
          | zero =>
            have := RunStack.body_start_zero re conditionals rest1 _ scheds.tail hmem2
            simp [hstarted] at this
          | succ k3 =>
            have hs3 : ({ s1 with cmd := c1 } :: rest1)[k3 + 1]? = some s := by
              simpa using hs2
            obtain ⟨ih1, ih2⟩ := ih { s1 with cmd := c1 } scheds.tail (k3 + 1) hs3 hmem2
            refine ⟨ih1, ?_⟩
            intro ev hev
            rcases List.mem_append.mp hev with hev | hev
            · have hst : ev.stage ≤ 1 := by
                rcases List.mem_append.mp hev with hev | hev
                · have := stage_of_mem_entry s0 ev hev
                  omega
                · simp at hev
                  rcases hev with rfl | rfl | rfl | rfl <;> simp [Event.stage]
              exact ⟨by omega, fun h => by omega⟩
            · obtain ⟨ev2, hev2, rfl⟩ := List.mem_map.mp hev
              obtain ⟨h1, h2⟩ := ih2 ev2 hev2
              rw [Event.stage_shift]
              refine ⟨by omega, fun h => ?_⟩
              rw [Event.shift_eq_start]
              exact h2 (by omega)

/-- C7. When `RunStack` calls `Start()` on a stage and the start fails, it returns an
error whose message contains the command line of that stage, and apart from
that call nothing is done to that stage or to any later one: no monitor, no wait,
no start, no call of `RunStack` that handles them. -/
theorem RunStack_start_failure (re : Regexp) (stack : List RunCmd)
    (conditionals : List String) (scheds : List (List Action)) (i : Nat) (s : RunCmd)
    (e : String) (hs : stack[i]? = some s)
    (hmem : Event.start i ∈ (RunStack re stack conditionals scheds).trace)
    (herr : s.cmd.Start = Except.error e) :
    (RunStack re stack conditionals scheds).result = Result.ret (some (wrap s.cmd e))
    ∧ contains (wrap s.cmd e) s.cmd.cmdString
    ∧ ∀ ev ∈ (RunStack re stack conditionals scheds).trace,
        ev.stage ≤ i ∧ (ev.stage = i → ev = Event.start i) := by
  cases stack with
  | nil => simp at hs
  | cons s0 rest =>
    obtain ⟨h1, h2⟩ := RunStack.body_start_failure re conditionals rest s0 scheds i s e hs
      hmem herr
    exact ⟨h1, wrap_contains _ _, h2⟩

/-! ## Instances on the pipelines of the tests -/

theorem secondFails_starts : ∀ s ∈ secondFails, Starts s := by
  intro s hs
  simp only [secondFails, List.mem_cons, List.mem_singleton, List.not_mem_nil, or_false] at hs
  rcases hs with rfl | rfl | rfl <;> exact ⟨_, rfl⟩

theorem secondFails_monitored : ∀ s ∈ secondFails, Monitored s := by
  intro s hs
  simp only [secondFails, List.mem_cons, List.mem_singleton, List.not_mem_nil, or_false] at hs
  rcases hs with rfl | rfl | rfl <;> exact Or.inl rfl

theorem secondFails_unrescued : unrescuedFailure Regexp.literal [] secondFails [] 1 :=
  ⟨fooMiddle, rfl, by decide, by decide⟩

theorem secondFails_first :
    ∀ j, j < 1 → ¬ unrescuedFailure Regexp.literal [] secondFails [] j := by
  rintro j hj ⟨s, hs, hw, _⟩
  have hj0 : j = 0 := by omega
  subst hj0
  have : s = catStage := by simpa [secondFails] using hs.symm
  subst this
  exact hw rfl

/-- An instance of `RunStack_first_failure`: the pipeline of the tests whose second stage
fails, without pattern. -/
theorem RunStack_first_failure_witness :
    (∀ s ∈ secondFails, Starts s) ∧ (∀ s ∈ secondFails, Monitored s)
    ∧ ((∃ e, (RunStack Regexp.literal secondFails [] []).result = Result.ret (some e)) ↔
        ∃ i, unrescuedFailure Regexp.literal [] secondFails [] i) :=
  ⟨secondFails_starts, secondFails_monitored,
    (RunStack_first_failure Regexp.literal secondFails [] [] (by decide) rfl
      secondFails_starts secondFails_monitored).1⟩

/-- C4, instance: the failing script of the tests, alone and without pattern. -/
theorem RunStack_single_failure_no_patterns_witness :
    Starts fooStage ∧ Monitored fooStage ∧ fooStage.cmd.Wait = some "exit status 1"
    ∧ (RunStack Regexp.literal [fooStage] [] []).result
        = Result.ret (some (wrap fooStage.cmd "exit status 1")) :=
  ⟨⟨_, rfl⟩, Or.inl rfl, rfl,
    (RunStack_single_failure_no_patterns Regexp.literal fooStage [] "exit status 1"
      ⟨_, rfl⟩ (Or.inl rfl) rfl).1⟩

/-- C5, instance: a stage that succeeds, with a pattern that matches nothing. -/
theorem RunStack_single_success_witness :
    Starts wcStage ∧ Monitored wcStage ∧ wcStage.cmd.Wait = none
    ∧ (RunStack Regexp.literal [wcStage] ["foo"] []).result = Result.ret none :=
  ⟨⟨_, rfl⟩, Or.inl rfl, rfl,
    RunStack_single_success Regexp.literal wcStage ["foo"] [] rfl ⟨_, rfl⟩ (Or.inl rfl) rfl⟩

/-- C6, instance: the pipeline of the tests whose second stage fails. -/
theorem RunStack_stops_at_first_failure_witness :
    unrescuedFailure Regexp.literal [] secondFails [] 1
    ∧ (∀ j, j < 1 → ¬ unrescuedFailure Regexp.literal [] secondFails [] j)
    ∧ (∀ j, 1 < j → Event.wait j ∉ (RunStack Regexp.literal secondFails [] []).trace) :=
  ⟨secondFails_unrescued, secondFails_first,
    (RunStack_stops_at_first_failure Regexp.literal secondFails [] [] 1 rfl
      secondFails_starts secondFails_monitored secondFails_unrescued secondFails_first).2.2.1⟩

/-- C7, instance: the pipeline of the tests whose second program does not exist. -/
theorem RunStack_start_failure_witness :
    Event.start 1 ∈ (RunStack Regexp.literal [catStage, missingStage] [] []).trace
    ∧ (RunStack Regexp.literal [catStage, missingStage] [] []).result
        = Result.ret (some (wrap missingStage.cmd
            "exec: \"programdoesntexist\": executable file not found in $PATH")) :=
  ⟨by decide,
    (RunStack_start_failure Regexp.literal [catStage, missingStage] [] [] 1 missingStage
      "exec: \"programdoesntexist\": executable file not found in $PATH" rfl (by decide) rfl).1⟩

/-- C8, instance: the third case of `TestGetConditionalCheck`, followed by a line
that matches nothing. -/
theorem GetConditionalCheck_sticky_witness :
    GetConditionalCheck Regexp.literal ["moo", "line"]
        = some { permissibleConditions := ["moo", "line"], permissibleState := false }
    ∧ ∀ i j, i ≤ j → j < ["This is a line of text", "quack"].length →
        (Check.feed Regexp.literal (⟨["moo", "line"], false⟩ : Check) ["This is a line of text", "quack"])[i]? = some true →
        (Check.feed Regexp.literal (⟨["moo", "line"], false⟩ : Check) ["This is a line of text", "quack"])[j]? = some true :=
  ⟨rfl, (GetConditionalCheck_sticky Regexp.literal ["moo", "line"] _
    ["This is a line of text", "quack"] rfl).2.1⟩

/-- C9, instance of the amended claim: the input of the counterexample. -/
theorem GetConditionalCheck_call_accumulates_witness :
    GetConditionalCheck Regexp.literal ["line"]
        = some { permissibleConditions := ["line"], permissibleState := false }
    ∧ (Check.feed Regexp.literal (⟨["line"], false⟩ : Check) ["This is a line of text", "moo"])[0]?
        = (["This is a line of text", "moo"][0]?).map (matchesAny Regexp.literal ["line"]) :=
  ⟨rfl, (GetConditionalCheck_call_accumulates Regexp.literal ["line"] _
    ["This is a line of text", "moo"] rfl).1⟩

/-- C10, instance: a stream whose second line matches. -/
theorem HandleOutput_verdict_witness :
    GetConditionalCheck Regexp.literal ["cake"]
        = some { permissibleConditions := ["cake"], permissibleState := false }
    ∧ sends (HandleOutput Regexp.literal ["Cupcake ipsum", "oat cake", "tart"]
        { permissibleConditions := ["cake"], permissibleState := false }) ≠ [] :=
  ⟨rfl, (HandleOutput_verdict Regexp.literal ["cake"] _ ["Cupcake ipsum", "oat cake", "tart"]
    rfl).1⟩

/-! ## How often and when HandleOutput sends -/

theorem sends_map_log (msgs : List String) : sends (msgs.map Output.log) = [] := by
  induction msgs with
  | nil => rfl
  | cons m ms ih => simpa [sends] using ih

theorem HandleOutput.loop_sends (re : Regexp) (lines : List String) (prev : String)
    (p : Bool) (c : Check) :
    sends (HandleOutput.loop re lines prev p c)
      = (c.feed re lines).filter id
        ++ (if p || (c.feed re lines).any id then [] else [false]) := by
  induction lines generalizing prev p c with
  | nil => cases p <;> simp [HandleOutput.loop, sends, Check.feed]
  | cons line rest ih =>
    simp only [HandleOutput.loop, sends_append, sends_ite_log, List.append_nil, ih,
      Check.feed, List.any_cons, id]
    rcases Bool.eq_false_or_eq_true (c.call re line).1 with hr | hr <;>
      cases p <;> simp [hr, sends, List.filter_cons]

theorem HandleOutput.loop_no_match (re : Regexp) (lines : List String) (prev : String)
    (c : Check) (h : ∀ b ∈ c.feed re lines, b = false) :
    ∃ msgs : List String, HandleOutput.loop re lines prev false c
      = msgs.map Output.log ++ [Output.send false] := by
  induction lines generalizing prev c with
  | nil => exact ⟨[], rfl⟩
  | cons line rest ih =>
    have hr : (c.call re line).1 = false := h _ (by simp [Check.feed])
    obtain ⟨msgs, hm⟩ := ih line (c.call re line).2
      (fun b hb => h b (by simp [Check.feed, hb]))
    refine ⟨(if line ≠ prev then [logMsg line] else []) ++ msgs, ?_⟩
    simp only [HandleOutput.loop, hr, Bool.or_false, hm]
    by_cases hlp : line = prev <;> simp [hlp]

theorem HandleOutput.loop_append (re : Regexp) (before : List String) (prev : String)
    (p : Bool) (c : Check) :
    ∃ pre prev2, sends pre = (c.feed re before).filter id
      ∧ ∀ rest, HandleOutput.loop re (before ++ rest) prev p c
          = pre ++ HandleOutput.loop re rest prev2 (p || (c.feed re before).any id)
              ⟨c.permissibleConditions,
                c.permissibleState || anyLineMatches re c.permissibleConditions before⟩ := by
  induction before generalizing prev p c with
  | nil =>
    refine ⟨[], prev, rfl, ?_⟩
    intro rest
    simp [Check.feed, anyLineMatches]
  | cons line more ih =>
    obtain ⟨pre, prev2, hs, hrest⟩ := ih line (p || (c.call re line).1) (c.call re line).2
    refine ⟨(if (c.call re line).1 then [Output.send true] else [])
      ++ (if line ≠ prev then [Output.log (logMsg line)] else []) ++ pre, prev2, ?_, ?_⟩
    · simp only [sends_append, sends_ite_log, List.append_nil, hs, Check.feed]
      rcases Bool.eq_false_or_eq_true (c.call re line).1 with hr | hr <;>
        simp [hr, sends, List.filter_cons]
    · intro rest
      have hst : (⟨(c.call re line).2.permissibleConditions,
            (c.call re line).2.permissibleState
              || anyLineMatches re (c.call re line).2.permissibleConditions more⟩ : Check)
          = ⟨c.permissibleConditions,
              c.permissibleState
                || anyLineMatches re c.permissibleConditions (line :: more)⟩ := by
        rw [Check.call_snd_state, Check.call_snd_conditions, Check.call_fst,
          anyLineMatches_cons, Bool.or_assoc]
      have hany : (c.feed re (line :: more)).any id
          = ((c.call re line).1 || (Check.feed re (c.call re line).2 more).any id) := by
        simp [Check.feed]
      have h1 := hrest rest
      rw [hst] at h1
      show HandleOutput.loop re (line :: (more ++ rest)) prev p c = _
      rw [HandleOutput.loop, h1, hany, Bool.or_assoc]
      simp only [List.append_assoc]

/-- C11, counterexample. With the pattern `cake` and the stream `oat cake`,
`tart`, `HandleOutput` sends true twice, the first time before the second line
is read. -/
theorem HandleOutput_sends_per_line :
    ∃ check, GetConditionalCheck Regexp.literal ["cake"] = some check
      ∧ sends (HandleOutput Regexp.literal ["oat cake", "tart"] check) = [true, true]
      ∧ HandleOutput Regexp.literal ["oat cake", "tart"] check
        = [Output.send true, Output.log "\t| oat cake",
           Output.send true, Output.log "\t| tart"] :=
  ⟨_, rfl, by decide, by decide⟩

/-- C11, amended. `HandleOutput` sends true once for every line on which the
predicate returns true, and when there is no such line it sends one value, false,
as its last action; a true is sent as soon as its line is read: what is done
before it does not depend on the lines that follow. -/
theorem HandleOutput_sends (re : Regexp) (input : List String) (permitted : Check) :
    sends (HandleOutput re input permitted)
      = (if (permitted.feed re input).any id then (permitted.feed re input).filter id
         else [false])
    ∧ ((∀ b ∈ permitted.feed re input, b = false) →
        ∃ msgs : List String,
          HandleOutput re input permitted = msgs.map Output.log ++ [Output.send false])
    ∧ ∀ before, ∃ pre, sends pre = (permitted.feed re before).filter id
        ∧ ∀ line after, (permitted.feed re (before ++ [line]))[before.length]? = some true →
          ∃ post, HandleOutput re (before ++ line :: after) permitted
            = pre ++ Output.send true :: post := by
  refine ⟨?_, HandleOutput.loop_no_match re input "" permitted, ?_⟩
  · rw [HandleOutput, HandleOutput.loop_sends]
    cases h : (permitted.feed re input).any id
    · have : (permitted.feed re input).filter id = [] := by
        rw [List.filter_eq_nil_iff]
        intro b hb
        have := (List.any_eq_false.mp h) b hb
        simpa using this
      simp [this]
    · simp
  · intro before
    obtain ⟨pre, prev2, hs, hrest⟩ := HandleOutput.loop_append re before "" false permitted
    refine ⟨pre, hs, ?_⟩
    intro line after hline
    rw [HandleOutput, hrest (line :: after)]
    have hfeed := Check.feed_getElem? re permitted (before ++ [line]) before.length (by simp)
    rw [hfeed] at hline
    have htake : (before ++ [line]).take (before.length + 1) = before ++ [line] := by
      apply List.take_of_length_le
      simp
    rw [htake] at hline
    have hcall : (Check.call re ⟨permitted.permissibleConditions,
          permitted.permissibleState
            || anyLineMatches re permitted.permissibleConditions before⟩ line).1 = true := by
      rw [Check.call_fst]
      have := Option.some.inj hline
      simp only [anyLineMatches, List.any_append, List.any_cons, List.any_nil,
        Bool.or_false] at this ⊢
      rw [Bool.or_assoc]
      exact this
    simp only [HandleOutput.loop, hcall, if_true, List.append_assoc, List.singleton_append]
    exact ⟨_, rfl⟩

/-! ## What HandleOutput logs -/

theorem logs_ite_send (c : Prop) [Decidable c] (v : Bool) :
    logs (if c then [Output.send v] else []) = [] := by
  split <;> rfl

theorem HandleOutput.loop_logs (re : Regexp) (lines : List String) (prev : String)
    (p : Bool) (c : Check) :
    logs (HandleOutput.loop re lines prev p c) = (changes prev lines).map logMsg := by
  induction lines generalizing prev p c with
  | nil => cases p <;> simp [HandleOutput.loop, logs, changes]
  | cons line rest ih =>
    simp only [HandleOutput.loop, logs_append, logs_ite_send, ih, changes, List.nil_append]
    by_cases hlp : line = prev <;> simp [hlp, logs]

/-- The messages `HandleOutput` logs are the lines that differ from the line before
them, the empty string standing before the first line. -/
theorem HandleOutput_logs (re : Regexp) (input : List String) (permitted : Check) :
    logs (HandleOutput re input permitted) = (changes "" input).map logMsg :=
  HandleOutput.loop_logs re input "" false permitted

/-- On a stream that does not begin with an empty line, the messages logged are the
first line and the lines that differ from the line before them. -/
theorem HandleOutput_logs_of_first_ne (re : Regexp) (line : String) (rest : List String)
    (permitted : Check) (h : line ≠ "") :
    logs (HandleOutput re (line :: rest) permitted)
      = (firstOrChanged (line :: rest)).map logMsg := by
  rw [HandleOutput_logs]
  simp [changes, firstOrChanged, h]

/-- C12, failing input. On a stream that begins with an empty line, that line is
not logged although no line precedes it: of the lines ``, `foo`, only `foo` is
logged. -/
theorem HandleOutput_drops_empty_first_line :
    logs (HandleOutput Regexp.literal ["", "foo"] ⟨[], false⟩) = ["\t| foo"]
    ∧ (firstOrChanged ["", "foo"]).map logMsg = ["\t| ", "\t| foo"] := by
  decide

/-! ## Patterns that do not compile -/

/-- C13, counterexample. With the pattern `(`, which does not compile, `RunStack`
on the failing script of the tests starts the stage and then panics. -/
theorem RunStack_starts_before_compiling :
    GetConditionalCheck Regexp.letters ["("] = none
    ∧ RunStack Regexp.letters [fooStage] ["("] []
      = { result := Result.panic, trace := [Event.start 0] } := by
  decide

/-- C13, amended. When some pattern does not compile, `GetConditionalCheck` panics,
and `RunStack` reaches it after the start of stage 0: on a stack whose first stage
starts (or had been started) it panics having done nothing but that start; when
the first stage cannot be started it returns the error of the start; in both cases
no monitor is launched, no later stage is started and no stage is waited on. -/
theorem RunStack_invalid_pattern (re : Regexp) (s0 : RunCmd) (rest : List RunCmd)
    (conditionals : List String) (scheds : List (List Action))
    (h : conditionals.all re.compiles = false) :
    GetConditionalCheck re conditionals = none
    ∧ ((s0.cmd.Process = true ∨ Starts s0) →
        RunStack re (s0 :: rest) conditionals scheds
          = { result := Result.panic,
              trace := if s0.cmd.Process then [] else [Event.start 0] })
    ∧ (∀ e, s0.cmd.Process = false → s0.cmd.Start = Except.error e →
        RunStack re (s0 :: rest) conditionals scheds
          = { result := Result.ret (some (wrap s0.cmd e)), trace := [Event.start 0] })
    ∧ ∀ ev ∈ (RunStack re (s0 :: rest) conditionals scheds).trace, ev = Event.start 0 := by
  have hc : GetConditionalCheck re conditionals = none := by
    simp [GetConditionalCheck, h]
  have hpanic : (s0.cmd.Process = true ∨ Starts s0) →
      RunStack re (s0 :: rest) conditionals scheds
        = { result := Result.panic,
            trace := if s0.cmd.Process then [] else [Event.start 0] } := by
    intro hs
    rw [RunStack_cons]
    cases rest <;> rw [RunStack.body, RunStack.enter_panic re s0 conditionals hs hc]
  have herr : ∀ e, s0.cmd.Process = false → s0.cmd.Start = Except.error e →
      RunStack re (s0 :: rest) conditionals scheds
        = { result := Result.ret (some (wrap s0.cmd e)), trace := [Event.start 0] } := by
    intro e hp hs
    rw [RunStack_cons]
    exact RunStack.body_start_error re conditionals rest s0 scheds e hp hs
  refine ⟨hc, hpanic, herr, ?_⟩
  intro ev hev
  rcases RunStack.enter_cases re s0 conditionals with ⟨e, hp, hs, _⟩ | ⟨hs, _⟩ | ⟨_, hs, _⟩
  · rw [herr e hp hs] at hev
    simpa using hev
  all_goals
    rw [hpanic hs] at hev
    cases hp : s0.cmd.Process <;> simp [hp] at hev
    exact hev

/-- C13, instance of the amended claim: the pattern `(` and the pipeline of the tests
whose second stage fails. -/
theorem RunStack_invalid_pattern_witness :
    (["("].all Regexp.letters.compiles = false)
    ∧ ∀ ev ∈ (RunStack Regexp.letters secondFails ["("] []).trace, ev = Event.start 0 :=
  ⟨by decide,
    (RunStack_invalid_pattern Regexp.letters catStage [fooMiddle, wcStage] ["("] []
      (by decide)).2.2.2⟩

/-! ## The verdicts nobody receives -/

theorem Sel.exec_received (re : Regexp) (s : Sel) (a : Action) (v : Bool)
    (h : s.received = some v) :
    (s.exec re a).received = some v
    ∧ (∀ m w, s.stderrMonitor = some m → m.offer = some w →
        (s.exec re a).stderrMonitor = some m)
    ∧ (∀ m w, s.stdoutMonitor = some m → m.offer = some w →
        (s.exec re a).stdoutMonitor = some m) := by
  have hblocked : ∀ (m : Monitor) (w : Bool), m.offer = some w → m.pc ≠ Pc.scan := by
    intro m w hw hpc
    simp [Monitor.offer, hpc] at hw
  cases a with
  | stderrStep =>
    rw [Sel.exec_step_stderr]
    cases hm : s.stderrMonitor with
    | none => exact ⟨h, by simp, fun _ _ h1 _ => h1⟩
    | some m =>
      refine ⟨h, ?_, fun _ _ h1 _ => h1⟩
      intro m2 w hm2 hw
      have : m = m2 := by simpa using hm2
      subst this
      simp [Monitor.step_blocked re m s.check (hblocked m w hw)]
  | stdoutStep =>
    rw [Sel.exec_step_stdout]
    cases hm : s.stdoutMonitor with
    | none => exact ⟨h, fun _ _ h1 _ => h1, by simp⟩
    | some m =>
      refine ⟨h, fun _ _ h1 _ => h1, ?_⟩
      intro m2 w hm2 hw
      have : m = m2 := by simpa using hm2
      subst this
      simp [Monitor.step_blocked re m s.check (hblocked m w hw)]
  | caseStdOut =>
    rcases Sel.exec_case_stdout re s with he | ⟨m, w, hrec, _⟩
    · rw [he]; exact ⟨h, fun _ _ h1 _ => h1, fun _ _ h1 _ => h1⟩
    · rw [h] at hrec; cases hrec
  | caseStdErr =>
    rcases Sel.exec_case_stderr re s with he | ⟨m, w, hrec, _⟩
    · rw [he]; exact ⟨h, fun _ _ h1 _ => h1, fun _ _ h1 _ => h1⟩
    · rw [h] at hrec; cases hrec

/-- Once the `select` has received its value, a monitor that is blocked in a send
stays blocked there under every continuation of the schedule. -/
theorem Sel.run_received (re : Regexp) (s : Sel) (sched : List Action) (v : Bool)
    (h : s.received = some v) :
    (s.run re sched).received = some v
    ∧ (∀ m w, s.stderrMonitor = some m → m.offer = some w →
        (s.run re sched).stderrMonitor = some m)
    ∧ (∀ m w, s.stdoutMonitor = some m → m.offer = some w →
        (s.run re sched).stdoutMonitor = some m) := by
  induction sched generalizing s with
  | nil => exact ⟨h, fun _ _ h1 _ => h1, fun _ _ h1 _ => h1⟩
  | cons a rest ih =>
    obtain ⟨e1, e2, e3⟩ := Sel.exec_received re s a v h
    obtain ⟨i1, i2, i3⟩ := ih (s.exec re a) e1
    simp only [Sel.run, List.foldl_cons] at i1 i2 i3 ⊢
    exact ⟨i1, fun m w hm hw => i2 m w (e2 m w hm hw) hw,
      fun m w hm hw => i3 m w (e3 m w hm hw) hw⟩

/-- C20, failing input. For the single stage `wc`, two monitors are launched and
one value is received. When the `select` has taken the value of the monitor of
stderr, the monitor of stdout reaches the send of line 213 and stays there, under
every continuation of the schedule. -/
theorem RunStack_leaves_monitor_blocked :
    (RunStack Regexp.literal [wcStage] [] [[Action.stderrStep, Action.caseStdOut]]).trace
      = [Event.start 0, Event.monitor 0 Fd.stderr, Event.monitor 0 Fd.stdout,
         Event.wait 0, Event.verdict 0 false]
    ∧ ∀ sched,
        (((Sel.init ⟨[], false⟩ wcStage.stderr wcStage.stdout).run Regexp.literal
            [Action.stderrStep, Action.caseStdOut, Action.stdoutStep, Action.stdoutStep]).run
          Regexp.literal sched).stdoutMonitor.bind Monitor.offer = some false := by
  refine ⟨by decide, ?_⟩
  intro sched
  have h := (Sel.run_received Regexp.literal
    ((Sel.init ⟨[], false⟩ wcStage.stderr wcStage.stdout).run Regexp.literal
      [Action.stderrStep, Action.caseStdOut, Action.stdoutStep, Action.stdoutStep])
    sched false (by decide)).2.2
    { input := [], prev := "      0       0       0", p := false, pc := Pc.sendFalse,
      logged := ["\t|       0       0       0"] } false (by decide) (by decide)
  rw [h]
  rfl

/-! ## CreateRunStackWithArgs -/

theorem CreateRunStackWithArgs.getElem?_handles (os : Nat → String → List String → Proc)
    (dir : String) (pipe : List Pipe) (j : Nat) :
    (pipe.enum.map (fun ic => CreateRunStackWithArgs.handle os dir ic.1 ic.2))[j]?
      = pipe[j]?.map (CreateRunStackWithArgs.handle os dir j) := by
  rw [List.getElem?_map, List.getElem?_enum]
  cases pipe[j]? <;> rfl

theorem CreateRunStackWithArgs.wire_getElem? (stack : List RunCmd) (k : Nat) (s : RunCmd)
    (hs : stack[k]? = some s) (j : Nat) :
    (CreateRunStackWithArgs.wire stack k)[j]?
      = if j = k then some { s with cmd := (s.cmd.StdoutPipe (OsPipe.stdoutOf k)).1 }
        else if j = k + 1 then
          stack[j]?.map (fun t =>
            { t with cmd := { t.cmd with
                Stdin := (s.cmd.StdoutPipe (OsPipe.stdoutOf k)).2 } })
        else stack[j]? := by
  have hk : k < stack.length := (List.getElem?_eq_some_iff.mp hs).1
  simp only [CreateRunStackWithArgs.wire, hs, List.getElem?_modify, List.getElem?_set]
  by_cases h1 : j = k
  · subst h1
    simp [hk]
  · by_cases h2 : j = k + 1
    · subst h2
      simp
    · have h3 : ¬ k = j := fun h => h1 h.symm
      have h4 : ¬ k + 1 = j := fun h => h2 h.symm
      simp [h1, h2, h3, h4]

theorem CreateRunStackWithArgs.fold_getElem? (os : Nat → String → List String → Proc)
    (dir : String) (pipe : List Pipe) (k : Nat) (hk : k + 1 ≤ pipe.length) (j : Nat) :
    ((List.range k).foldl CreateRunStackWithArgs.wire
        (pipe.enum.map (fun ic => CreateRunStackWithArgs.handle os dir ic.1 ic.2)))[j]?
      = pipe[j]?.map (fun c =>
          CreateRunStackWithArgs.wired k j (CreateRunStackWithArgs.handle os dir j c)) := by
  induction k generalizing j with
  | zero =>
    rw [List.range_zero, List.foldl_nil, CreateRunStackWithArgs.getElem?_handles]
    cases pipe[j]? with
    | none => rfl
    | some c =>
      have e : ¬ (0 < j ∧ j ≤ 0) := by omega
      simp only [Option.map_some', CreateRunStackWithArgs.wired, Nat.not_lt_zero, if_false,
        if_neg e]
  | succ k ih =>
    rw [List.range_succ, List.foldl_append, List.foldl_cons, List.foldl_nil]
    have hk2 : k < pipe.length := by omega
    have hck : pipe[k]? = some pipe[k] := List.getElem?_eq_getElem hk2
    have hsk := ih (by omega) k
    rw [hck, Option.map_some'] at hsk
    rw [CreateRunStackWithArgs.wire_getElem? _ k _ hsk j]
    by_cases h1 : j = k
    · subst h1
      rw [if_pos rfl, hck, Option.map_some']
      simp [CreateRunStackWithArgs.wired, CreateRunStackWithArgs.handle, Cmd.StdoutPipe,
        Cmd.StderrPipe, Command]
    · rw [if_neg h1]
      by_cases h2 : j = k + 1
      · subst h2
        rw [if_pos rfl, ih (by omega) (k + 1)]
        cases pipe[k + 1]? with
        | none => rfl
        | some c =>
          simp [CreateRunStackWithArgs.wired, CreateRunStackWithArgs.handle, Cmd.StdoutPipe,
            Cmd.StderrPipe, Command]
      · rw [if_neg h2, ih (by omega) j]
        cases pipe[j]? with
        | none => rfl
        | some c =>
          have e1 : (j < k + 1) = (j < k) := by
            apply propext; constructor <;> intro h <;> omega
          have e2 : (0 < j ∧ j ≤ k + 1) = (0 < j ∧ j ≤ k) := by
            apply propext; constructor <;> intro h <;> omega
          simp only [Option.map_some', CreateRunStackWithArgs.wired, e1, e2]

/-- The handle at each position of the stack `CreateRunStackWithArgs` returns. -/
theorem CreateRunStackWithArgs.getElem? (os : Nat → String → List String → Proc)
    (pipe : List Pipe) (dir : String) (j : Nat) :
    (CreateRunStackWithArgs os pipe dir)[j]?
      = pipe[j]?.map (fun c =>
          if j + 1 = pipe.length then
            CreateRunStackWithArgs.capture j
              (CreateRunStackWithArgs.wired j j (CreateRunStackWithArgs.handle os dir j c))
          else
            CreateRunStackWithArgs.wired (pipe.length - 1) j
              (CreateRunStackWithArgs.handle os dir j c)) := by
  unfold CreateRunStackWithArgs
  by_cases hn : pipe.length = 0
  · have : pipe = [] := List.length_eq_zero.mp hn
    subst this
    simp
  · rw [if_neg hn]
    simp only [List.getElem?_modify,
      CreateRunStackWithArgs.fold_getElem? os dir pipe (pipe.length - 1) (by omega)]
    cases hc : pipe[j]? with
    | none => rfl
    | some c =>
      have hj : j < pipe.length := (List.getElem?_eq_some_iff.mp hc).1
      by_cases hlast : j + 1 = pipe.length
      · have : pipe.length - 1 = j := by omega
        simp [this, hlast]
      · have : ¬ pipe.length - 1 = j := by omega
        simp [this, hlast]

theorem CreateRunStackWithArgs.length (os : Nat → String → List String → Proc)
    (pipe : List Pipe) (dir : String) :
    (CreateRunStackWithArgs os pipe dir).length = pipe.length := by
  unfold CreateRunStackWithArgs
  by_cases hn : pipe.length = 0
  · simp [hn]
  · rw [if_neg hn]
    have hfold : ∀ (l : List Nat) (stack : List RunCmd),
        (l.foldl CreateRunStackWithArgs.wire stack).length = stack.length := by
      intro l
      induction l with
      | nil => intro stack; rfl
      | cons i rest ih =>
        intro stack
        rw [List.foldl_cons, ih]
        unfold CreateRunStackWithArgs.wire
        cases stack[i]? <;> simp
    simp [hfold]

/-- The `Args` of the handle at each position are the name and the arguments of
the stage at that position. -/
theorem CreateRunStackWithArgs.args (os : Nat → String → List String → Proc)
    (pipe : List Pipe) (dir : String) (i : Nat) (c : Pipe) (hc : pipe[i]? = some c) :
    ∃ s : RunCmd, (CreateRunStackWithArgs os pipe dir)[i]? = some s
      ∧ s.cmd.Args = c.Cmd :: c.Args := by
  rw [CreateRunStackWithArgs.getElem?, hc]
  refine ⟨_, rfl, ?_⟩
  split
  · simp [CreateRunStackWithArgs.capture, CreateRunStackWithArgs.wired,
      CreateRunStackWithArgs.handle, Cmd.StdoutPipe, Cmd.StderrPipe, Command]
  · simp [CreateRunStackWithArgs.wired, CreateRunStackWithArgs.handle, Cmd.StderrPipe,
      Command]

/-- C16. `CreateRunStackWithArgs` returns as many handles as there are stages, in the
same order, none of them started, each with the directory given and its standard
error captured; the standard input of every handle but the first is the pipe of
the standard output of the handle before it, a handle that is not the last has
no captured standard output, and the last handle, and only it, has one; on no
stage it returns the empty stack. -/
theorem CreateRunStackWithArgs_wiring (os : Nat → String → List String → Proc)
    (pipe : List Pipe) (dir : String) :
    (CreateRunStackWithArgs os pipe dir).length = pipe.length
    ∧ (∀ i c, pipe[i]? = some c →
        ∃ s, (CreateRunStackWithArgs os pipe dir)[i]? = some s
          ∧ s.cmd.Args = c.Cmd :: c.Args
          ∧ s.cmd.Process = false
          ∧ s.cmd.Dir = dir
          ∧ s.cmd.Stderr = some (OsPipe.stderrOf i)
          ∧ s.stderr.isSome = true
          ∧ (i = 0 → s.cmd.Stdin = none)
          ∧ (i + 1 < pipe.length →
              s.stdout = none ∧ s.cmd.Stdout = some (OsPipe.stdoutOf i)
              ∧ ∃ t, (CreateRunStackWithArgs os pipe dir)[i + 1]? = some t
                  ∧ t.cmd.Stdin = some (OsPipe.stdoutOf i))
          ∧ (s.stdout.isSome = true ↔ i + 1 = pipe.length))
    ∧ CreateRunStackWithArgs os [] dir = [] := by
  refine ⟨CreateRunStackWithArgs.length os pipe dir, ?_, rfl⟩
  intro i c hc
  have hi : i < pipe.length := (List.getElem?_eq_some_iff.mp hc).1
  by_cases hlast : i + 1 = pipe.length
  · refine ⟨CreateRunStackWithArgs.capture i (CreateRunStackWithArgs.wired i i
      (CreateRunStackWithArgs.handle os dir i c)),
      by rw [CreateRunStackWithArgs.getElem?, hc]; simp [hlast], ?_⟩
    refine ⟨?_, ?_, ?_, ?_, ?_, ?_, ?_, ?_⟩
    · simp [CreateRunStackWithArgs.capture, CreateRunStackWithArgs.wired,
        CreateRunStackWithArgs.handle, Cmd.StdoutPipe, Cmd.StderrPipe, Command]
    · simp [CreateRunStackWithArgs.capture, CreateRunStackWithArgs.wired,
        CreateRunStackWithArgs.handle, Cmd.StdoutPipe, Cmd.StderrPipe, Command]
    · simp [CreateRunStackWithArgs.capture, CreateRunStackWithArgs.wired,
        CreateRunStackWithArgs.handle, Cmd.StdoutPipe, Cmd.StderrPipe, Command]
    · simp [CreateRunStackWithArgs.capture, CreateRunStackWithArgs.wired,
        CreateRunStackWithArgs.handle, Cmd.StdoutPipe, Cmd.StderrPipe, Command]
    · simp [CreateRunStackWithArgs.capture, CreateRunStackWithArgs.wired,
        CreateRunStackWithArgs.handle, Cmd.StdoutPipe, Cmd.StderrPipe, Command]
    · intro h0
      subst h0
      simp [CreateRunStackWithArgs.capture, CreateRunStackWithArgs.wired,
        CreateRunStackWithArgs.handle, Cmd.StdoutPipe, Cmd.StderrPipe, Command]
    · intro h
      omega
    · simp [hlast, CreateRunStackWithArgs.capture, CreateRunStackWithArgs.wired,
        CreateRunStackWithArgs.handle, Cmd.StdoutPipe, Cmd.StderrPipe, Command]
  · refine ⟨CreateRunStackWithArgs.wired (pipe.length - 1) i
      (CreateRunStackWithArgs.handle os dir i c),
      by rw [CreateRunStackWithArgs.getElem?, hc]; simp [hlast], ?_⟩
    have hlt : i < pipe.length - 1 := by omega
    refine ⟨?_, ?_, ?_, ?_, ?_, ?_, ?_, ?_⟩
    · simp [CreateRunStackWithArgs.wired, CreateRunStackWithArgs.handle, Cmd.StderrPipe,
        Command]
    · simp [CreateRunStackWithArgs.wired, CreateRunStackWithArgs.handle, Cmd.StderrPipe,
        Command]
    · simp [CreateRunStackWithArgs.wired, CreateRunStackWithArgs.handle, Cmd.StderrPipe,
        Command]
    · simp [CreateRunStackWithArgs.wired, CreateRunStackWithArgs.handle, Cmd.StderrPipe,
        Command]
    · simp [CreateRunStackWithArgs.wired, CreateRunStackWithArgs.handle, Cmd.StderrPipe,
        Command]
    · intro h0
      subst h0
      simp [CreateRunStackWithArgs.wired, CreateRunStackWithArgs.handle, Cmd.StderrPipe,
        Command]
    · intro _
      refine ⟨?_, ?_, ?_⟩
      · simp [CreateRunStackWithArgs.wired, CreateRunStackWithArgs.handle]
      · simp [hlt, CreateRunStackWithArgs.wired, CreateRunStackWithArgs.handle,
          Cmd.StderrPipe, Command]
      · have hi1 : i + 1 < pipe.length := by omega
        have hc1 : pipe[i + 1]? = some pipe[i + 1] := List.getElem?_eq_getElem hi1
        have hle : i + 1 ≤ pipe.length - 1 := by omega
        by_cases hl2 : i + 1 + 1 = pipe.length
        · refine ⟨CreateRunStackWithArgs.capture (i + 1) (CreateRunStackWithArgs.wired
            (i + 1) (i + 1) (CreateRunStackWithArgs.handle os dir (i + 1) pipe[i + 1])),
            by rw [CreateRunStackWithArgs.getElem?, hc1]; simp [hl2], ?_⟩
          simp [CreateRunStackWithArgs.capture, CreateRunStackWithArgs.wired,
            CreateRunStackWithArgs.handle, Cmd.StdoutPipe, Cmd.StderrPipe, Command]
        · refine ⟨CreateRunStackWithArgs.wired (pipe.length - 1) (i + 1)
            (CreateRunStackWithArgs.handle os dir (i + 1) pipe[i + 1]),
            by rw [CreateRunStackWithArgs.getElem?, hc1]; simp [hl2], ?_⟩
          simp [hle, CreateRunStackWithArgs.wired, CreateRunStackWithArgs.handle,
            Cmd.StderrPipe, Command]
    · simp [hlast, CreateRunStackWithArgs.wired, CreateRunStackWithArgs.handle]

/-! ## CreateRunStack -/

theorem mk_ne_empty (w : List Char) : String.mk w ≠ "" ↔ w ≠ [] := by
  cases w <;> simp [String.ext_iff]

theorem CreateRunStack.mem_parts (c v : String) (hv : v ∈ CreateRunStack.parts c) :
    v ≠ "" ∧ ' ' ∉ v.data := by
  simp only [CreateRunStack.parts, Strings.Split, List.mem_filter, List.mem_map,
    decide_eq_true_eq] at hv
  obtain ⟨⟨w, hw, rfl⟩, hne⟩ := hv
  exact ⟨hne, Strings.splitChars_no_sep ' ' _ w hw⟩

theorem CreateRunStack.parts_eq_nil_iff (c : String) :
    CreateRunStack.parts c = [] ↔ ∀ ch ∈ c.data, ch = ' ' := by
  constructor
  · intro h ch hch
    rcases Strings.mem_Trim c ' ' ch hch with h1 | h1
    · exact h1
    · rw [← Strings.splitChars_intercalate ' ' (Strings.Trim c ' ').data] at h1
      rcases Strings.mem_intercalate ' ' ch _ h1 with h2 | ⟨w, hw, hx⟩
      · exact h2
      · exfalso
        have hmem : String.mk w ∈ Strings.Split (Strings.Trim c ' ') ' ' :=
          List.mem_map.mpr ⟨w, hw, rfl⟩
        have hnot : String.mk w ∉ CreateRunStack.parts c := by rw [h]; simp
        have hempty : ¬ (String.mk w ≠ "") := by
          intro hne
          exact hnot (List.mem_filter.mpr ⟨hmem, by simpa using hne⟩)
        have : w = [] := by
          by_contra hw2
          exact hempty ((mk_ne_empty w).mpr hw2)
        rw [this] at hx
        simp at hx
  · intro h
    rw [CreateRunStack.parts, Strings.Trim_of_all c ' ' h]
    decide

theorem CreateRunStack.stack_eq_none_iff (pipe : List String) :
    CreateRunStack.stack pipe = none ↔ ∃ c ∈ pipe, CreateRunStack.parts c = [] := by
  induction pipe with
  | nil => simp [CreateRunStack.stack]
  | cons c rest ih =>
    rw [CreateRunStack.stack]
    cases hp : CreateRunStack.parts c with
    | nil => simp [CreateRunStack.stage, hp]
    | cons cmd args =>
      simp only [CreateRunStack.stage, hp, Option.map_eq_none', ih, List.mem_cons,
        exists_eq_or_imp, reduceCtorEq, false_or]

theorem CreateRunStack.stack_some (pipe : List String) (ps : List Pipe)
    (h : CreateRunStack.stack pipe = some ps) :
    ps.length = pipe.length
    ∧ ∀ (i : Nat) (c : String), pipe[i]? = some c →
        ∃ p : Pipe, ps[i]? = some p ∧ p.Cmd :: p.Args = CreateRunStack.parts c := by
  induction pipe generalizing ps with
  | nil =>
    have : ps = [] := by simpa [CreateRunStack.stack] using h.symm
    subst this
    exact ⟨rfl, by simp⟩
  | cons c rest ih =>
    rw [CreateRunStack.stack] at h
    cases hp : CreateRunStack.parts c with
    | nil => simp [CreateRunStack.stage, hp] at h
    | cons cmd args =>
      simp only [CreateRunStack.stage, hp, Option.map_eq_some'] at h
      obtain ⟨ps2, hps2, rfl⟩ := h
      obtain ⟨hlen, hall⟩ := ih ps2 hps2
      refine ⟨by simp [hlen], ?_⟩
      intro i c2 hc2
      cases i with
      | zero =>
        have : c = c2 := by simpa using hc2
        subst this
        exact ⟨{ Cmd := cmd, Args := args }, by simp, hp.symm⟩
      | succ k => simpa using hall k c2 (by simpa using hc2)

/-- When every command string holds a token, `CreateRunStack` gives one handle per
string, in order, whose `Args` are the tokens of the string. -/
theorem CreateRunStack.some_of_parts (os : Nat → String → List String → Proc)
    (pipe : List String) (dir : String) (h : ∀ c ∈ pipe, CreateRunStack.parts c ≠ []) :
    ∃ stack, CreateRunStack os pipe dir = some stack ∧ stack.length = pipe.length
      ∧ ∀ (i : Nat) (c : String), pipe[i]? = some c →
          ∃ s : RunCmd, stack[i]? = some s ∧ s.cmd.Args = CreateRunStack.parts c := by
  cases hps : CreateRunStack.stack pipe with
  | none =>
    obtain ⟨c, hc, hnil⟩ := (CreateRunStack.stack_eq_none_iff pipe).mp hps
    exact absurd hnil (h c hc)
  | some ps =>
    obtain ⟨hlen, hall⟩ := CreateRunStack.stack_some pipe ps hps
    refine ⟨CreateRunStackWithArgs os ps dir, by simp [CreateRunStack, hps],
      by rw [CreateRunStackWithArgs.length, hlen], ?_⟩
    intro i c hc
    obtain ⟨p, hp, hparts⟩ := hall i c hc
    obtain ⟨s, hs, hargs⟩ := CreateRunStackWithArgs.args os ps dir i p hp
    exact ⟨s, hs, by rw [hargs, hparts]⟩

/-- C14, counterexample. A command string whose words are separated by a tab and a
newline gives one stage with a single token, which contains the tab and the
newline. -/
theorem CreateRunStack_keeps_tabs :
    (CreateRunStack quietOs ["ls\t-al\n/"] ".").map
        (fun stack => stack.map (fun s => s.cmd.Args))
      = some [["ls\t-al\n/"]] := by
  decide

/-- C14, amended. When every command string holds a token, `CreateRunStack` gives one
handle per string, in order, whose `Args` are the tokens of the string: the
executable first, then the arguments. The tokens are the pieces that are not
empty of the string, trimmed of the spaces around it and cut at every space;
no token is empty or contains a space. -/
theorem CreateRunStack_tokens (os : Nat → String → List String → Proc) (pipe : List String)
    (dir : String) (h : ∀ c ∈ pipe, CreateRunStack.parts c ≠ []) :
    ∃ stack, CreateRunStack os pipe dir = some stack ∧ stack.length = pipe.length
      ∧ ∀ (i : Nat) (c : String), pipe[i]? = some c →
          (∃ s : RunCmd, stack[i]? = some s ∧ s.cmd.Args = CreateRunStack.parts c)
          ∧ CreateRunStack.parts c
              = (Strings.Split (Strings.Trim c ' ') ' ').filter (fun v => v ≠ "")
          ∧ (∃ n m, c.data = List.replicate n ' ' ++ (Strings.Trim c ' ').data
                ++ List.replicate m ' '
              ∧ (Strings.Trim c ' ').data.head? ≠ some ' '
              ∧ (Strings.Trim c ' ').data.getLast? ≠ some ' ')
          ∧ Strings.Join (Strings.Split (Strings.Trim c ' ') ' ') " " = Strings.Trim c ' '
          ∧ (∀ v ∈ Strings.Split (Strings.Trim c ' ') ' ', ' ' ∉ v.data)
          ∧ (∀ v ∈ CreateRunStack.parts c, v ≠ "" ∧ ' ' ∉ v.data) := by
  obtain ⟨stack, hstack, hlen, hall⟩ := CreateRunStack.some_of_parts os pipe dir h
  refine ⟨stack, hstack, hlen, ?_⟩
  intro i c hc
  refine ⟨hall i c hc, rfl, Strings.Trim_spec c ' ', Strings.Join_Split _ ' ', ?_,
    CreateRunStack.mem_parts c⟩
  intro v hv
  obtain ⟨w, hw, rfl⟩ := List.mem_map.mp hv
  exact Strings.splitChars_no_sep ' ' _ w hw

/-- C14, instance of the amended claim: the command strings of `TestCreateRunStack`. -/
theorem CreateRunStack_tokens_witness :
    (∀ c ∈ ["ls -al /", "grep -i etc"], CreateRunStack.parts c ≠ [])
    ∧ ∃ stack, CreateRunStack quietOs ["ls -al /", "grep -i etc"] "." = some stack
        ∧ stack.length = 2 :=
  ⟨by decide,
    (CreateRunStack_tokens quietOs ["ls -al /", "grep -i etc"] "." (by decide)).imp
      (fun _ hstack => ⟨hstack.1, hstack.2.1⟩)⟩

/-- C15. `CreateRunStack` panics exactly when some command string has no token, that
is, is empty or made of spaces only. So `Run` and `RunDir` panic on the empty
command line and on `ls | | wc`; and whatever the command line, the stack they
hand to `RunStack` is not empty. -/
theorem CreateRunStack_fails_iff (re : Regexp) (os : Nat → String → List String → Proc)
    (pipe : List String) (dir : String) (conditionals : List String)
    (scheds : List (List Action)) :
    (CreateRunStack os pipe dir = none ↔ ∃ c ∈ pipe, CreateRunStack.parts c = [])
    ∧ (∀ c, CreateRunStack.parts c = [] ↔ ∀ ch ∈ c.data, ch = ' ')
    ∧ RunDir re os "" dir conditionals scheds = none
    ∧ Run.call re os "" conditionals scheds = none
    ∧ RunDir re os "ls | | wc" dir conditionals scheds = none
    ∧ Run.call re os "ls | | wc" conditionals scheds = none
    ∧ ∀ command stack,
        CreateRunStack os (Strings.Split command '|') dir = some stack → stack ≠ [] := by
  have h1 : CreateRunStack.stack (Strings.Split "" '|') = none := by decide
  have h2 : CreateRunStack.stack (Strings.Split "ls | | wc" '|') = none := by decide
  refine ⟨?_, CreateRunStack.parts_eq_nil_iff, ?_, ?_, ?_, ?_, ?_⟩
  · rw [← CreateRunStack.stack_eq_none_iff]
    simp [CreateRunStack]
  · simp [RunDir, CreateRunStack, h1]
  · simp [Run.call, RunDir, CreateRunStack, h1]
  · simp [RunDir, CreateRunStack, h2]
  · simp [Run.call, RunDir, CreateRunStack, h2]
  · intro command stack hstack hnil
    subst hnil
    simp only [CreateRunStack, Option.map_eq_some'] at hstack
    obtain ⟨ps, hps, hnil⟩ := hstack
    have hlen := (CreateRunStack.stack_some _ ps hps).1
    have hlen2 := CreateRunStackWithArgs.length os ps dir
    rw [hnil] at hlen2
    have hsplit : (Strings.Split command '|').length ≠ 0 := by
      simp [Strings.Split, Strings.splitChars_ne_nil]
    simp only [List.length_nil] at hlen2
    omega

/-! ## RunArgs -/

/-- C17, counterexample. With the argument `a|b`, `RunArgs` builds two stages:
`echo a` and `b`. -/
theorem RunArgs_splits_arguments :
    (CreateRunStack quietOs (RunArgs.pipe "echo" ["a|b"]) ".").map
        (fun stack => stack.map (fun s => s.cmd.Args))
      = some [["echo", "a"], ["b"]] := by
  decide

/-- C17, amended. `RunArgs` builds one stage more than the line made of the name and
the arguments, joined by spaces, holds characters `|`; when the line holds none
(and holds a token) it builds and runs exactly one stage, whose `Args` are the
tokens of the line. -/
theorem RunArgs_stages (re : Regexp) (os : Nat → String → List String → Proc)
    (command : String) (args : List String) (dir : String) (conditionals : List String)
    (scheds : List (List Action)) :
    (∀ stack, CreateRunStack os (RunArgs.pipe command args) dir = some stack →
        stack.length = (command ++ " " ++ Strings.Join args " ").data.count '|' + 1)
    ∧ ('|' ∉ (command ++ " " ++ Strings.Join args " ").data →
        CreateRunStack.parts (command ++ " " ++ Strings.Join args " ") ≠ [] →
        ∃ s, CreateRunStack os (RunArgs.pipe command args) dir = some [s]
          ∧ s.cmd.Args = CreateRunStack.parts (command ++ " " ++ Strings.Join args " ")
          ∧ RunArgs re os command args dir conditionals scheds
            = some (RunStack re [s] conditionals scheds))
    ∧ ('|' ∉ (command ++ " " ++ Strings.Join args " ").data ↔
        '|' ∉ command.data ∧ ∀ a ∈ args, '|' ∉ a.data) := by
  refine ⟨?_, ?_, ?_⟩
  · intro stack hstack
    simp only [CreateRunStack, Option.map_eq_some'] at hstack
    obtain ⟨ps, hps, rfl⟩ := hstack
    rw [CreateRunStackWithArgs.length, (CreateRunStack.stack_some _ ps hps).1]
    simp [RunArgs.pipe, Strings.Split, Strings.length_splitChars]
  · intro hbar hparts
    have hpipe : RunArgs.pipe command args = [command ++ " " ++ Strings.Join args " "] := by
      simp only [RunArgs.pipe, Strings.Split, Strings.splitChars_of_not_mem '|' _ hbar]
      rfl
    obtain ⟨stack, hstack, hlen, hall⟩ := CreateRunStack.some_of_parts os
      [command ++ " " ++ Strings.Join args " "] dir (by simpa using hparts)
    obtain ⟨s, hs, hargs⟩ := hall 0 _ rfl
    have hone : stack = [s] := by
      cases stack with
      | nil => simp at hlen
      | cons a rest =>
        cases rest with
        | nil => simpa using hs
        | cons _ _ => simp at hlen
    subst hone
    refine ⟨s, by rw [hpipe, hstack], hargs, ?_⟩
    simp [RunArgs, hpipe, hstack]
  · have hdata : (command ++ " " ++ Strings.Join args " ").data
        = command.data ++ [' '] ++ [' '].intercalate (args.map String.data) := by
      simp [Strings.Join, String.data_append]
    rw [hdata]
    constructor
    · intro h
      refine ⟨fun hc => h (by simp [hc]), ?_⟩
      intro a ha hmem
      exact h (List.mem_append_right _
        (Strings.mem_intercalate_of_mem ' ' '|' _ a.data (List.mem_map.mpr ⟨a, ha, rfl⟩) hmem))
    · rintro ⟨hc, hargs⟩ hmem
      rcases List.mem_append.mp hmem with h1 | h1
      · rcases List.mem_append.mp h1 with h2 | h2
        · exact hc h2
        · simp at h2
      · rcases Strings.mem_intercalate ' ' '|' _ h1 with h3 | ⟨w, hw, hx⟩
        · simp at h3
        · obtain ⟨a, ha, rfl⟩ := List.mem_map.mp hw
          exact hargs a ha hx

/-- C17, instance of the amended claim: `ls` with the arguments `-al` and `/`. -/
theorem RunArgs_stages_witness :
    ('|' ∉ ("ls" ++ " " ++ Strings.Join ["-al", "/"] " ").data)
    ∧ ∃ s, CreateRunStack quietOs (RunArgs.pipe "ls" ["-al", "/"]) "." = some [s]
        ∧ s.cmd.Args = CreateRunStack.parts ("ls" ++ " " ++ Strings.Join ["-al", "/"] " ")
        ∧ RunArgs Regexp.literal quietOs "ls" ["-al", "/"] "." [] []
          = some (RunStack Regexp.literal [s] [] []) :=
  ⟨by decide,
    (RunArgs_stages Regexp.literal quietOs "ls" ["-al", "/"] "." [] []).2.1 (by decide)
      (by decide)⟩

/-! ## One closure for both monitors -/

theorem Monitor.step_honest (re : Regexp) (own : List String) (m : Monitor) (c : Check)
    (hm : m.Honest re c.permissibleConditions own) :
    (m.step re c).1.Honest re c.permissibleConditions own := by
  by_cases hpc : m.pc = Pc.scan
  · cases hin : m.input with
    | nil =>
      cases hp : m.p
      · rw [Monitor.step_nil re m c hpc hin hp]
        exact ⟨fun _ => ⟨hp, hin⟩, fun _ _ => hm.2 hp (Or.inl hpc)⟩
      · have hstep : m.step re c = ({ m with pc := Pc.done }, c) := by
          unfold Monitor.step
          rw [hpc, hin]
          simp [hp]
        rw [hstep]
        exact ⟨by intro h; simp at h, by intro h; simp [hp] at h⟩
    | cons line rest =>
      rcases Bool.eq_false_or_eq_true ((c.call re line).1) with hr | hr
      · rw [Monitor.step_match re m c line rest hpc hin hr]
        exact ⟨by intro h; simp at h, by intro _ h; simp at h⟩
      · rw [Monitor.step_no_match re m c line rest hpc hin hr]
        refine ⟨by intro h; simp [Monitor.logLine, hpc] at h, fun hp _ => ?_⟩
        have hown := hm.2 (by simpa [Monitor.logLine] using hp) (Or.inl hpc)
        rw [hin, anyLineMatches_cons] at hown
        rw [Check.call_fst] at hr
        have hline : matchesAny re c.permissibleConditions line = false := by
          cases hs : c.permissibleState <;> simp [hs] at hr
          exact hr
        rw [hline] at hown
        simpa using hown
  · rw [Monitor.step_blocked re m c hpc]
    exact hm

theorem Monitor.step_conditions (re : Regexp) (m : Monitor) (c : Check) :
    (m.step re c).2.permissibleConditions = c.permissibleConditions :=
  (Monitor.step_sound re True m c (fun _ => trivial)
    ⟨fun _ => trivial, fun _ _ => trivial⟩).2.2

theorem Monitor.sent_honest (re : Regexp) (conditions own : List String) (m : Monitor)
    (hm : m.Honest re conditions own) : m.sent.Honest re conditions own := by
  unfold Monitor.sent
  split
  · exact ⟨by intro h; simp at h, by intro h; simp at h⟩
  · exact ⟨by intro h; simp at h, by intro _ h; simp at h⟩
  · exact hm

theorem Sel.exec_honest (re : Regexp) (stderr stdout : List String) (s : Sel) (a : Action)
    (h : s.Honest re stderr stdout) :
    (s.exec re a).Honest re stderr stdout := by
  obtain ⟨he, ho⟩ := h
  cases a with
  | stderrStep =>
    rw [Sel.exec_step_stderr]
    cases hm : s.stderrMonitor with
    | none => exact ⟨he, ho⟩
    | some m =>
      have h3 := Monitor.step_conditions re m s.check
      refine ⟨?_, ?_⟩
      · intro m2 hm2
        have : m2 = (m.step re s.check).1 := by simpa using hm2.symm
        subst this
        simpa only [h3] using Monitor.step_honest re stderr m s.check (he m hm)
      · intro m2 hm2
        simpa only [h3] using ho m2 hm2
  | stdoutStep =>
    rw [Sel.exec_step_stdout]
    cases hm : s.stdoutMonitor with
    | none => exact ⟨he, ho⟩
    | some m =>
      have h3 := Monitor.step_conditions re m s.check
      refine ⟨?_, ?_⟩
      · intro m2 hm2
        simpa only [h3] using he m2 hm2
      · intro m2 hm2
        have : m2 = (m.step re s.check).1 := by simpa using hm2.symm
        subst this
        simpa only [h3] using Monitor.step_honest re stdout m s.check (ho m hm)
  | caseStdOut =>
    rcases Sel.exec_case_stdout re s with heq | ⟨m, v, _, hm, _, heq⟩
    · rw [heq]; exact ⟨he, ho⟩
    · rw [heq]
      refine ⟨?_, ho⟩
      intro m2 hm2
      have : m2 = m.sent := by simpa using hm2.symm
      subst this
      exact Monitor.sent_honest re _ stderr m (he m hm)
  | caseStdErr =>
    rcases Sel.exec_case_stderr re s with heq | ⟨m, v, _, hm, _, heq⟩
    · rw [heq]; exact ⟨he, ho⟩
    · rw [heq]
      refine ⟨he, ?_⟩
      intro m2 hm2
      have : m2 = m.sent := by simpa using hm2.symm
      subst this
      exact Monitor.sent_honest re _ stdout m (ho m hm)

theorem Sel.run_honest (re : Regexp) (stderr stdout : List String) (s : Sel)
    (sched : List Action) (h : s.Honest re stderr stdout) :
    (s.run re sched).Honest re stderr stdout := by
  induction sched generalizing s with
  | nil => exact h
  | cons a rest ih =>
    simp only [Sel.run, List.foldl_cons]
    exact ih _ (Sel.exec_honest re stderr stdout s a h)

theorem Sel.init_honest (re : Regexp) (check : Check) (stderr stdout : Option (List String)) :
    (Sel.init check stderr stdout).Honest re (stderr.getD []) (stdout.getD []) := by
  constructor <;>
  · intro m hm
    simp only [Sel.init, Option.map_eq_some'] at hm
    obtain ⟨lines, hl, rfl⟩ := hm
    exact ⟨by intro h; simp [Monitor.init] at h, by intro _ _; simp [hl, Monitor.init]⟩

theorem Monitor.offer_honest (re : Regexp) (conditions own : List String) (m : Monitor)
    (hm : m.Honest re conditions own) (h : m.offer = some false) :
    anyLineMatches re conditions own = false := by
  have hpc : m.pc = Pc.sendFalse := by
    unfold Monitor.offer at h
    split at h
    · simp at h
    · assumption
    · simp at h
  obtain ⟨hp, hin⟩ := hm.1 hpc
  rw [hm.2 hp (Or.inr hpc), hin]
  rfl

theorem Sel.run_conditions (re : Regexp) (s : Sel) (sched : List Action) :
    (s.run re sched).check.permissibleConditions = s.check.permissibleConditions := by
  induction sched generalizing s with
  | nil => rfl
  | cons a rest ih =>
    simp only [Sel.run, List.foldl_cons]
    have := ih (s.exec re a)
    simp only [Sel.run] at this
    rw [this]
    cases a with
    | stderrStep =>
      rw [Sel.exec_step_stderr]
      cases hm : s.stderrMonitor with
      | none => rfl
      | some m => exact Monitor.step_conditions re m s.check
    | stdoutStep =>
      rw [Sel.exec_step_stdout]
      cases hm : s.stdoutMonitor with
      | none => rfl
      | some m => exact Monitor.step_conditions re m s.check
    | caseStdOut =>
      rcases Sel.exec_case_stdout re s with heq | ⟨m, v, _, _, _, heq⟩ <;> rw [heq]
    | caseStdErr =>
      rcases Sel.exec_case_stderr re s with heq | ⟨m, v, _, _, _, heq⟩ <;> rw [heq]

theorem Sel.init_sound (re : Regexp) (check : Check) (stderr stdout : Option (List String))
    (hfresh : check.permissibleState = false) :
    (Sel.init check stderr stdout).Sound re
      (anyLineMatches re check.permissibleConditions (stderr.getD []) = true
        ∨ anyLineMatches re check.permissibleConditions (stdout.getD []) = true) := by
  refine ⟨?_, ?_, ?_, ?_⟩
  · intro h
    rw [Sel.init] at h
    rw [hfresh] at h
    cases h
  · intro m hm
    simp only [Sel.init, Option.map_eq_some'] at hm
    obtain ⟨lines, hl, rfl⟩ := hm
    exact ⟨fun h => Or.inl (by simpa [hl, Monitor.init, Sel.init] using h),
      by intro l h; simp [Monitor.init] at h⟩
  · intro m hm
    simp only [Sel.init, Option.map_eq_some'] at hm
    obtain ⟨lines, hl, rfl⟩ := hm
    exact ⟨fun h => Or.inr (by simpa [hl, Monitor.init, Sel.init] using h),
      by intro l h; simp [Monitor.init] at h⟩
  · intro h
    simp [Sel.init] at h

/-- C21, counterexample. With the pattern `foo` and the line `bar` on stdout, which
does not match, the monitor of stdout reports true when stderr carries `foo` and
its monitor has read it first, and false when stderr carries `baz`; the `select`
that takes `case stderr` receives these values. The two runs differ in the lines
of stderr only. -/
theorem RunStack_monitors_share_check :
    GetConditionalCheck Regexp.literal ["foo"] = some ⟨["foo"], false⟩
    ∧ anyLineMatches Regexp.literal ["foo"] ["bar"] = false
    ∧ stdoutReport Regexp.literal ⟨["foo"], false⟩ (some ["foo"]) (some ["bar"])
        [Action.stderrStep, Action.stdoutStep, Action.stdoutStep] = some true
    ∧ stdoutReport Regexp.literal ⟨["foo"], false⟩ (some ["baz"]) (some ["bar"])
        [Action.stderrStep, Action.stdoutStep, Action.stdoutStep] = some false
    ∧ ((Sel.init ⟨["foo"], false⟩ (some ["foo"]) (some ["bar"])).run Regexp.literal
        [Action.stderrStep, Action.stdoutStep, Action.stdoutStep, Action.caseStdErr]).received
          = some true
    ∧ ((Sel.init ⟨["foo"], false⟩ (some ["baz"]) (some ["bar"])).run Regexp.literal
        [Action.stderrStep, Action.stdoutStep, Action.stdoutStep, Action.caseStdErr]).received
          = some false := by
  decide

/-- C21, amended. Both monitors of a stage call the one closure made at line 134.
Under every schedule, a monitor that reports false has a stream none of whose
lines matches a pattern; a monitor reports true only if a line of stderr or of
stdout matches a pattern; so when no line of the other stream matches, what a
monitor reports is whether a line of its own stream matches. -/
theorem RunStack_monitor_reports (re : Regexp) (conditionals : List String) (check : Check)
    (hc : GetConditionalCheck re conditionals = some check)
    (stderr stdout : Option (List String)) (sched : List Action) :
    (stdoutReport re check stderr stdout sched = some false →
      anyLineMatches re conditionals (stdout.getD []) = false)
    ∧ (stderrReport re check stderr stdout sched = some false →
      anyLineMatches re conditionals (stderr.getD []) = false)
    ∧ (stdoutReport re check stderr stdout sched = some true
        ∨ stderrReport re check stderr stdout sched = some true →
      anyLineMatches re conditionals (stderr.getD []) = true
        ∨ anyLineMatches re conditionals (stdout.getD []) = true)
    ∧ (anyLineMatches re conditionals (stderr.getD []) = false →
      ∀ v, stdoutReport re check stderr stdout sched = some v →
        v = anyLineMatches re conditionals (stdout.getD []))
    ∧ (anyLineMatches re conditionals (stdout.getD []) = false →
      ∀ v, stderrReport re check stderr stdout sched = some v →
        v = anyLineMatches re conditionals (stderr.getD [])) := by
  have hcheck := GetConditionalCheck_eq_some hc
  have hconds : check.permissibleConditions = conditionals := by rw [hcheck]
  have hfresh : check.permissibleState = false := by rw [hcheck]
  have hrun := Sel.run_conditions re (Sel.init check stderr stdout) sched
  have hinit : (Sel.init check stderr stdout).check.permissibleConditions = conditionals :=
    hconds
  rw [hinit] at hrun
  have hhon := Sel.run_honest re _ _ _ sched (Sel.init_honest re check stderr stdout)
  have hsnd := Sel.run_sound re _ _ sched (Sel.init_sound re check stderr stdout hfresh)
  rw [hconds] at hsnd
  have hout : stdoutReport re check stderr stdout sched = some false →
      anyLineMatches re conditionals (stdout.getD []) = false := by
    intro h
    simp only [stdoutReport, Option.bind_eq_some] at h
    obtain ⟨m, hm, hoff⟩ := h
    have := Monitor.offer_honest re _ _ m (hhon.2 m hm) hoff
    rwa [hrun] at this
  have herr : stderrReport re check stderr stdout sched = some false →
      anyLineMatches re conditionals (stderr.getD []) = false := by
    intro h
    simp only [stderrReport, Option.bind_eq_some] at h
    obtain ⟨m, hm, hoff⟩ := h
    have := Monitor.offer_honest re _ _ m (hhon.1 m hm) hoff
    rwa [hrun] at this
  have htrue : stdoutReport re check stderr stdout sched = some true
        ∨ stderrReport re check stderr stdout sched = some true →
      anyLineMatches re conditionals (stderr.getD []) = true
        ∨ anyLineMatches re conditionals (stdout.getD []) = true := by
    rintro (h | h)
    · simp only [stdoutReport, Option.bind_eq_some] at h
      obtain ⟨m, hm, hoff⟩ := h
      exact Monitor.offer_sound re _ _ m (hsnd.2.2.1 m hm) hoff
    · simp only [stderrReport, Option.bind_eq_some] at h
      obtain ⟨m, hm, hoff⟩ := h
      exact Monitor.offer_sound re _ _ m (hsnd.2.1 m hm) hoff
  refine ⟨hout, herr, htrue, ?_, ?_⟩
  · intro hno v hv
    cases v with
    | false => exact (hout hv).symm
    | true =>
      rcases htrue (Or.inl hv) with h | h
      · rw [hno] at h; cases h
      · exact h.symm
  · intro hno v hv
    cases v with
    | false => exact (herr hv).symm
    | true =>
      rcases htrue (Or.inr hv) with h | h
      · exact h.symm
      · rw [hno] at h; cases h

/-- C21, instance of the amended claim: the pattern `foo`, `baz` on stderr and `bar`
on stdout, where the monitor of stdout reports false. -/
theorem RunStack_monitor_reports_witness :
    GetConditionalCheck Regexp.literal ["foo"] = some ⟨["foo"], false⟩
    ∧ stdoutReport Regexp.literal ⟨["foo"], false⟩ (some ["baz"]) (some ["bar"])
        [Action.stderrStep, Action.stdoutStep, Action.stdoutStep] = some false
    ∧ anyLineMatches Regexp.literal ["foo"] ["bar"] = false :=
  ⟨by decide, by decide,
    (RunStack_monitor_reports Regexp.literal ["foo"] ⟨["foo"], false⟩ (by decide)
      (some ["baz"]) (some ["bar"])
      [Action.stderrStep, Action.stdoutStep, Action.stdoutStep]).1 (by decide)⟩

end Exec

namespace Docker

/-- C18. `IsDockerRunning` returns `(true, nil)` when the container list call
succeeds, `(false, nil)` when its error contains `Cannot connect` or
`connection refused`, and `(false, err)` for every other error. -/
theorem IsDockerRunning_cases :
    IsDockerRunning none = (true, none)
    ∧ ∀ e : String,
        ((Strings.Contains e "Cannot connect" = true
            ∨ Strings.Contains e "connection refused" = true) →
          IsDockerRunning (some e) = (false, none))
        ∧ (¬ (Strings.Contains e "Cannot connect" = true
              ∨ Strings.Contains e "connection refused" = true) →
          IsDockerRunning (some e) = (false, some e)) := by
  refine ⟨rfl, fun e => ⟨?_, ?_⟩⟩
  · intro h
    simp only [IsDockerRunning]
    rw [if_pos (by simpa using h)]
  · intro h
    simp only [IsDockerRunning]
    rw [if_neg (by simpa using h)]

/-! ## printOutput -/

theorem length_pos_iff_ne_empty (l : String) : l.length > 0 ↔ l ≠ "" := by
  cases l with
  | mk d => cases d <;> simp [String.length, String.ext_iff]

theorem foldl_turns (f : String → List Entry) (reader : List String) (init : List Entry) :
    reader.foldl (fun log t => log ++ f t) init = init ++ reader.flatMap f := by
  induction reader generalizing init with
  | nil => simp
  | cons t rest ih => simp [ih, List.flatMap_cons]

theorem PullImage.options_ok (helpers : List String) (authStr : String) (init : String) :
    ∃ registryAuth, helpers.foldlM
      (fun registryAuth a =>
        if a = Gcloud then (Except.ok authStr : Except String String) else Except.ok registryAuth)
      init = Except.ok registryAuth := by
  induction helpers generalizing init with
  | nil => exact ⟨init, rfl⟩
  | cons a rest ih =>
    by_cases ha : a = Gcloud
    · obtain ⟨r, hr⟩ := ih authStr
      exact ⟨r, by simpa [List.foldlM, ha] using hr⟩
    · obtain ⟨r, hr⟩ := ih init
      exact ⟨r, by simpa [List.foldlM, ha] using hr⟩

/-- C19. `printOutput` returns nil for every input and key. Every line is
handled in turn, whatever the lines before it: a line `json.Unmarshal` refuses
produces a record at level `error` carrying that error, and the scan goes on; for
the key `status` or `stream` a line produces one record at level `debug` with
the message `\t| ` followed by the piece, for each non-empty piece between
newlines of `errorDetail.message` when that is not empty and of the field of the
key otherwise (after the error record, for a refused line, from the struct
`json.Unmarshal` left). `PullImage` returns what `printOutput` returns, nil, once
the pull call has succeeded. -/
theorem printOutput_returns_nil (Unmarshal : String → Option String × OutputLine)
    (reader : List String) (key : String) :
    (printOutput Unmarshal reader key).1 = none
    ∧ (printOutput Unmarshal reader key).2 = reader.flatMap (printOutput.turn Unmarshal key)
    ∧ (∀ t e, (Unmarshal t).1 = some e →
        ∃ rest, printOutput.turn Unmarshal key t
          = { level := "error", err := some e, msg := "" } :: rest)
    ∧ (∀ t, (Unmarshal t).1 = none → key = "status" ∨ key = "stream" →
        printOutput.turn Unmarshal key t
          = ((Strings.Split
                (if (Unmarshal t).2.ErrorDetailMessage ≠ "" then (Unmarshal t).2.ErrorDetailMessage
                 else if key = "status" then (Unmarshal t).2.Status
                 else (Unmarshal t).2.Stream) '\n').filter (fun l => l ≠ "")).map
              (fun l => (⟨"debug", none, "\t| " ++ l⟩ : Entry)))
    ∧ (∀ t e, (Unmarshal t).1 = some e → key = "status" ∨ key = "stream" →
        printOutput.turn Unmarshal key t
          = (⟨"error", some e, ""⟩ : Entry)
            :: ((Strings.Split
                (if (Unmarshal t).2.ErrorDetailMessage ≠ "" then (Unmarshal t).2.ErrorDetailMessage
                 else if key = "status" then (Unmarshal t).2.Status
                 else (Unmarshal t).2.Stream) '\n').filter (fun l => l ≠ "")).map
              (fun l => (⟨"debug", none, "\t| " ++ l⟩ : Entry)))
    ∧ (∀ authentication getGcloudAuthString ImagePull image registryAuth,
        PullImage.options authentication getGcloudAuthString = Except.ok registryAuth →
        ImagePull image registryAuth = Except.ok reader →
        (PullImage Unmarshal authentication getGcloudAuthString ImagePull image).1 = none
        ∧ (PullImage Unmarshal authentication getGcloudAuthString ImagePull image).2
          = (printOutput Unmarshal reader "status").2) := by
  have hfilter : ∀ l : List String,
      l.filter (fun l => decide (l.length > 0)) = l.filter (fun l => decide (l ≠ "")) := by
    intro l
    congr 1
    funext x
    exact decide_eq_decide.mpr (length_pos_iff_ne_empty x)
  have hpieces : ∀ t, key = "status" ∨ key = "stream" →
      ((printOutput.out key (Unmarshal t).2).filter (fun l => l.length > 0)).map debugLine
        = ((Strings.Split
              (if (Unmarshal t).2.ErrorDetailMessage ≠ "" then (Unmarshal t).2.ErrorDetailMessage
               else if key = "status" then (Unmarshal t).2.Status
               else (Unmarshal t).2.Stream) '\n').filter (fun l => l ≠ "")).map
            (fun l => (⟨"debug", none, "\t| " ++ l⟩ : Entry)) := by
    intro t hkey
    have hdebug : debugLine = fun l => (⟨"debug", none, "\t| " ++ l⟩ : Entry) := rfl
    rw [hdebug]
    simp only [hfilter, printOutput.out]
    have hmsg := length_pos_iff_ne_empty (Unmarshal t).2.ErrorDetailMessage
    by_cases hm : (Unmarshal t).2.ErrorDetailMessage = ""
    · have hlen : ¬ ((Unmarshal t).2.ErrorDetailMessage.length > 0) := by
        rw [hmsg]; simp [hm]
      rw [if_neg hlen]
      rcases hkey with rfl | rfl
      · simp [hm, StatusOutput, StreamOutput]
      · simp [hm, StatusOutput, StreamOutput]
    · have hlen : (Unmarshal t).2.ErrorDetailMessage.length > 0 := hmsg.mpr hm
      rw [if_pos hlen]
      simp [hm]
  refine ⟨rfl, ?_, ?_, ?_, ?_, ?_⟩
  · simp only [printOutput, foldl_turns, List.nil_append]
  · intro t e he
    refine ⟨((printOutput.out key (Unmarshal t).2).filter
      (fun l => l.length > 0)).map debugLine, ?_⟩
    simp only [printOutput.turn, he, CheckError, Check]
    rfl
  · intro t hnone hkey
    rw [← hpieces t hkey]
    simp only [printOutput.turn, hnone, CheckError, Check, List.nil_append]
  · intro t e he hkey
    rw [← hpieces t hkey]
    simp only [printOutput.turn, he, CheckError, Check]
    rfl
  · intro authentication getGcloudAuthString ImagePull image registryAuth hopt hpull
    simp [PullImage, hopt, hpull, printOutput]
    rfl

/-- C19, instance: the texts of `TestPullImage`, the second of them malformed. -/
theorem printOutput_example :
    printOutput exampleUnmarshal
        ["\x7b\"status\": \"test line of output\"\x7d", "\x7b\"status\": \"test line of )",
         "\x7b\"status\": \"x\", \"errorDetail\": \x7b\"message\": \"there was\\nan error\"\x7d\x7d"]
        "status"
      = (none,
         [⟨"debug", none, "\t| test line of output"⟩,
          ⟨"error", some "unexpected end of JSON input", ""⟩,
          ⟨"debug", none, "\t| there was"⟩, ⟨"debug", none, "\t| an error"⟩]) := by
  decide

end Docker

namespace Github

theorem concatenation_append (a b : List String) :
    concatenation (a ++ b) = concatenation a ++ concatenation b := by
  induction a with
  | nil => simp [concatenation]
  | cons s rest ih => simp [concatenation, ih, String.append_assoc]

theorem flatten_intersperse_nil (l : List (List Char)) :
    (List.intersperse [] l).flatten = l.flatten := by
  induction l with
  | nil => rfl
  | cons a t ih =>
    cases t with
    | nil => rfl
    | cons b t2 =>
      simp only [List.intersperse, List.flatten_cons, List.nil_append] at ih ⊢
      rw [ih]

theorem concatenation_data (l : List String) :
    (concatenation l).data = (l.map String.data).flatten := by
  induction l with
  | nil => rfl
  | cons s rest ih => simp [concatenation, ih]

theorem Join_empty (l : List String) : Strings.Join l "" = concatenation l := by
  apply String.ext
  rw [concatenation_data]
  exact flatten_intersperse_nil _

theorem GetChangeLog.loop_eq (currentVersion : String) (releases : List RepositoryRelease)
    (changelog : List String) :
    GetChangeLog.loop currentVersion releases changelog
      = (newerReleases releases currentVersion).reverse.map entry ++ changelog := by
  induction releases generalizing changelog with
  | nil => rfl
  | cons rel rest ih =>
    by_cases h : Strings.TrimLeft rel.GetTagName 'v' = currentVersion
    · simp [GetChangeLog.loop, newerReleases, h]
    · rw [GetChangeLog.loop, if_neg h, ih]
      simp [newerReleases, h]

/-- C22. With a release list already loaded, `GetChangeLog` returns no error and
the entries of the releases that come before the first release whose tag without
its leading `v` equals `currentVersion`, in the reverse of the list order; the
text is empty when the first release is the current version. -/
theorem GetChangeLog_returns (ListReleases : List RepositoryRelease × Option String)
    (gh : GithubContainer) (currentVersion : String) (hloaded : gh.Releases ≠ []) :
    gh.GetChangeLog ListReleases currentVersion = (changeLog gh.Releases currentVersion, none)
    ∧ (∀ first rest, gh.Releases = first :: rest →
        Strings.TrimLeft first.GetTagName 'v' = currentVersion →
        gh.GetChangeLog ListReleases currentVersion = ("", none)) := by
  have hlen : gh.Releases.length > 0 := List.length_pos.mpr hloaded
  have hload : gh.loadReleases ListReleases = (gh, none) := by
    simp [GithubContainer.loadReleases, hlen]
  have hres : gh.GetChangeLog ListReleases currentVersion
      = (changeLog gh.Releases currentVersion, none) := by
    simp only [GithubContainer.GetChangeLog, hload, GetChangeLog.loop_eq, List.append_nil,
      Join_empty, changeLog]
  refine ⟨hres, ?_⟩
  intro first rest hfirst htag
  rw [hres, hfirst]
  simp [changeLog, newerReleases, htag, concatenation]

/-- C22, instance: from version 1.0.0 the change log is that of 1.1.0 followed by
that of 1.2.0. -/
theorem GetChangeLog_returns_witness :
    (⟨exampleReleases⟩ : GithubContainer).Releases ≠ []
    ∧ (⟨exampleReleases⟩ : GithubContainer).GetChangeLog ([], some "offline") "1.0.0"
        = ("v1.1.0\nfixes\nv1.2.0\nfaster\n", none) :=
  ⟨by decide,
    (GetChangeLog_returns ([], some "offline") ⟨exampleReleases⟩ "1.0.0" (by decide)).1.trans
      (by decide)⟩

end Github

namespace Path

theorem Ext.scan_eq (r seen : List Char) (h : Ext.scan r seen ≠ []) :
    ∃ pre rest, r = pre ++ '.' :: rest ∧ (∀ c ∈ pre, c ≠ '/' ∧ c ≠ '.')
      ∧ Ext.scan r seen = '.' :: (pre.reverse ++ seen) := by
  induction r generalizing seen with
  | nil => exact absurd rfl h
  | cons c rest ih =>
    by_cases h1 : c = '/'
    · simp [Ext.scan, h1] at h
    · by_cases h2 : c = '.'
      · exact ⟨[], rest, by simp [h2], by simp, by simp [Ext.scan, h2]⟩
      · have hs : Ext.scan (c :: rest) seen = Ext.scan rest (c :: seen) := by
          simp [Ext.scan, h1, h2]
        rw [hs] at h ⊢
        obtain ⟨pre, rest2, hr, hpre, heq⟩ := ih (c :: seen) h
        refine ⟨c :: pre, rest2, by simp [hr], ?_, by simp [heq]⟩
        intro d hd
        rcases List.mem_cons.mp hd with rfl | hd
        · exact ⟨h1, h2⟩
        · exact hpre d hd

theorem Ext.scan_takeWhile (r seen : List Char) :
    Ext.scan (r.takeWhile (fun c => c != '/')) seen = Ext.scan r seen := by
  induction r generalizing seen with
  | nil => rfl
  | cons c rest ih =>
    by_cases h1 : c = '/'
    · simp [Ext.scan, h1]
    · by_cases h2 : c = '.'
      · simp [Ext.scan, h2]
      · simp [Ext.scan, h1, h2, ih]

theorem Base_of_last (p : String) (c : Char) (rest : List Char)
    (hr : p.data.reverse = c :: rest) (hc : c ≠ '/') :
    Base p = String.mk ((c :: rest.takeWhile (fun c => c != '/')).reverse) := by
  have hp : p ≠ "" := by
    intro h
    rw [h] at hr
    cases hr
  unfold Base
  rw [if_neg hp, hr]
  simp [hc]

theorem takeWhile_append_dot (pre rest : List Char) (hpre : ∀ c ∈ pre, c ≠ '/' ∧ c ≠ '.') :
    (pre ++ '.' :: rest).takeWhile (fun c => c != '/')
      = pre ++ '.' :: rest.takeWhile (fun c => c != '/') := by
  induction pre with
  | nil => simp
  | cons d t ih =>
    have hd := (hpre d (List.mem_cons_self d t)).1
    simp only [List.cons_append]
    rw [List.takeWhile_cons_of_pos (by simpa using hd)]
    rw [ih (fun c hc => hpre c (List.mem_cons_of_mem d hc))]

/-- A path with an extension has a base name that ends with it, and the extension
starts with a dot. -/
theorem Base_ends_with_Ext (p : String) (h : Ext p ≠ "") :
    (Ext p).data <:+ (Base p).data ∧ (Ext p).data.head? = some '.' := by
  have hscan : Ext.scan p.data.reverse [] ≠ [] := by
    intro h0
    apply h
    simp [Ext, h0]
  obtain ⟨pre, rest, hr, hpre, heq⟩ := Ext.scan_eq _ _ hscan
  have hext : (Ext p).data = '.' :: pre.reverse := by simp [Ext, heq]
  have htake := takeWhile_append_dot pre rest hpre
  have hbase : (Base p).data
      = (rest.takeWhile (fun c => c != '/')).reverse ++ '.' :: pre.reverse := by
    cases pre with
    | nil =>
      rw [Base_of_last p '.' rest (by simpa using hr) (by decide)]
      simp
    | cons d t =>
      have hd := (hpre d (List.mem_cons_self d t)).1
      rw [Base_of_last p d (t ++ '.' :: rest) (by simpa using hr) hd]
      have ht := takeWhile_append_dot t rest (fun c hc => hpre c (List.mem_cons_of_mem d hc))
      rw [ht]
      simp
  rw [hext, hbase]
  exact ⟨List.suffix_append _ _, rfl⟩

/-- For a path that is not empty and does not end with a slash, the extension of
the path is the extension of its base name. -/
theorem Ext_Base (p : String) (c : Char) (hlast : p.data.getLast? = some c) (hc : c ≠ '/') :
    Ext (Base p) = Ext p := by
  have hr : p.data.reverse = c :: (p.data.reverse).tail := by
    have : p.data.reverse.head? = some c := by rw [List.head?_reverse]; exact hlast
    cases hrev : p.data.reverse with
    | nil => rw [hrev] at this; cases this
    | cons d t =>
      rw [hrev] at this
      simp only [List.head?_cons, Option.some.injEq] at this
      rw [this]
      rfl
  rw [Base_of_last p c _ hr hc]
  unfold Ext
  congr 1
  rw [hr]
  simp only [List.reverse_reverse]
  have := Ext.scan_takeWhile (c :: p.data.reverse.tail) []
  rw [List.takeWhile_cons_of_pos (by simpa using hc)] at this
  exact this

end Path

namespace Filesystem

theorem SaveFile.filename_of_no_ext (executablePath : String)
    (h : Path.Ext executablePath = "") :
    SaveFile.filename executablePath = Path.Base executablePath := by
  simp [SaveFile.filename, h]

theorem SaveFile.filename_of_ext (executablePath : String)
    (h : Path.Ext executablePath ≠ "") :
    SaveFile.filename executablePath
      = Path.Base executablePath ++ "." ++ Path.Ext executablePath := by
  have hlen : (Path.Ext executablePath).length > 0 := by
    rcases Nat.eq_zero_or_pos (Path.Ext executablePath).length with h0 | h0
    · exact absurd (String.ext (List.length_eq_zero.mp h0)) h
    · exact h0
  simp [SaveFile.filename, hlen]

theorem SaveFile.rename_target (os : Os) (dir executablePath : String) (mode : Nat)
    (oldpath newpath : String)
    (h : Call.Rename oldpath newpath ∈ (SaveFile os dir executablePath mode).2) :
    newpath = SaveFile.finalPath os.userHomeDir executablePath := by
  unfold SaveFile at h
  cases h1 : os.createErr <;> cases h2 : os.copyErr <;> cases h3 : os.chmodErr <;>
    cases h4 : os.renameErr <;> simp [h1, h2, h3, h4] at h <;> exact h.2

/-- C23, counterexample. The base name of `tool.sh/` is `tool.sh`, which has the
extension `.sh`, and the file is renamed to `tool.sh` in the bin directory, not
to `tool.sh..sh` as it is for the path `tool.sh`. -/
theorem SaveFile_trailing_slash :
    Path.Base "tool.sh/" = "tool.sh"
    ∧ Path.Ext (Path.Base "tool.sh/") = ".sh"
    ∧ SaveFile quietOs "tool.sh" "tool.sh/" 493
        = (none, [Call.Create "tool.sh/tmp-file", Call.Copy "tool.sh/tmp-file",
                  Call.Chmod "tool.sh/tmp-file" 493,
                  Call.Rename "tool.sh/tmp-file" "/home/dev/.ankor/bin/tool.sh"])
    ∧ SaveFile.finalPath "/home/dev" "tool.sh" = "/home/dev/.ankor/bin/tool.sh..sh" := by
  decide

/-- C23, amended. Every rename `SaveFile` makes goes to the bin directory, under
the name computed at lines 41-48, and the rename is made when the four calls
succeed. That name is the base name of `executablePath` when `path.Ext` of the
whole path is empty; otherwise it is the base name, a dot and the extension,
where the base name ends with the extension, the extension starts with its dot,
and the name differs from the base name. For a path that does not end with a
slash, `path.Ext` of the path is the extension of the base name. -/
theorem SaveFile_destination (os : Os) (dir executablePath : String) (mode : Nat) :
    (∀ oldpath newpath,
        Call.Rename oldpath newpath ∈ (SaveFile os dir executablePath mode).2 →
        newpath = (Util.NewDirs os.userHomeDir).GetBinDir ++ "/"
          ++ SaveFile.filename executablePath)
    ∧ (os.createErr = none ∧ os.copyErr = none ∧ os.chmodErr = none ∧ os.renameErr = none →
        (SaveFile os dir executablePath mode).1 = none
        ∧ Call.Rename (SaveFile.tmpPath dir)
            ((Util.NewDirs os.userHomeDir).GetBinDir ++ "/"
              ++ SaveFile.filename executablePath)
          ∈ (SaveFile os dir executablePath mode).2)
    ∧ (Path.Ext executablePath = "" →
        SaveFile.filename executablePath = Path.Base executablePath)
    ∧ (Path.Ext executablePath ≠ "" →
        SaveFile.filename executablePath
          = Path.Base executablePath ++ "." ++ Path.Ext executablePath
        ∧ (Path.Ext executablePath).data <:+ (Path.Base executablePath).data
        ∧ (Path.Ext executablePath).data.head? = some '.'
        ∧ SaveFile.filename executablePath ≠ Path.Base executablePath)
    ∧ (∀ c, executablePath.data.getLast? = some c → c ≠ '/' →
        Path.Ext (Path.Base executablePath) = Path.Ext executablePath) := by
  refine ⟨?_, ?_, SaveFile.filename_of_no_ext executablePath, ?_, ?_⟩
  · intro oldpath newpath h
    exact SaveFile.rename_target os dir executablePath mode oldpath newpath h
  · rintro ⟨h1, h2, h3, h4⟩
    simp [SaveFile, h1, h2, h3, h4, SaveFile.finalPath]
  · intro h
    obtain ⟨hsuf, hdot⟩ := Path.Base_ends_with_Ext executablePath h
    refine ⟨SaveFile.filename_of_ext executablePath h, hsuf, hdot, ?_⟩
    rw [SaveFile.filename_of_ext executablePath h]
    intro heq
    have := congrArg String.length heq
    simp only [String.length_append] at this
    have h1 : ".".length = 1 := rfl
    omega
  · intro c hlast hc
    exact Path.Ext_Base executablePath c hlast hc

end Filesystem

namespace Docker

theorem Declared.opt_ok (d : Declared) (cfg : RunConfig) (h : cfg.Name = "") :
    (d.opt cfg).2 = none
    ∧ (d.opt cfg).1.Name = ""
    ∧ (d.opt cfg).1.HostConfig.map (fun c => c.Mounts)
        = d.mounts?.or (cfg.HostConfig.map (fun c => c.Mounts))
    ∧ ((d.opt cfg).1.Config.map (fun c => c.Shell)).getD []
        = d.shell?.getD ((cfg.Config.map (fun c => c.Shell)).getD []) := by
  obtain ⟨config, hostConfig, name⟩ := cfg
  simp only at h
  subst h
  cases d <;> cases config <;> cases hostConfig <;>
    simp [Declared.opt, Declared.mounts?, Declared.shell?, RunWithImage, RunWithWorkingDir,
      RunWithEntrypoint, RunWithCommand, RunWithMounts, RunWithShell, initRunConfig,
      initRunHostConfig]

theorem Run.configure_ok (decls : List Declared) (cfg : RunConfig) (h : cfg.Name = "") :
    (Run.configure (decls.map Declared.opt) cfg).2 = none
    ∧ (Run.configure (decls.map Declared.opt) cfg).1.Name = ""
    ∧ (Run.configure (decls.map Declared.opt) cfg).1.HostConfig.map (fun c => c.Mounts)
        = (decls.filterMap Declared.mounts?).getLast?.or
            (cfg.HostConfig.map (fun c => c.Mounts))
    ∧ ((Run.configure (decls.map Declared.opt) cfg).1.Config.map (fun c => c.Shell)).getD []
        = (decls.filterMap Declared.shell?).getLast?.getD
            ((cfg.Config.map (fun c => c.Shell)).getD []) := by
  induction decls generalizing cfg with
  | nil => simp [Run.configure, h]
  | cons d rest ih =>
    obtain ⟨h1, h2, h3, h4⟩ := Declared.opt_ok d cfg h
    have hstep : Run.configure ((d :: rest).map Declared.opt) cfg
        = Run.configure (rest.map Declared.opt) (d.opt cfg).1 := by
      simp only [List.map_cons, Run.configure]
      cases hd : d.opt cfg with
      | mk cfg1 err =>
        rw [hd] at h1
        simp only at h1
        subst h1
        rfl
    obtain ⟨i1, i2, i3, i4⟩ := ih (d.opt cfg).1 h2
    rw [hstep]
    refine ⟨i1, i2, ?_, ?_⟩
    · rw [i3, h3, List.filterMap_cons]
      cases hm : d.mounts? with
      | none => simp
      | some m =>
        simp only [List.getLast?_cons]
        cases (List.filterMap Declared.mounts? rest).getLast? <;> simp
    · rw [i4, h4, List.filterMap_cons]
      cases hm : d.shell? with
      | none => simp
      | some m =>
        simp only [List.getLast?_cons]
        cases (List.filterMap Declared.shell? rest).getLast? <;> simp

/-- C24. Applied in order to an empty `RunConfig`, options built with the six
constructors never return an error and leave `Name` empty; the mounts of the
result are those of the last call of `RunWithMounts`, its shell that of the last
call of `RunWithShell`. The guards of `RunWithMounts` and `RunWithShell` fire
exactly when `Name` is not empty, whatever mounts or shell are set. -/
theorem Run_options_never_fail (decls : List Declared) :
    (Run.options (decls.map Declared.opt)).2 = none
    ∧ (Run.options (decls.map Declared.opt)).1.Name = ""
    ∧ (Run.options (decls.map Declared.opt)).1.HostConfig.map (fun c => c.Mounts)
        = (decls.filterMap Declared.mounts?).getLast?
    ∧ ((Run.options (decls.map Declared.opt)).1.Config.map (fun c => c.Shell)).getD []
        = (decls.filterMap Declared.shell?).getLast?.getD []
    ∧ (∀ (cfg : RunConfig) (mounts : List Mount),
        (RunWithMounts mounts cfg).2
          = if cfg.Name ≠ "" then some ("\x27Mounts\x27 cannot be declared more than once")
            else none)
    ∧ (∀ (cfg : RunConfig) (shell : List String),
        (RunWithShell shell cfg).2
          = if cfg.Name ≠ "" then some ("\x27Mounts\x27 cannot be declared more than once")
            else none) := by
  obtain ⟨h1, h2, h3, h4⟩ := Run.configure_ok decls {} rfl
  refine ⟨h1, h2, ?_, ?_, ?_, ?_⟩
  · rw [Run.options, h3]
    simp
  · rw [Run.options, h4]
    rfl
  · intro cfg mounts
    by_cases hn : cfg.Name = ""
    · simp [RunWithMounts, initRunHostConfig, hn]
      split <;> simp [hn]
    · simp [RunWithMounts, initRunHostConfig, hn]
      split <;> simp [hn] <;> rfl
  · intro cfg shell
    by_cases hn : cfg.Name = ""
    · simp [RunWithShell, initRunConfig, hn]
      split <;> simp [hn]
    · simp [RunWithShell, initRunConfig, hn]
      split <;> simp [hn] <;> rfl

/-- An instance of C24: mounts declared twice and a shell declared twice are
accepted, and the last declarations are kept. -/
theorem Run_options_example :
    Run.options [RunWithImage "alpine", RunWithMounts [⟨"/src", "/app"⟩],
        RunWithShell ["sh"], RunWithMounts [⟨"/tmp", "/cache"⟩], RunWithShell ["bash", "-c"]]
      = ({ Config := some { Image := "alpine", Shell := ["bash", "-c"] },
           HostConfig := some { Mounts := [⟨"/tmp", "/cache"⟩] },
           Name := "" }, none) := by
  decide

end Docker
